import Mathlib

/-! The metric log of go-aws-emf, its validator and its JSON projection.

A shallow embedding of `pkg/emf` (`emf.go`, `validator.go`, `constants.go`,
`emf-format.go`, `builder.go`).

* Go strings are Lean strings; Go's `len(s)` is the number of UTF-8 bytes.
* Go's `int` is `Int`.
* A pointer field (`*string`, `*int`) is an `Option`.
* `map[string]interface{}` is an association list with pairwise distinct keys.
* A method that mutates its receiver is a function from the old state to the
  new one; `none` stands for a run-time panic (index 0 of an empty slice).
* `json.Marshal` is modelled up to the JSON tree it writes out: object members
  are kept in the order in which they are written (struct fields in
  declaration order, map keys sorted).
-/

namespace Emf

/-! ## constants.go -/

def UnitSeconds : String := "Seconds"
def UnitMicroseconds : String := "Microseconds"
def UnitMilliseconds : String := "Milliseconds"
def UnitBytes : String := "Bytes"
def UnitKilobytes : String := "Kilobytes"
def UnitMegabytes : String := "Megabytes"
def UnitGigabytes : String := "Gigabytes"
def UnitTerabytes : String := "Terabytes"
def UnitBits : String := "Bits"
def UnitKilobits : String := "Kilobits"
def UnitMegabits : String := "Megabits"
def UnitGigabits : String := "Gigabits"
def UnitTerabits : String := "Terabits"
def UnitPercent : String := "Percent"
def UnitCount : String := "Count"
def UnitBytesPerSecond : String := "Bytes/Second"
def UnitKBPerSecond : String := "Kilobytes/Second"
def UnitMBPerSecond : String := "Megabytes/Second"
def UnitGBPerSecond : String := "Gigabytes/Second"
def UnitTBPerSecond : String := "Terabytes/Second"
def UnitBitsPerSecond : String := "Bits/Second"
def UnitKbitsPerSecond : String := "Kilobits/Second"
def UnitMbitsPerSecond : String := "Megabits/Second"
def UnitGbitsPerSecond : String := "Gigabits/Second"
def UnitTbitsPerSecond : String := "Terabits/Second"
def UnitCountPerSecond : String := "Count/Second"
def UnitNone : String := "None"

def StorageResolutionStandard : Int := 60
def StorageResolutionHigh : Int := 1

def MaxDimensionSetSize : Nat := 30
def MaxDimensionNameLength : Nat := 250
def MinDimensions : Nat := 1
def MaxNamespaceLength : Nat := 1024
def MinNamespaceLength : Nat := 1
def MaxMetricNameLength : Nat := 1024
def MinMetricNameLength : Nat := 1

/-- The 27 unit constants of `constants.go`, in the order declared. -/
def Units : List String :=
  [UnitSeconds, UnitMicroseconds, UnitMilliseconds, UnitBytes, UnitKilobytes, UnitMegabytes,
   UnitGigabytes, UnitTerabytes, UnitBits, UnitKilobits, UnitMegabits, UnitGigabits,
   UnitTerabits, UnitPercent, UnitCount, UnitBytesPerSecond, UnitKBPerSecond, UnitMBPerSecond,
   UnitGBPerSecond, UnitTBPerSecond, UnitBitsPerSecond, UnitKbitsPerSecond, UnitMbitsPerSecond,
   UnitGbitsPerSecond, UnitTbitsPerSecond, UnitCountPerSecond, UnitNone]

/-! ## Go primitives -/

/-- Go's `len(s)` on a string: the number of bytes of its UTF-8 encoding. -/
def len (s : String) : Nat := s.utf8ByteSize

/-- A value of Go's `interface{}` as it is stored in the flat value map: a
string, an integer, a finite float (`m * 2 ^ e`), a boolean, `nil`, or a value
that `encoding/json` refuses to encode (a NaN or infinite float, a channel, a
function, a complex number). -/
inductive Value where
  | str (s : String)
  | int (n : Int)
  | float (m : Int) (e : Int)
  | bool (b : Bool)
  | null
  | unsupported
  deriving DecidableEq, Repr

/-- The flat value map `map[string]interface{}`. -/
abbrev ValueMap := AList (fun _ : String => Value)

/-! ## emf-format.go -/

structure EmfFormatJsonAwsCloudWatchMetricsElemMetricsElem where
  Name : String
  StorageResolution : Option Int
  Unit : Option String
  deriving DecidableEq, Repr

structure EmfFormatJsonAwsCloudWatchMetricsElem where
  Dimensions : List (List String)
  Metrics : List EmfFormatJsonAwsCloudWatchMetricsElemMetricsElem
  Namespace : String
  deriving DecidableEq, Repr

structure EmfFormatJsonAws where
  CloudWatchMetrics : List EmfFormatJsonAwsCloudWatchMetricsElem
  Timestamp : Int
  deriving DecidableEq, Repr

structure EmfFormatJson where
  Aws : EmfFormatJsonAws
  deriving DecidableEq, Repr

/-! ## emf.go: the log and its mutations -/

structure MetricLog where
  emf : EmfFormatJson
  metrics : ValueMap
  deriving DecidableEq

/-- The constructor `NewMetricLog(ns)` for the namespace `ns`; `timestamp` is
what `time.Now().UnixMilli()` returned. -/
def NewMetricLog (ns : String) (timestamp : Int) : MetricLog :=
  { emf := { Aws := { Timestamp := timestamp
                      CloudWatchMetrics :=
                        [{ Namespace := ns, Dimensions := [], Metrics := [] }] } }
    metrics := ∅ }

/-- The assignment `directive.field = ...` through
`directive := &ml.emf.Aws.CloudWatchMetrics[0]`; `none` when the slice is
empty. -/
def updateDirective (ml : MetricLog)
    (f : EmfFormatJsonAwsCloudWatchMetricsElem → EmfFormatJsonAwsCloudWatchMetricsElem) :
    Option MetricLog :=
  match ml.emf.Aws.CloudWatchMetrics with
  | [] => none
  | directive :: rest =>
    some { ml with emf := { Aws := { ml.emf.Aws with CloudWatchMetrics := f directive :: rest } } }

def WithDimensionSet (ml : MetricLog) (dimensions : List String) : Option MetricLog :=
  updateDirective ml (fun metricDirective =>
    { metricDirective with Dimensions := metricDirective.Dimensions ++ [dimensions] })

def PutDimension (ml : MetricLog) (key value : String) : MetricLog :=
  { ml with metrics := ml.metrics.insert key (Value.str value) }

def PutMetric (ml : MetricLog) (name : String) (value : Value) (unit : String) :
    Option MetricLog :=
  let ml1 := { ml with metrics := ml.metrics.insert name value }
  let metricDef : EmfFormatJsonAwsCloudWatchMetricsElemMetricsElem :=
    { Name := name, Unit := some unit, StorageResolution := none }
  updateDirective ml1 (fun directive => { directive with Metrics := directive.Metrics ++ [metricDef] })

def PutMetricWithResolution (ml : MetricLog) (name : String) (value : Value) (unit : String)
    (resolution : Int) : Option MetricLog :=
  let ml1 := { ml with metrics := ml.metrics.insert name value }
  let metricDef : EmfFormatJsonAwsCloudWatchMetricsElemMetricsElem :=
    { Name := name, Unit := some unit, StorageResolution := some resolution }
  updateDirective ml1 (fun directive => { directive with Metrics := directive.Metrics ++ [metricDef] })

/-! ## builder.go -/

structure MetricLogBuilder where
  metricLog : MetricLog
  deriving DecidableEq

def NewMetricLogBuilder (ml : MetricLog) : MetricLogBuilder := { metricLog := ml }

def Builder (ml : MetricLog) : MetricLogBuilder := NewMetricLogBuilder ml

namespace MetricLogBuilder

def Dimension (b : MetricLogBuilder) (key value : String) : MetricLogBuilder :=
  { metricLog := PutDimension b.metricLog key value }

def DimensionSet (b : MetricLogBuilder) (dimensions : List String) : Option MetricLogBuilder :=
  (WithDimensionSet b.metricLog dimensions).map (fun ml => { metricLog := ml })

def Metric (b : MetricLogBuilder) (name : String) (value : Value) (unit : String) :
    Option MetricLogBuilder :=
  (PutMetric b.metricLog name value unit).map (fun ml => { metricLog := ml })

def MetricWithResolution (b : MetricLogBuilder) (name : String) (value : Value) (unit : String)
    (resolution : Int) : Option MetricLogBuilder :=
  (PutMetricWithResolution b.metricLog name value unit resolution).map
    (fun ml => { metricLog := ml })

def Property (b : MetricLogBuilder) (key : String) (value : Value) : MetricLogBuilder :=
  { metricLog := { b.metricLog with metrics := b.metricLog.metrics.insert key value } }

def Build (b : MetricLogBuilder) : MetricLog := b.metricLog

end MetricLogBuilder

/-! ## validator.go -/

/-- The alternatives of `unitRegex`, in the order of the pattern. -/
def unitAlternatives : List String :=
  ["Seconds", "Microseconds", "Milliseconds", "Bytes", "Kilobytes", "Megabytes", "Gigabytes",
   "Terabytes", "Bits", "Kilobits", "Megabits", "Gigabits", "Terabits", "Percent", "Count",
   "Bytes/Second", "Kilobytes/Second", "Megabytes/Second", "Gigabytes/Second",
   "Terabytes/Second", "Bits/Second", "Kilobits/Second", "Megabits/Second", "Gigabits/Second",
   "Terabits/Second", "Count/Second", "None"]

/-- The call `unitRegex.MatchString(s)`: the pattern is an alternation of
literals between `^` and `$`, so it matches exactly the listed strings. -/
def unitRegexMatchString (s : String) : Bool := decide (s ∈ unitAlternatives)

/-- The errors built by `fmt.Errorf` in `Validate`, one constructor per format
string, with the arguments of the format; `jsonUnsupported` is the error of
`json.Marshal` on a value it cannot encode. -/
inductive Error where
  | namespaceTooShort
  | namespaceTooLong
  | noMetrics
  | noDimensionSets
  | emptyDimensionSet (i : Nat)
  | metricNameTooShort (name : String)
  | metricNameTooLong (name : String)
  | metricValueMissing (name : String)
  | invalidUnit (unit : String) (name : String)
  | invalidStorageResolution (name : String)
  | dimensionSetTooLarge (i : Nat)
  | dimensionNameTooLong (dim : String)
  | dimensionValueMissing (dim : String)
  | jsonUnsupported
  deriving DecidableEq, Repr

/-- The text of an error (`err.Error()`). For `jsonUnsupported` the text of
`encoding/json` goes on after "json: unsupported" with what was refused
("json: unsupported value: NaN", "json: unsupported type: chan int"); only the
beginning "json: " is relied on. -/
def Error.message : Error → String
  | .namespaceTooShort =>
    "namespace length must be at least " ++ toString MinNamespaceLength ++ " characters"
  | .namespaceTooLong =>
    "namespace length must be at most " ++ toString MaxNamespaceLength ++ " characters"
  | .noMetrics => "at least one metric must be defined"
  | .noDimensionSets => "at least one dimension set must be defined"
  | .emptyDimensionSet i =>
    "dimension set " ++ toString i ++ " is empty, must contain at least one dimension"
  | .metricNameTooShort name =>
    "metric name '" ++ name ++ "' length must be at least " ++ toString MinMetricNameLength
      ++ " characters"
  | .metricNameTooLong name =>
    "metric name '" ++ name ++ "' length must be at most " ++ toString MaxMetricNameLength
      ++ " characters"
  | .metricValueMissing name => "metric '" ++ name ++ "' is defined but no value is provided"
  | .invalidUnit unit name => "invalid unit '" ++ unit ++ "' for metric '" ++ name ++ "'"
  | .invalidStorageResolution name =>
    "invalid storage resolution for metric '" ++ name ++ "'. Must be either "
      ++ toString StorageResolutionStandard ++ " (standard) or "
      ++ toString StorageResolutionHigh ++ " (high resolution)"
  | .dimensionSetTooLarge i =>
    "dimension set " ++ toString i ++ " exceeds maximum size of " ++ toString MaxDimensionSetSize
  | .dimensionNameTooLong dim =>
    "dimension name '" ++ dim ++ "' exceeds maximum length of " ++ toString MaxDimensionNameLength
  | .dimensionValueMissing dim =>
    "dimension '" ++ dim ++ "' is referenced but no value is provided"
  | .jsonUnsupported => "json: unsupported value"

/-- The loop "Check that no dimension set is empty", from set index `i` on. -/
def checkNoEmptySet : Nat → List (List String) → Option Error
  | _, [] => none
  | i, dimSet :: rest =>
    if dimSet.length = 0 then some (Error.emptyDimensionSet i)
    else checkNoEmptySet (i + 1) rest

/-- The body of the loop "Validate metric names" for one metric. -/
def validateMetric (metrics : ValueMap)
    (metric : EmfFormatJsonAwsCloudWatchMetricsElemMetricsElem) : Option Error :=
  if len metric.Name < MinMetricNameLength then some (Error.metricNameTooShort metric.Name)
  else if len metric.Name > MaxMetricNameLength then some (Error.metricNameTooLong metric.Name)
  else if (metrics.lookup metric.Name).isNone then some (Error.metricValueMissing metric.Name)
  else
    let unitError : Option Error :=
      match metric.Unit with
      | some unit =>
        if !unitRegexMatchString unit then some (Error.invalidUnit unit metric.Name) else none
      | none => none
    match unitError with
    | some err => some err
    | none =>
      match metric.StorageResolution with
      | some resolution =>
        if resolution ≠ StorageResolutionStandard ∧ resolution ≠ StorageResolutionHigh then
          some (Error.invalidStorageResolution metric.Name)
        else none
      | none => none

/-- The loop "Validate metric names". -/
def validateMetrics (metrics : ValueMap) :
    List EmfFormatJsonAwsCloudWatchMetricsElemMetricsElem → Option Error
  | [] => none
  | metric :: rest =>
    match validateMetric metrics metric with
    | some err => some err
    | none => validateMetrics metrics rest

/-- The inner loop "Validate each dimension in the set". -/
def validateDimensionNames (metrics : ValueMap) : List String → Option Error
  | [] => none
  | dim :: rest =>
    if len dim > MaxDimensionNameLength then some (Error.dimensionNameTooLong dim)
    else if (metrics.lookup dim).isNone then some (Error.dimensionValueMissing dim)
    else validateDimensionNames metrics rest

/-- The loop "Validate dimension sets", from set index `i` on. -/
def validateDimensionSets (metrics : ValueMap) : Nat → List (List String) → Option Error
  | _, [] => none
  | i, dimSet :: rest =>
    if dimSet.length > MaxDimensionSetSize then some (Error.dimensionSetTooLarge i)
    else
      match validateDimensionNames metrics dimSet with
      | some err => some err
      | none => validateDimensionSets metrics (i + 1) rest

/-- The body of `Validate` once `directive` is bound. -/
def validateDirective (metrics : ValueMap) (directive : EmfFormatJsonAwsCloudWatchMetricsElem) :
    Option Error :=
  if len directive.Namespace < MinNamespaceLength then some Error.namespaceTooShort
  else if len directive.Namespace > MaxNamespaceLength then some Error.namespaceTooLong
  else if directive.Metrics.length = 0 then some Error.noMetrics
  else if directive.Dimensions.length < MinDimensions then some Error.noDimensionSets
  else
    match checkNoEmptySet 0 directive.Dimensions with
    | some err => some err
    | none =>
      match validateMetrics metrics directive.Metrics with
      | some err => some err
      | none => validateDimensionSets metrics 0 directive.Dimensions

/-- The method `Validate`: `none` is the panic of `CloudWatchMetrics[0]` on an empty
slice, `some none` is the return of `nil`, `some (some err)` the return of an
error. -/
def Validate (ml : MetricLog) : Option (Option Error) :=
  match ml.emf.Aws.CloudWatchMetrics with
  | [] => none
  | directive :: _ => some (validateDirective ml.metrics directive)

/-! ## encoding/json, as far as `MarshalJSON` uses it -/

/-- A JSON document as a tree. The members of an object are listed in the order
in which they are written. -/
inductive Json where
  | null
  | bool (b : Bool)
  | int (n : Int)
  | float (m : Int) (e : Int)
  | str (s : String)
  | arr (elems : List Json)
  | obj (members : List (String × Json))

/-- The members of an object; no members for any other document. -/
def Json.members : Json → List (String × Json)
  | .obj ms => ms
  | _ => []

/-- The keys of an object, in the order written. -/
def Json.keys (j : Json) : List String := j.members.map Prod.fst

/-- The value of member `k` of an object. -/
def Json.get (j : Json) (k : String) : Option Json := j.members.lookup k

/-- The elements of an array; no elements for any other document. -/
def Json.elems : Json → List Json
  | .arr es => es
  | _ => []

/-- What `json.Marshal` writes for a flat value; `none` when it returns an
unsupported-value or unsupported-type error. -/
def Value.encode : Value → Option Json
  | .str s => some (Json.str s)
  | .int n => some (Json.int n)
  | .float m e => some (Json.float m e)
  | .bool b => some (Json.bool b)
  | .null => some Json.null
  | .unsupported => none

/-- The struct `EmfFormatJsonAwsCloudWatchMetricsElemMetricsElem` under its
`json` tags: `Name`, then `StorageResolution` and `Unit`, both `omitempty`. -/
def encodeMetricsElem (m : EmfFormatJsonAwsCloudWatchMetricsElemMetricsElem) : Json :=
  Json.obj
    ([("Name", Json.str m.Name)]
      ++ (match m.StorageResolution with
          | some r => [("StorageResolution", Json.int r)]
          | none => [])
      ++ (match m.Unit with
          | some u => [("Unit", Json.str u)]
          | none => []))

/-- The struct `EmfFormatJsonAwsCloudWatchMetricsElem` under its `json` tags. -/
def encodeDirective (d : EmfFormatJsonAwsCloudWatchMetricsElem) : Json :=
  Json.obj
    [("Dimensions", Json.arr (d.Dimensions.map (fun dimSet => Json.arr (dimSet.map Json.str)))),
     ("Metrics", Json.arr (d.Metrics.map encodeMetricsElem)),
     ("Namespace", Json.str d.Namespace)]

/-- The struct `EmfFormatJsonAws` under its `json` tags. -/
def encodeAws (a : EmfFormatJsonAws) : Json :=
  Json.obj
    [("CloudWatchMetrics", Json.arr (a.CloudWatchMetrics.map encodeDirective)),
     ("Timestamp", Json.int a.Timestamp)]

/-- A value of `combinedMap`: the metadata struct stored under `"_aws"`, or a
flat value copied from `ml.metrics`. -/
inductive Any where
  | aws (a : EmfFormatJsonAws)
  | value (v : Value)
  deriving DecidableEq

def Any.encode : Any → Option Json
  | .aws a => some (encodeAws a)
  | .value v => v.encode

/-- Byte-wise order of two strings, read off their code points (UTF-8
preserves the order of code points). -/
def bytesLE : List Char → List Char → Bool
  | [], _ => true
  | _ :: _, [] => false
  | a :: as, b :: bs =>
    if a.toNat < b.toNat then true
    else if b.toNat < a.toNat then false
    else bytesLE as bs

/-- The order in which `json.Marshal` writes the keys of a map. -/
def keyLE (a b : String) : Bool := bytesLE a.data b.data

/-- Encode the entries of a map in the given order, stopping at the first value
that cannot be encoded. -/
def encodeMembers : List (Sigma (fun _ : String => Any)) → Option (List (String × Json))
  | [] => some []
  | e :: rest =>
    match e.2.encode with
    | none => none
    | some j =>
      match encodeMembers rest with
      | none => none
      | some js => some ((e.1, j) :: js)

/-- The call `json.Marshal(combinedMap)` on a `map[string]interface{}`: the
entries sorted by key, each value encoded; the pair is Go's `([]byte, error)`,
the bytes being those of the tree. -/
def jsonMarshal (m : AList (fun _ : String => Any)) : Option Json × Option Error :=
  match encodeMembers (m.entries.insertionSort (fun a b => keyLE a.1 b.1 = true)) with
  | some members => (some (Json.obj members), none)
  | none => (none, some Error.jsonUnsupported)

/-- The map built in `MarshalJSON`: `"_aws"` first, then every entry of
`ml.metrics` assigned in turn. -/
def combinedMap (ml : MetricLog) : AList (fun _ : String => Any) :=
  ml.metrics.foldl (fun acc k v => acc.insert k (Any.value v))
    ((∅ : AList (fun _ : String => Any)).insert "_aws" (Any.aws ml.emf.Aws))

/-- The method `MarshalJSON`: `none` is the panic of `Validate`; otherwise the
pair `([]byte, error)`. -/
def MarshalJSON (ml : MetricLog) : Option (Option Json × Option Error) :=
  match Validate ml with
  | none => none
  | some (some err) => some (none, some err)
  | some none => some (jsonMarshal (combinedMap ml))

/-! ## The checks of the validator one at a time, in the order of the specification -/

/-- The first failing check of a list of checks, each `none` when it passes. -/
def firstError : List (Option Error) → Option Error
  | [] => none
  | some err :: _ => some err
  | none :: rest => firstError rest

/-- Check 1: namespace length bounds. -/
def namespaceCheck (directive : EmfFormatJsonAwsCloudWatchMetricsElem) : Option Error :=
  if len directive.Namespace < 1 then some Error.namespaceTooShort
  else if 1024 < len directive.Namespace then some Error.namespaceTooLong
  else none

/-- Check 2: at least one metric definition. -/
def metricsExistCheck (directive : EmfFormatJsonAwsCloudWatchMetricsElem) : Option Error :=
  if directive.Metrics = [] then some Error.noMetrics else none

/-- Check 3: at least one dimension set. -/
def dimensionSetsExistCheck (directive : EmfFormatJsonAwsCloudWatchMetricsElem) :
    Option Error :=
  if directive.Dimensions = [] then some Error.noDimensionSets else none

/-- Check 4 for the set at position `i`: the set is not empty. -/
def emptySetCheck (i : Nat) (dimSet : List String) : Option Error :=
  if dimSet = [] then some (Error.emptyDimensionSet i) else none

/-- Check 4 for every set in insertion order, the first one at position `i`. -/
def emptySetChecks : Nat → List (List String) → List (Option Error)
  | _, [] => []
  | i, dimSet :: rest => emptySetCheck i dimSet :: emptySetChecks (i + 1) rest

/-- Check 5a: metric name length bounds. -/
def metricNameCheck (metric : EmfFormatJsonAwsCloudWatchMetricsElemMetricsElem) : Option Error :=
  if len metric.Name < 1 then some (Error.metricNameTooShort metric.Name)
  else if 1024 < len metric.Name then some (Error.metricNameTooLong metric.Name)
  else none

/-- Check 5b: the metric has a value in the flat value map. -/
def metricValueCheck (metrics : ValueMap)
    (metric : EmfFormatJsonAwsCloudWatchMetricsElemMetricsElem) : Option Error :=
  if metric.Name ∈ metrics then none else some (Error.metricValueMissing metric.Name)

/-- Check 5c: a unit that is present is one of the enumerated units. -/
def unitCheck (metric : EmfFormatJsonAwsCloudWatchMetricsElemMetricsElem) : Option Error :=
  match metric.Unit with
  | some unit => if unit ∈ Units then none else some (Error.invalidUnit unit metric.Name)
  | none => none

/-- Check 5d: a storage resolution that is present is 1 or 60. -/
def resolutionCheck (metric : EmfFormatJsonAwsCloudWatchMetricsElemMetricsElem) : Option Error :=
  match metric.StorageResolution with
  | some r => if r = 1 ∨ r = 60 then none else some (Error.invalidStorageResolution metric.Name)
  | none => none

/-- Check 5 for every metric definition in insertion order. -/
def metricChecks (metrics : ValueMap) :
    List EmfFormatJsonAwsCloudWatchMetricsElemMetricsElem → List (Option Error)
  | [] => []
  | metric :: rest =>
    [metricNameCheck metric, metricValueCheck metrics metric, unitCheck metric,
      resolutionCheck metric] ++ metricChecks metrics rest

/-- Check 6a for the set at position `i`: at most 30 entries. -/
def setSizeCheck (i : Nat) (dimSet : List String) : Option Error :=
  if 30 < dimSet.length then some (Error.dimensionSetTooLarge i) else none

/-- Check 6b: dimension name length at most 250. -/
def dimensionNameCheck (dim : String) : Option Error :=
  if 250 < len dim then some (Error.dimensionNameTooLong dim) else none

/-- Check 6c: the dimension has a value in the flat value map. -/
def dimensionValueCheck (metrics : ValueMap) (dim : String) : Option Error :=
  if dim ∈ metrics then none else some (Error.dimensionValueMissing dim)

/-- Checks 6b and 6c for every entry of a set, in order. -/
def entryChecks (metrics : ValueMap) : List String → List (Option Error)
  | [] => []
  | dim :: rest =>
    [dimensionNameCheck dim, dimensionValueCheck metrics dim] ++ entryChecks metrics rest

/-- Check 6 for every set in insertion order, the first one at position `i`. -/
def dimensionChecks (metrics : ValueMap) : Nat → List (List String) → List (Option Error)
  | _, [] => []
  | i, dimSet :: rest =>
    (setSizeCheck i dimSet :: entryChecks metrics dimSet)
      ++ dimensionChecks metrics (i + 1) rest

/-- All checks, in the fixed order (1) to (6). -/
def orderedChecks (metrics : ValueMap) (directive : EmfFormatJsonAwsCloudWatchMetricsElem) :
    List (Option Error) :=
  [namespaceCheck directive, metricsExistCheck directive, dimensionSetsExistCheck directive]
    ++ emptySetChecks 0 directive.Dimensions
    ++ metricChecks metrics directive.Metrics
    ++ dimensionChecks metrics 0 directive.Dimensions

/-! ## Example logs -/

/-- The directive of the minimal valid document. -/
def minimalDirective : EmfFormatJsonAwsCloudWatchMetricsElem :=
  { Namespace := "N"
    Dimensions := [["Service"]]
    Metrics := [{ Name := "Count", Unit := some "Count", StorageResolution := none }] }

/-- The minimal valid log: namespace "N", timestamp 1700000000000,
`PutDimension("Service","API")`, `WithDimensionSet(["Service"])`,
`PutMetric("Count", 1, "Count")`. -/
def minimalLog : MetricLog :=
  { emf := { Aws := { CloudWatchMetrics := [minimalDirective], Timestamp := 1700000000000 } }
    metrics := ((∅ : ValueMap).insert "Service" (Value.str "API")).insert "Count" (Value.int 1) }

/-- The directive of a log whose dimension "Service" has no value. -/
def missingValueDirective : EmfFormatJsonAwsCloudWatchMetricsElem :=
  { Namespace := "N"
    Dimensions := [["Service"]]
    Metrics := [{ Name := "M", Unit := some "Count", StorageResolution := none }] }

/-- Namespace "N", `WithDimensionSet(["Service"])`, `PutMetric("M", 1, "Count")`
and no value for "Service". -/
def missingValueLog : MetricLog :=
  { emf := { Aws := { CloudWatchMetrics := [missingValueDirective], Timestamp := 1700000000000 } }
    metrics := (∅ : ValueMap).insert "M" (Value.int 1) }

/-- Adding the property "_aws" to the minimal valid log through the builder:
`ml.Builder().Property("_aws", "x")`. -/
def collisionLog : MetricLog :=
  ((Builder minimalLog).Property "_aws" (Value.str "x")).Build

/-- The directive of the minimal valid log after
`PutMetric("Latency", math.NaN(), "Milliseconds")`. -/
def nanDirective : EmfFormatJsonAwsCloudWatchMetricsElem :=
  { minimalDirective with
    Metrics := minimalDirective.Metrics ++
      [{ Name := "Latency", Unit := some "Milliseconds", StorageResolution := none }] }

/-- The minimal valid log after `PutMetric("Latency", math.NaN(), "Milliseconds")`. -/
def nanLog : MetricLog :=
  { emf := { Aws := { CloudWatchMetrics := [nanDirective], Timestamp := 1700000000000 } }
    metrics := minimalLog.metrics.insert "Latency" Value.unsupported }

/-! ## Reading a document -/

/-- Every flat value can be encoded by `json.Marshal`: it is a string, an
integer, a finite float, a boolean or `nil`. -/
def Encodable (metrics : ValueMap) : Prop :=
  ∀ e ∈ metrics.entries, e.2 ≠ Value.unsupported

instance (metrics : ValueMap) : Decidable (Encodable metrics) := by
  unfold Encodable
  infer_instance

/-- The array elements of member `k` of an object. -/
def Json.elemsAt (j : Json) (k : String) : List Json :=
  match j.get k with
  | some a => a.elems
  | none => []

/-- The objects of `_aws.CloudWatchMetrics[*].Metrics[*]` of a document. -/
def metricObjects (doc : Json) : List Json :=
  match doc.get "_aws" with
  | some a => (a.elemsAt "CloudWatchMetrics").flatMap (fun d => d.elemsAt "Metrics")
  | none => []

/-- The log after `PutDimension("_aws", "x")` on the minimal valid log. -/
def shadowedLog : MetricLog := PutDimension minimalLog "_aws" "x"

/-! ## Sequences of mutations -/

/-- One call of a public mutation method: the four methods of `MetricLog` and
the five of `MetricLogBuilder`. -/
inductive Op where
  | putDimension (key value : String)
  | withDimensionSet (dimensions : List String)
  | putMetric (name : String) (value : Value) (unit : String)
  | putMetricWithResolution (name : String) (value : Value) (unit : String) (resolution : Int)
  | dimension (key value : String)
  | dimensionSet (dimensions : List String)
  | metric (name : String) (value : Value) (unit : String)
  | metricWithResolution (name : String) (value : Value) (unit : String) (resolution : Int)
  | property (key : String) (value : Value)
  deriving DecidableEq

/-- The log after one call; the builder methods are called on `ml.Builder()`. -/
def Op.apply (ml : MetricLog) : Op → Option MetricLog
  | .putDimension key value => some (PutDimension ml key value)
  | .withDimensionSet dimensions => WithDimensionSet ml dimensions
  | .putMetric name value unit => PutMetric ml name value unit
  | .putMetricWithResolution name value unit resolution =>
    PutMetricWithResolution ml name value unit resolution
  | .dimension key value => some ((Builder ml).Dimension key value).Build
  | .dimensionSet dimensions =>
    ((Builder ml).DimensionSet dimensions).map MetricLogBuilder.Build
  | .metric name value unit => ((Builder ml).Metric name value unit).map MetricLogBuilder.Build
  | .metricWithResolution name value unit resolution =>
    ((Builder ml).MetricWithResolution name value unit resolution).map MetricLogBuilder.Build
  | .property key value => some ((Builder ml).Property key value).Build

/-- The log after a sequence of calls, in call order. -/
def applyOps (ml : MetricLog) : List Op → Option MetricLog
  | [] => some ml
  | op :: rest => (op.apply ml).bind (fun ml1 => applyOps ml1 rest)

/-- The dimension set a call passes to `WithDimensionSet`, if it is such a call
(directly or through `DimensionSet` of the builder). -/
def Op.addedDimensionSet : Op → Option (List String)
  | .withDimensionSet dimensions => some dimensions
  | .dimensionSet dimensions => some dimensions
  | _ => none

/-- The metric definition a call of `PutMetric` or `PutMetricWithResolution`
(directly or through the builder) describes. -/
def Op.addedMetric : Op → Option EmfFormatJsonAwsCloudWatchMetricsElemMetricsElem
  | .putMetric name _ unit => some { Name := name, Unit := some unit, StorageResolution := none }
  | .metric name _ unit => some { Name := name, Unit := some unit, StorageResolution := none }
  | .putMetricWithResolution name _ unit resolution =>
    some { Name := name, Unit := some unit, StorageResolution := some resolution }
  | .metricWithResolution name _ unit resolution =>
    some { Name := name, Unit := some unit, StorageResolution := some resolution }
  | _ => none

/-- The directive of a log with one dimension set and no metric. -/
def noMetricDirective : EmfFormatJsonAwsCloudWatchMetricsElem :=
  { Namespace := "N", Dimensions := [["Service"]], Metrics := [] }

/-- The log `NewMetricLog("N")` at timestamp 1700000000000 after
`PutDimension("Service","API")` and `WithDimensionSet(["Service"])`: it has no
metric yet. -/
def noMetricLog : MetricLog :=
  { emf := { Aws := { CloudWatchMetrics := [noMetricDirective], Timestamp := 1700000000000 } }
    metrics := (∅ : ValueMap).insert "Service" (Value.str "API") }

/-- The document of the minimal valid log. -/
def minimalDocument : Json :=
  Json.obj
    [("Count", Json.int 1),
     ("Service", Json.str "API"),
     ("_aws", Json.obj
       [("CloudWatchMetrics", Json.arr
          [Json.obj
            [("Dimensions", Json.arr [Json.arr [Json.str "Service"]]),
             ("Metrics", Json.arr [Json.obj [("Name", Json.str "Count"),
                                             ("Unit", Json.str "Count")]]),
             ("Namespace", Json.str "N")]]),
        ("Timestamp", Json.int 1700000000000)])]

/-- The key and the value a call stores in the flat value map, if it stores
one. -/
def Op.written : Op → Option (String × Value)
  | .putDimension key value => some (key, Value.str value)
  | .putMetric name value _ => some (name, value)
  | .putMetricWithResolution name value _ _ => some (name, value)
  | .dimension key value => some (key, Value.str value)
  | .metric name value _ => some (name, value)
  | .metricWithResolution name value _ _ => some (name, value)
  | .property key value => some (key, value)
  | .withDimensionSet _ => none
  | .dimensionSet _ => none

/-- The method of `MetricLog` a builder method forwards to; `Property` has
none and is kept. -/
def Op.direct : Op → Op
  | .dimension key value => .putDimension key value
  | .dimensionSet dimensions => .withDimensionSet dimensions
  | .metric name value unit => .putMetric name value unit
  | .metricWithResolution name value unit resolution =>
    .putMetricWithResolution name value unit resolution
  | op => op

/-- The directive of a log that names the dimension "K" and has the metric
"Count". -/
def overwriteDirective : EmfFormatJsonAwsCloudWatchMetricsElem :=
  { Namespace := "N"
    Dimensions := [["K"]]
    Metrics := [{ Name := "Count", Unit := some "Count", StorageResolution := none }] }

/-- The log `NewMetricLog("N")` after `WithDimensionSet(["K"])` and
`PutMetric("Count", 1, "Count")`, before any value is given to "K". -/
def overwriteLog : MetricLog :=
  { emf := { Aws := { CloudWatchMetrics := [overwriteDirective], Timestamp := 1700000000000 } }
    metrics := (∅ : ValueMap).insert "Count" (Value.int 1) }

/-! ## The pattern of `unitRegex` -/

/-- The pattern of `unitRegex`, as written in validator.go. -/
def unitRegexPattern : String :=
  "^(Seconds|Microseconds|Milliseconds|Bytes|Kilobytes|Megabytes|Gigabytes|Terabytes|Bits|Kilobits|Megabits|Gigabits|Terabits|Percent|Count|Bytes\\/Second|Kilobytes\\/Second|Megabytes\\/Second|Gigabytes\\/Second|Terabytes\\/Second|Bits\\/Second|Kilobits\\/Second|Megabits\\/Second|Gigabits\\/Second|Terabits\\/Second|Count\\/Second|None)$"

/-- The alternatives of `a1|...|an`, an escaped character standing for
itself. -/
def splitAlternation : List Char → List (List Char)
  | [] => [[]]
  | '|' :: rest => [] :: splitAlternation rest
  | '\\' :: c :: rest =>
    match splitAlternation rest with
    | [] => [[c]]
    | alt :: alts => (c :: alt) :: alts
  | c :: rest =>
    match splitAlternation rest with
    | [] => [[c]]
    | alt :: alts => (c :: alt) :: alts

/-- The literals a pattern of the form `^(a1|...|an)$` matches: it is anchored
at both ends of the text, so it matches exactly the alternatives. -/
def patternAlternatives (pattern : String) : List String :=
  match pattern.data with
  | '^' :: '(' :: body =>
    match body.reverse with
    | '$' :: ')' :: inner => (splitAlternation inner.reverse).map String.mk
    | _ => []
  | _ => []

/-! ## More example logs -/

/-- The minimal valid log with the unit of its metric replaced by
"InvalidUnit". -/
def invalidUnitLog : MetricLog :=
  { emf := { Aws := { CloudWatchMetrics :=
                        [{ Namespace := "N"
                           Dimensions := [["Service"]]
                           Metrics := [{ Name := "Count", Unit := some "InvalidUnit",
                                         StorageResolution := none }] }]
                      Timestamp := 1700000000000 } }
    metrics := minimalLog.metrics }

/-- The names "DimensionA", "DimensionB", ... of the test "too many dimensions
in set": the first `n` of them. -/
def dimensionNames (n : Nat) : List String :=
  (List.range n).map (fun i => "Dimension" ++ String.singleton (Char.ofNat (65 + i)))

/-- The directive with the single dimension set `dimensionNames n`. -/
def boundaryDirective (n : Nat) : EmfFormatJsonAwsCloudWatchMetricsElem :=
  { Namespace := "TestNamespace"
    Dimensions := [dimensionNames n]
    Metrics := [{ Name := "Latency", Unit := some "Milliseconds", StorageResolution := none }] }

/-- The log of the test "too many dimensions in set" with `n` dimensions: each
has the value "Value", `WithDimensionSet` names them all, and there is one
metric. -/
def boundaryLog (n : Nat) : MetricLog :=
  { emf := { Aws := { CloudWatchMetrics := [boundaryDirective n], Timestamp := 1700000000000 } }
    metrics := ((dimensionNames n).foldl (fun m k => m.insert k (Value.str "Value"))
      (∅ : ValueMap)).insert "Latency" (Value.float 42 0) }

/-- The directive with a valid set, then an empty set, then a set of 31 names,
and a metric whose name is empty and whose unit and resolution are invalid. -/
def emptySetDirective : EmfFormatJsonAwsCloudWatchMetricsElem :=
  { Namespace := "N"
    Dimensions := [["Service"], [], dimensionNames 31]
    Metrics := [{ Name := "", Unit := some "InvalidUnit", StorageResolution := some 30 }] }

/-- A log with the directive `emptySetDirective` and no flat value. -/
def emptySetLog : MetricLog :=
  { emf := { Aws := { CloudWatchMetrics := [emptySetDirective], Timestamp := 1700000000000 } }
    metrics := ∅ }

/-- A namespace of 600 characters of two bytes each. -/
def wideNamespace : String := String.mk (List.replicate 600 'é')

/-- The log `NewMetricLog(wideNamespace)` after
`PutDimension("Service","API")`, `WithDimensionSet(["Service"])`,
`PutMetric("Count", 1, "Count")`. -/
def wideNamespaceLog : MetricLog :=
  { emf := { Aws := { CloudWatchMetrics :=
                        [{ minimalDirective with Namespace := wideNamespace }]
                      Timestamp := 1700000000000 } }
    metrics := minimalLog.metrics }

/-! ## emf.go: String, and the three reading methods as calls -/

/-- The method `String`: the empty string when `MarshalJSON` returns an error,
`string(bytes)` otherwise, `text` giving the text of the bytes `json.Marshal`
writes for a tree; `none` is the panic of `Validate`. -/
def MetricLog.String (text : Json → String) (ml : MetricLog) : Option String :=
  match MarshalJSON ml with
  | none => none
  | some (_, some _) => some ""
  | some (some doc, none) => some (text doc)
  | some (none, none) => some ""

/-- A call of one of the three methods that read the log. -/
inductive Query where
  | validate
  | marshalJSON
  | string
  deriving DecidableEq

/-- What a reading method returns. -/
inductive Answer where
  | validate (err : Option Error)
  | marshalJSON (result : Option Json × Option Error)
  | string (s : String)

/-- The log after a reading call, and what the call returns; `none` for a
panic. None of the three methods assigns to a field of its receiver: `Validate`
works on the copy `directive`, `MarshalJSON` fills the fresh map `combinedMap`,
`String` only calls `MarshalJSON`. -/
def Query.run (text : Json → String) (ml : MetricLog) : Query → Option (MetricLog × Answer)
  | .validate => (Validate ml).map (fun err => (ml, Answer.validate err))
  | .marshalJSON => (MarshalJSON ml).map (fun result => (ml, Answer.marshalJSON result))
  | .string => (ml.String text).map (fun s => (ml, Answer.string s))

/-! ## Sequences of public calls -/

/-- A call of a public method: a mutation or one of the reading methods. -/
inductive Call where
  | mutation (op : Op)
  | query (q : Query)
  deriving DecidableEq

/-- The log after a call; `none` for a panic. -/
def Call.run (text : Json → String) (ml : MetricLog) : Call → Option MetricLog
  | .mutation op => op.apply ml
  | .query q => (q.run text ml).map Prod.fst

/-- The log after a sequence of calls, in call order. -/
def runCalls (text : Json → String) (ml : MetricLog) : List Call → Option MetricLog
  | [] => some ml
  | call :: rest => (call.run text ml).bind (fun ml1 => runCalls text ml1 rest)

/-- The directive of a log whose first dimension set has 31 names, whose second
names a dimension without value, and whose metric has an invalid unit and an
invalid storage resolution. -/
def precedenceDirective : EmfFormatJsonAwsCloudWatchMetricsElem :=
  { Namespace := "N"
    Dimensions := [dimensionNames 31, ["NoValue"]]
    Metrics := [{ Name := "M", Unit := some "InvalidUnit", StorageResolution := some 30 }] }

/-- A log with the directive `precedenceDirective` and the value of "M" only. -/
def precedenceLog : MetricLog :=
  { emf := { Aws := { CloudWatchMetrics := [precedenceDirective], Timestamp := 1700000000000 } }
    metrics := (∅ : ValueMap).insert "M" (Value.int 1) }

/-- The directive of a log with a valid metric, then the metric "J" with the
invalid storage resolution 30, then a metric with an empty name. -/
def metricOrderDirective : EmfFormatJsonAwsCloudWatchMetricsElem :=
  { Namespace := "N"
    Dimensions := [["Service"]]
    Metrics :=
      [{ Name := "Count", Unit := some "Count", StorageResolution := none },
       { Name := "J", Unit := some "Count", StorageResolution := some 30 },
       { Name := "", Unit := some "Count", StorageResolution := none }] }

/-- A log with the directive `metricOrderDirective` and values for "Service",
"Count" and "J". -/
def metricOrderLog : MetricLog :=
  { emf := { Aws := { CloudWatchMetrics := [metricOrderDirective], Timestamp := 1700000000000 } }
    metrics := (((∅ : ValueMap).insert "Service" (Value.str "API")).insert "Count"
      (Value.int 1)).insert "J" (Value.int 2) }

/-- The directive of a log whose dimension sets are a valid one, one naming a
dimension without value, a valid one, and one of 31 names. -/
def interleavedDirective : EmfFormatJsonAwsCloudWatchMetricsElem :=
  { Namespace := "N"
    Dimensions := [["Service"], ["NoValue"], ["Service"], dimensionNames 31]
    Metrics := [{ Name := "Count", Unit := some "Count", StorageResolution := none }] }

/-- A log with the directive `interleavedDirective` and values for "Service"
and "Count". -/
def interleavedLog : MetricLog :=
  { emf := { Aws := { CloudWatchMetrics := [interleavedDirective], Timestamp := 1700000000000 } }
    metrics := minimalLog.metrics }

/-! ## The kinds of violation -/

/-- The violation kinds of the specification; `encoding` is the kind of the
error of `json.Marshal`, which `Validate` never returns. -/
inductive Kind where
  | namespaceLength
  | noMetrics
  | noDimensionSets
  | emptyDimensionSet
  | metricNameLength
  | metricValueMissing
  | invalidUnit
  | invalidStorageResolution
  | dimensionSetTooLarge
  | dimensionNameLength
  | dimensionValueMissing
  | encoding
  deriving DecidableEq, Repr

/-- The kind of the check that builds an error. -/
def Error.kind : Error → Kind
  | .namespaceTooShort => Kind.namespaceLength
  | .namespaceTooLong => Kind.namespaceLength
  | .noMetrics => Kind.noMetrics
  | .noDimensionSets => Kind.noDimensionSets
  | .emptyDimensionSet _ => Kind.emptyDimensionSet
  | .metricNameTooShort _ => Kind.metricNameLength
  | .metricNameTooLong _ => Kind.metricNameLength
  | .metricValueMissing _ => Kind.metricValueMissing
  | .invalidUnit _ _ => Kind.invalidUnit
  | .invalidStorageResolution _ => Kind.invalidStorageResolution
  | .dimensionSetTooLarge _ => Kind.dimensionSetTooLarge
  | .dimensionNameTooLong _ => Kind.dimensionNameLength
  | .dimensionValueMissing _ => Kind.dimensionValueMissing
  | .jsonUnsupported => Kind.encoding

/-- The text with which every message of a kind starts: the format string up
to its first verb. -/
def Kind.messagePrefix : Kind → String
  | .namespaceLength => "namespace length must be at "
  | .noMetrics => "at least one metric must be defined"
  | .noDimensionSets => "at least one dimension set must be defined"
  | .emptyDimensionSet => "dimension set "
  | .metricNameLength => "metric name '"
  | .metricValueMissing => "metric '"
  | .invalidUnit => "invalid unit '"
  | .invalidStorageResolution => "invalid storage resolution for metric '"
  | .dimensionSetTooLarge => "dimension set "
  | .dimensionNameLength => "dimension name '"
  | .dimensionValueMissing => "dimension '"
  | .encoding => "json: "

/-- The text with which every message of a kind ends, for the two kinds whose
messages start alike. -/
def Kind.messageSuffix : Kind → String
  | .emptyDimensionSet => " is empty, must contain at least one dimension"
  | .dimensionSetTooLarge => " exceeds maximum size of 30"
  | _ => ""

/-- Two kinds could share a message only if their prefixes and their suffixes
are compatible. -/
def Kind.compatible (k1 k2 : Kind) : Bool :=
  decide ((k1.messagePrefix.data <+: k2.messagePrefix.data
      ∨ k2.messagePrefix.data <+: k1.messagePrefix.data)
    ∧ (k1.messageSuffix.data <:+ k2.messageSuffix.data
      ∨ k2.messageSuffix.data <:+ k1.messageSuffix.data))

/-! ## emf-format.go: the generated decoder

The four `UnmarshalJSON` methods, on the JSON tree of the bytes. Each first
decodes into `raw`, a `map[string]interface{}` (which fails unless the bytes are
an object or `null`, and leaves `raw` nil for `null`), checks the required keys,
decodes into the plain struct and then checks patterns and lengths. The plain
decoding of `json.Unmarshal` is modelled for members with the exact key of the
`json` tag, fields being read in the order of the struct, and for objects in
which no key is repeated, as `json.Marshal` writes them (`json.Unmarshal` also
matches keys without regard to case and keeps the last of repeated keys). -/

/-- The errors of the decoder: one constructor per format string of
emf-format.go, with its arguments in the order passed, and `unmarshal` for an
error of `json.Unmarshal` itself. -/
inductive DecodeError where
  | required (field typeName : String)
  | patternMatch (first second : String)
  | lengthAtLeast (field : String) (n : Nat)
  | lengthAtMost (field : String) (n : Nat)
  | unmarshal
  deriving DecidableEq, Repr

/-- The call `regexp.MatchString("^(.*)$", s)`: `.` matches every character but
the newline and, without flags, `^` and `$` match only at the two ends of the
text, so the pattern matches exactly the strings without a newline. -/
def matchAnyLine (s : String) : Bool := !s.data.contains '\n'

/-- A `string` field of a plain struct: absent or `null` leaves "". -/
def decodeStringField (members : List (String × Json)) (key : String) :
    Except DecodeError String :=
  match members.lookup key with
  | none => .ok ""
  | some Json.null => .ok ""
  | some (Json.str s) => .ok s
  | some _ => .error DecodeError.unmarshal

/-- A `*string` field of a plain struct: absent or `null` leaves nil. -/
def decodeStringPointerField (members : List (String × Json)) (key : String) :
    Except DecodeError (Option String) :=
  match members.lookup key with
  | none => .ok none
  | some Json.null => .ok none
  | some (Json.str s) => .ok (some s)
  | some _ => .error DecodeError.unmarshal

/-- An `int` field of a plain struct: absent or `null` leaves 0. A number
outside the range of Go's `int`, which `json.Unmarshal` refuses, is not told
apart here. -/
def decodeIntField (members : List (String × Json)) (key : String) : Except DecodeError Int :=
  match members.lookup key with
  | none => .ok 0
  | some Json.null => .ok 0
  | some (Json.int n) => .ok n
  | some _ => .error DecodeError.unmarshal

/-- A `*int` field of a plain struct: absent or `null` leaves nil. -/
def decodeIntPointerField (members : List (String × Json)) (key : String) :
    Except DecodeError (Option Int) :=
  match members.lookup key with
  | none => .ok none
  | some Json.null => .ok none
  | some (Json.int n) => .ok (some n)
  | some _ => .error DecodeError.unmarshal

/-- Decode every element of an array in order, stopping at the first error. -/
def decodeElements {α : Type} (decode : Json → Except DecodeError α) :
    List Json → Except DecodeError (List α)
  | [] => .ok []
  | j :: rest =>
    match decode j with
    | .error e => .error e
    | .ok a =>
      match decodeElements decode rest with
      | .error e => .error e
      | .ok as => .ok (a :: as)

/-- An element of a `[]string`. -/
def decodeStringElement : Json → Except DecodeError String
  | Json.null => .ok ""
  | Json.str s => .ok s
  | _ => .error DecodeError.unmarshal

/-- A `[]string`; `none` is the nil slice that `null` leaves. -/
def decodeStringSlice : Json → Except DecodeError (Option (List String))
  | Json.null => .ok none
  | Json.arr elems =>
    match decodeElements decodeStringElement elems with
    | .error e => .error e
    | .ok ss => .ok (some ss)
  | _ => .error DecodeError.unmarshal

/-- The checks of `EmfFormatJsonAwsCloudWatchMetricsElemMetricsElem.UnmarshalJSON`
on the plain struct. -/
def checkMetricsElem (plain : EmfFormatJsonAwsCloudWatchMetricsElemMetricsElem) :
    Except DecodeError EmfFormatJsonAwsCloudWatchMetricsElemMetricsElem :=
  if !matchAnyLine plain.Name then .error (DecodeError.patternMatch "^(.*)$" "Name")
  else if len plain.Name < 1 then .error (DecodeError.lengthAtLeast "Name" 1)
  else if len plain.Name > 1024 then .error (DecodeError.lengthAtMost "Name" 1024)
  else
    match plain.Unit with
    | some unit =>
      if !unitRegexMatchString unit then
        .error (DecodeError.patternMatch unitRegexPattern "Unit")
      else .ok plain
    | none => .ok plain

/-- The method `UnmarshalJSON` of `EmfFormatJsonAwsCloudWatchMetricsElemMetricsElem`. -/
def decodeMetricsElem :
    Json → Except DecodeError EmfFormatJsonAwsCloudWatchMetricsElemMetricsElem
  | Json.null => checkMetricsElem { Name := "", StorageResolution := none, Unit := none }
  | Json.obj members =>
    if !(members.map Prod.fst).contains "Name" then
      .error (DecodeError.required "Name" "EmfFormatJsonAwsCloudWatchMetricsElemMetricsElem")
    else
      match decodeStringField members "Name" with
      | .error e => .error e
      | .ok name =>
        match decodeIntPointerField members "StorageResolution" with
        | .error e => .error e
        | .ok resolution =>
          match decodeStringPointerField members "Unit" with
          | .error e => .error e
          | .ok unit =>
            checkMetricsElem { Name := name, StorageResolution := resolution, Unit := unit }
  | _ => .error DecodeError.unmarshal

/-- The loop over `plain.Dimensions`, from index `i1` on: a set that is not
nil has at least one entry. -/
def checkDimensionSets : Nat → List (Option (List String)) → Except DecodeError Unit
  | _, [] => .ok ()
  | i1, dimSet :: rest =>
    match dimSet with
    | some names =>
      if names.length < 1 then
        .error (DecodeError.lengthAtLeast ("Dimensions[" ++ toString i1 ++ "]") 1)
      else checkDimensionSets (i1 + 1) rest
    | none => checkDimensionSets (i1 + 1) rest

/-- The checks of `EmfFormatJsonAwsCloudWatchMetricsElem.UnmarshalJSON` on the
plain struct, whose slices may be nil. -/
def checkDirective (dimensions : Option (List (Option (List String))))
    (metrics : Option (List EmfFormatJsonAwsCloudWatchMetricsElemMetricsElem))
    (ns : String) : Except DecodeError EmfFormatJsonAwsCloudWatchMetricsElem :=
  let tooFew : Bool :=
    match dimensions with
    | some sets => decide (sets.length < 1)
    | none => false
  if tooFew then .error (DecodeError.lengthAtLeast "Dimensions" 1)
  else
    match checkDimensionSets 0 (dimensions.getD []) with
    | .error e => .error e
    | .ok _ =>
      if !matchAnyLine ns then .error (DecodeError.patternMatch "^(.*)$" "Namespace")
      else if len ns < 1 then .error (DecodeError.lengthAtLeast "Namespace" 1)
      else if len ns > 1024 then .error (DecodeError.lengthAtMost "Namespace" 1024)
      else
        .ok { Dimensions := (dimensions.getD []).map (fun dimSet => dimSet.getD [])
              Metrics := metrics.getD []
              Namespace := ns }

/-- The field `Dimensions [][]string` of the plain struct. -/
def decodeDimensionsField (members : List (String × Json)) :
    Except DecodeError (Option (List (Option (List String)))) :=
  match members.lookup "Dimensions" with
  | none => .ok none
  | some Json.null => .ok none
  | some (Json.arr elems) =>
    match decodeElements decodeStringSlice elems with
    | .error e => .error e
    | .ok sets => .ok (some sets)
  | some _ => .error DecodeError.unmarshal

/-- The field `Metrics` of the plain struct: every element goes through its
own `UnmarshalJSON`. -/
def decodeMetricsField (members : List (String × Json)) :
    Except DecodeError (Option (List EmfFormatJsonAwsCloudWatchMetricsElemMetricsElem)) :=
  match members.lookup "Metrics" with
  | none => .ok none
  | some Json.null => .ok none
  | some (Json.arr elems) =>
    match decodeElements decodeMetricsElem elems with
    | .error e => .error e
    | .ok ms => .ok (some ms)
  | some _ => .error DecodeError.unmarshal

/-- The method `UnmarshalJSON` of `EmfFormatJsonAwsCloudWatchMetricsElem`. -/
def decodeDirective : Json → Except DecodeError EmfFormatJsonAwsCloudWatchMetricsElem
  | Json.null => checkDirective none none ""
  | Json.obj members =>
    if !(members.map Prod.fst).contains "Dimensions" then
      .error (DecodeError.required "Dimensions" "EmfFormatJsonAwsCloudWatchMetricsElem")
    else if !(members.map Prod.fst).contains "Metrics" then
      .error (DecodeError.required "Metrics" "EmfFormatJsonAwsCloudWatchMetricsElem")
    else if !(members.map Prod.fst).contains "Namespace" then
      .error (DecodeError.required "Namespace" "EmfFormatJsonAwsCloudWatchMetricsElem")
    else
      match decodeDimensionsField members with
      | .error e => .error e
      | .ok dimensions =>
        match decodeMetricsField members with
        | .error e => .error e
        | .ok metrics =>
          match decodeStringField members "Namespace" with
          | .error e => .error e
          | .ok ns => checkDirective dimensions metrics ns
  | _ => .error DecodeError.unmarshal

/-- The field `CloudWatchMetrics` of the plain struct: every element goes
through its own `UnmarshalJSON`. -/
def decodeCloudWatchMetricsField (members : List (String × Json)) :
    Except DecodeError (List EmfFormatJsonAwsCloudWatchMetricsElem) :=
  match members.lookup "CloudWatchMetrics" with
  | none => .ok []
  | some Json.null => .ok []
  | some (Json.arr elems) => decodeElements decodeDirective elems
  | some _ => .error DecodeError.unmarshal

/-- The method `UnmarshalJSON` of `EmfFormatJsonAws`. -/
def decodeAws : Json → Except DecodeError EmfFormatJsonAws
  | Json.null => .ok { CloudWatchMetrics := [], Timestamp := 0 }
  | Json.obj members =>
    if !(members.map Prod.fst).contains "CloudWatchMetrics" then
      .error (DecodeError.required "CloudWatchMetrics" "EmfFormatJsonAws")
    else if !(members.map Prod.fst).contains "Timestamp" then
      .error (DecodeError.required "Timestamp" "EmfFormatJsonAws")
    else
      match decodeCloudWatchMetricsField members with
      | .error e => .error e
      | .ok directives =>
        match decodeIntField members "Timestamp" with
        | .error e => .error e
        | .ok timestamp => .ok { CloudWatchMetrics := directives, Timestamp := timestamp }
  | _ => .error DecodeError.unmarshal

/-- The method `UnmarshalJSON` of `EmfFormatJson`. -/
def decodeEmfFormatJson : Json → Except DecodeError EmfFormatJson
  | Json.null => .ok { Aws := { CloudWatchMetrics := [], Timestamp := 0 } }
  | Json.obj members =>
    if !(members.map Prod.fst).contains "_aws" then
      .error (DecodeError.required "_aws" "EmfFormatJson")
    else
      match members.lookup "_aws" with
      | none => .ok { Aws := { CloudWatchMetrics := [], Timestamp := 0 } }
      | some aws =>
        match decodeAws aws with
        | .error e => .error e
        | .ok a => .ok { Aws := a }
  | _ => .error DecodeError.unmarshal

/-- The minimal valid log with the namespace "a\nb", a line break inside. -/
def newlineLog : MetricLog :=
  { emf := { Aws := { CloudWatchMetrics := [{ minimalDirective with Namespace := "a\nb" }]
                      Timestamp := 1700000000000 } }
    metrics := minimalLog.metrics }

/-- The document of `newlineLog`. -/
def newlineDocument : Json :=
  Json.obj
    [("Count", Json.int 1),
     ("Service", Json.str "API"),
     ("_aws", Json.obj
       [("CloudWatchMetrics", Json.arr
          [Json.obj
            [("Dimensions", Json.arr [Json.arr [Json.str "Service"]]),
             ("Metrics", Json.arr [Json.obj [("Name", Json.str "Count"),
                                             ("Unit", Json.str "Count")]]),
             ("Namespace", Json.str "a\nb")]]),
        ("Timestamp", Json.int 1700000000000)])]

/-! ## Logs edited directly, and logs that differ in timestamp and values -/

/-- The log of the test "metric defined but no value": the definition of
"Latency" is appended to the directive directly, without a flat value. -/
def directEditLog : Option MetricLog :=
  (applyOps (NewMetricLog "TestNamespace" 1700000000000)
    [Op.putDimension "Service" "API", Op.withDimensionSet ["Service"]]).bind
    (fun ml => updateDirective ml (fun directive =>
      { directive with
        Metrics := directive.Metrics ++
          [{ Name := "Latency", Unit := some UnitMilliseconds, StorageResolution := none }] }))

/-- The minimal valid log made at another time and with other flat values
under the same keys: "Service" is `true`, "Count" is `nil`. -/
def otherValuesLog : MetricLog :=
  { emf := { Aws := { CloudWatchMetrics := [minimalDirective], Timestamp := 5 } }
    metrics := ((∅ : ValueMap).insert "Count" Value.null).insert "Service" (Value.bool true) }

/-- The log `missingValueLog` made at another time, with another value of "M"
and a second, empty directive behind the first. -/
def otherMissingValueLog : MetricLog :=
  { emf := { Aws := { CloudWatchMetrics :=
                        [missingValueDirective,
                         { Namespace := "", Dimensions := [], Metrics := [] }]
                      Timestamp := 5 } }
    metrics := (∅ : ValueMap).insert "M" (Value.str "text") }

/-! ## The text of a document -/

mutual
/-- The text `json.Marshal` writes for a tree. -/
def Json.render (floatText : Int → Int → String) (stringText : String → String) :
    Json → String
  | .null => "null"
  | .bool true => "true"
  | .bool false => "false"
  | .int n => toString n
  | .float m e => floatText m e
  | .str s => stringText s
  | .arr elems => "[" ++ renderElems floatText stringText elems ++ "]"
  | .obj members => "\x7b" ++ renderMembers floatText stringText members ++ "\x7d"

/-- The elements of an array, separated by commas. -/
def renderElems (floatText : Int → Int → String) (stringText : String → String) :
    List Json → String
  | [] => ""
  | [e] => Json.render floatText stringText e
  | e :: rest =>
    Json.render floatText stringText e ++ "," ++ renderElems floatText stringText rest

/-- The members of an object, separated by commas. -/
def renderMembers (floatText : Int → Int → String) (stringText : String → String) :
    List (String × Json) → String
  | [] => ""
  | [(k, v)] => stringText k ++ ":" ++ Json.render floatText stringText v
  | (k, v) :: rest =>
    stringText k ++ ":" ++ Json.render floatText stringText v ++ "," ++
      renderMembers floatText stringText rest
end

/-! ## Logs on which a claim of the specification fails as worded -/

/-- The directive of a log whose first metric "A" has the invalid unit "Bad",
whose second metric "J" has the invalid storage resolution 30 and whose third
metric has an empty name. -/
def earlierFailureDirective : EmfFormatJsonAwsCloudWatchMetricsElem :=
  { Namespace := "N"
    Dimensions := [["Service"]]
    Metrics :=
      [{ Name := "A", Unit := some "Bad", StorageResolution := none },
       { Name := "J", Unit := some "Count", StorageResolution := some 30 },
       { Name := "", Unit := some "Count", StorageResolution := none }] }

/-- The log `NewMetricLog("N")` after `PutDimension("Service","API")`,
`WithDimensionSet(["Service"])`, `PutMetric("A", 1, "Bad")`,
`PutMetricWithResolution("J", 2, "Count", 30)` and `PutMetric("", 3, "Count")`. -/
def earlierFailureLog : MetricLog :=
  { emf := { Aws := { CloudWatchMetrics := [earlierFailureDirective],
                      Timestamp := 1700000000000 } }
    metrics := ((((∅ : ValueMap).insert "Service" (Value.str "API")).insert "A"
      (Value.int 1)).insert "J" (Value.int 2)).insert "" (Value.int 3) }

/-- The directive of a log whose dimension sets are one of 31 names, one naming
a dimension without value, and one of 31 names again. -/
def oversizedFirstDirective : EmfFormatJsonAwsCloudWatchMetricsElem :=
  { Namespace := "N"
    Dimensions := [dimensionNames 31, ["NoValue"], dimensionNames 31]
    Metrics := [{ Name := "Count", Unit := some "Count", StorageResolution := none }] }

/-- The log `NewMetricLog("N")` after `WithDimensionSet` of 31 names, of
`["NoValue"]` and of 31 names, and `PutMetric("Count", 1, "Count")`. -/
def oversizedFirstLog : MetricLog :=
  { emf := { Aws := { CloudWatchMetrics := [oversizedFirstDirective],
                      Timestamp := 1700000000000 } }
    metrics := (∅ : ValueMap).insert "Count" (Value.int 1) }

/-- The minimal valid log after `PutMetric("K", 1, "Count")` and
`PutMetric("K", math.NaN(), "Count")`. -/
def nanOverwriteLog : MetricLog :=
  { emf := { Aws := { CloudWatchMetrics :=
                        [{ minimalDirective with
                           Metrics := minimalDirective.Metrics ++
                             [{ Name := "K", Unit := some "Count", StorageResolution := none },
                              { Name := "K", Unit := some "Count",
                                StorageResolution := none }] }]
                      Timestamp := 1700000000000 } }
    metrics := (minimalLog.metrics.insert "K" (Value.int 1)).insert "K" Value.unsupported }

/-! # Theorems -/

/-! ## Facts about the validator's loops -/

theorem Units_eq_unitAlternatives : Units = unitAlternatives := rfl

theorem Units_length : Units.length = 27 := rfl

theorem unitRegexMatchString_iff (s : String) : unitRegexMatchString s = true ↔ s ∈ Units := by
  simp [unitRegexMatchString, Units_eq_unitAlternatives]

theorem lookup_isNone_iff (metrics : ValueMap) (k : String) :
    (metrics.lookup k).isNone = true ↔ k ∉ metrics := by
  rw [Option.isNone_iff_eq_none, AList.lookup_eq_none]

theorem checkNoEmptySet_eq_none_iff (i : Nat) (sets : List (List String)) :
    checkNoEmptySet i sets = none ↔ ∀ dimSet ∈ sets, dimSet ≠ [] := by
  induction sets generalizing i with
  | nil => simp [checkNoEmptySet]
  | cons s rest ih =>
    by_cases hs : s = []
    · simp [checkNoEmptySet, hs]
    · simp [checkNoEmptySet, hs, ih]

theorem validateMetric_eq_none_iff (metrics : ValueMap)
    (metric : EmfFormatJsonAwsCloudWatchMetricsElemMetricsElem) :
    validateMetric metrics metric = none ↔
      (1 ≤ len metric.Name ∧ len metric.Name ≤ 1024 ∧ metric.Name ∈ metrics) ∧
      (∀ unit, metric.Unit = some unit → unit ∈ Units) ∧
      (∀ r, metric.StorageResolution = some r → r = 1 ∨ r = 60) := by
  obtain ⟨name, res, unit⟩ := metric
  unfold validateMetric
  simp only [MinMetricNameLength, MaxMetricNameLength, StorageResolutionStandard,
    StorageResolutionHigh]
  by_cases h1 : len name < 1
  · simp [h1]
  by_cases h2 : len name > 1024
  · simp [h1, h2]
  by_cases h3 : (metrics.lookup name).isNone = true
  · have h3k : name ∉ metrics := (lookup_isNone_iff metrics name).1 h3
    simp [h1, h2, h3, h3k]
  have h3k : name ∈ metrics := by
    by_contra hn
    exact h3 ((lookup_isNone_iff metrics name).2 hn)
  have hlen : 1 ≤ len name ∧ len name ≤ 1024 := by omega
  cases unit with
  | some u =>
    by_cases hu : unitRegexMatchString u = true
    · have hu2 : u ∈ Units := (unitRegexMatchString_iff u).1 hu
      cases res with
      | none => simp [h1, h2, h3, h3k, hu, hu2, hlen]
      | some r =>
        by_cases hr : r = 1
        · simp [h1, h2, h3, h3k, hu, hu2, hlen, hr]
        · by_cases hr2 : r = 60
          · simp [h1, h2, h3, h3k, hu, hu2, hlen, hr2]
          · simp [h1, h2, h3, h3k, hu, hu2, hlen, hr, hr2]
    · have hu2 : u ∉ Units := fun hm => hu ((unitRegexMatchString_iff u).2 hm)
      simp [h1, h2, h3, hu, hu2]
  | none =>
    cases res with
    | none => simp [h1, h2, h3, h3k, hlen]
    | some r =>
      by_cases hr : r = 1
      · simp [h1, h2, h3, h3k, hlen, hr]
      · by_cases hr2 : r = 60
        · simp [h1, h2, h3, h3k, hlen, hr2]
        · simp [h1, h2, h3, h3k, hlen, hr, hr2]

theorem validateMetrics_eq_none_iff (metrics : ValueMap)
    (ms : List EmfFormatJsonAwsCloudWatchMetricsElemMetricsElem) :
    validateMetrics metrics ms = none ↔ ∀ metric ∈ ms, validateMetric metrics metric = none := by
  induction ms with
  | nil => simp [validateMetrics]
  | cons m rest ih =>
    unfold validateMetrics
    cases hm : validateMetric metrics m with
    | some err => simp [hm]
    | none => simp [hm, ih]

theorem validateDimensionNames_eq_none_iff (metrics : ValueMap) (dimSet : List String) :
    validateDimensionNames metrics dimSet = none ↔
      ∀ dim ∈ dimSet, len dim ≤ 250 ∧ dim ∈ metrics := by
  induction dimSet with
  | nil => simp [validateDimensionNames]
  | cons d rest ih =>
    unfold validateDimensionNames
    simp only [MaxDimensionNameLength]
    by_cases h1 : len d > 250
    · simp [h1]
    by_cases h2 : (metrics.lookup d).isNone = true
    · have h2k : d ∉ metrics := (lookup_isNone_iff metrics d).1 h2
      simp [h1, h2, h2k]
    have h2k : d ∈ metrics := by
      by_contra hn
      exact h2 ((lookup_isNone_iff metrics d).2 hn)
    have hle : len d ≤ 250 := by omega
    simp [h1, h2, h2k, hle, ih]

theorem validateDimensionSets_eq_none_iff (metrics : ValueMap) (i : Nat)
    (sets : List (List String)) :
    validateDimensionSets metrics i sets = none ↔
      ∀ dimSet ∈ sets, dimSet.length ≤ 30 ∧ ∀ dim ∈ dimSet, len dim ≤ 250 ∧ dim ∈ metrics := by
  induction sets generalizing i with
  | nil => simp [validateDimensionSets]
  | cons s rest ih =>
    unfold validateDimensionSets
    simp only [MaxDimensionSetSize]
    by_cases h1 : s.length > 30
    · simp [h1]
    have hle : s.length ≤ 30 := by omega
    cases hn : validateDimensionNames metrics s with
    | some err =>
      have hne : ¬ ∀ dim ∈ s, len dim ≤ 250 ∧ dim ∈ metrics := by
        intro hall
        rw [(validateDimensionNames_eq_none_iff metrics s).2 hall] at hn
        exact Option.noConfusion hn
      simp only [h1, if_false, List.mem_cons, forall_eq_or_imp]
      constructor
      · intro h; exact Option.noConfusion h
      · intro h; exact absurd h.1.2 hne
    | none =>
      have hall := (validateDimensionNames_eq_none_iff metrics s).1 hn
      simp only [h1, if_false, List.mem_cons, forall_eq_or_imp, ih]
      constructor
      · intro h; exact ⟨⟨hle, hall⟩, h⟩
      · intro h; exact h.2

theorem validateDirective_eq_none_iff (metrics : ValueMap)
    (directive : EmfFormatJsonAwsCloudWatchMetricsElem) :
    validateDirective metrics directive = none ↔
      (1 ≤ len directive.Namespace ∧ len directive.Namespace ≤ 1024) ∧
      1 ≤ directive.Metrics.length ∧
      1 ≤ directive.Dimensions.length ∧
      (∀ dimSet ∈ directive.Dimensions, dimSet ≠ []) ∧
      (∀ metric ∈ directive.Metrics, validateMetric metrics metric = none) ∧
      (∀ dimSet ∈ directive.Dimensions,
        dimSet.length ≤ 30 ∧ ∀ dim ∈ dimSet, len dim ≤ 250 ∧ dim ∈ metrics) := by
  unfold validateDirective
  simp only [MinNamespaceLength, MaxNamespaceLength, MinDimensions]
  by_cases h1 : len directive.Namespace < 1
  · simp [h1]
  by_cases h2 : len directive.Namespace > 1024
  · simp [h1, h2]
  by_cases h3 : directive.Metrics.length = 0
  · simp [h1, h2, h3]
  by_cases h4 : directive.Dimensions.length < 1
  · simp [h1, h2, h3, h4]
  have hns : 1 ≤ len directive.Namespace ∧ len directive.Namespace ≤ 1024 := by omega
  have hm : 1 ≤ directive.Metrics.length := by omega
  have hd : 1 ≤ directive.Dimensions.length := by omega
  simp only [h1, h2, h3, h4, if_false]
  cases he : checkNoEmptySet 0 directive.Dimensions with
  | some err =>
    have hne : ¬ ∀ dimSet ∈ directive.Dimensions, dimSet ≠ [] := by
      intro hall
      rw [(checkNoEmptySet_eq_none_iff 0 _).2 hall] at he
      exact Option.noConfusion he
    constructor
    · intro h; exact Option.noConfusion h
    · intro h; exact absurd h.2.2.2.1 hne
  | none =>
    have hall := (checkNoEmptySet_eq_none_iff 0 _).1 he
    cases hv : validateMetrics metrics directive.Metrics with
    | some err =>
      have hne : ¬ ∀ metric ∈ directive.Metrics, validateMetric metrics metric = none := by
        intro hq
        rw [(validateMetrics_eq_none_iff metrics _).2 hq] at hv
        exact Option.noConfusion hv
      constructor
      · intro h; exact Option.noConfusion h
      · intro h; exact absurd h.2.2.2.2.1 hne
    | none =>
      have hq := (validateMetrics_eq_none_iff metrics _).1 hv
      rw [validateDimensionSets_eq_none_iff]
      constructor
      · intro h; exact ⟨hns, hm, hd, hall, hq, h⟩
      · intro h; exact h.2.2.2.2.2

/-! ## Validate: when it succeeds, and which error it returns -/

/-- C1: for a log with one directive, Validate returns no error exactly when
the namespace length is in 1..1024, there is a metric definition, there is a
dimension set, no set is empty, every set has at most 30 entries, every
dimension name is at most 250 long and a key of the flat value map, every
metric name has length in 1..1024 and is a key of the flat value map, every
unit present is one of the 27 unit constants, and every storage resolution
present is 1 or 60. -/
theorem validate_succeeds_iff (ml : MetricLog)
    (directive : EmfFormatJsonAwsCloudWatchMetricsElem)
    (h : ml.emf.Aws.CloudWatchMetrics = [directive]) :
    Validate ml = some none ↔
      (1 ≤ len directive.Namespace ∧ len directive.Namespace ≤ 1024) ∧
      1 ≤ directive.Metrics.length ∧
      1 ≤ directive.Dimensions.length ∧
      (∀ dimSet ∈ directive.Dimensions, dimSet ≠ []) ∧
      (∀ dimSet ∈ directive.Dimensions, dimSet.length ≤ 30) ∧
      (∀ dimSet ∈ directive.Dimensions, ∀ dim ∈ dimSet, len dim ≤ 250 ∧ dim ∈ ml.metrics) ∧
      (∀ metric ∈ directive.Metrics,
        1 ≤ len metric.Name ∧ len metric.Name ≤ 1024 ∧ metric.Name ∈ ml.metrics) ∧
      (∀ metric ∈ directive.Metrics, ∀ unit, metric.Unit = some unit → unit ∈ Units) ∧
      (∀ metric ∈ directive.Metrics, ∀ r, metric.StorageResolution = some r → r = 1 ∨ r = 60) ∧
      Units.length = 27 := by
  unfold Validate
  rw [h]
  simp only [Option.some.injEq, validateDirective_eq_none_iff, validateMetric_eq_none_iff]
  constructor
  · rintro ⟨hns, hm, hd, he, hmet, hdim⟩
    exact ⟨hns, hm, hd, he, fun s hs => (hdim s hs).1, fun s hs => (hdim s hs).2,
      fun m hm => (hmet m hm).1, fun m hm => (hmet m hm).2.1, fun m hm => (hmet m hm).2.2, rfl⟩
  · rintro ⟨hns, hm, hd, he, hsz, hnm, hmn, hu, hr, _⟩
    exact ⟨hns, hm, hd, he, fun m hm => ⟨hmn m hm, hu m hm, hr m hm⟩,
      fun s hs => ⟨hsz s hs, hnm s hs⟩⟩

/-- C1 at the minimal valid log: the hypothesis holds there and Validate
returns no error. -/
theorem validate_succeeds_iff_witness :
    minimalLog.emf.Aws.CloudWatchMetrics = [minimalDirective] ∧ Validate minimalLog = some none ∧
    (Validate minimalLog = some none ↔
      (1 ≤ len minimalDirective.Namespace ∧ len minimalDirective.Namespace ≤ 1024) ∧
      1 ≤ minimalDirective.Metrics.length ∧
      1 ≤ minimalDirective.Dimensions.length ∧
      (∀ dimSet ∈ minimalDirective.Dimensions, dimSet ≠ []) ∧
      (∀ dimSet ∈ minimalDirective.Dimensions, dimSet.length ≤ 30) ∧
      (∀ dimSet ∈ minimalDirective.Dimensions,
        ∀ dim ∈ dimSet, len dim ≤ 250 ∧ dim ∈ minimalLog.metrics) ∧
      (∀ metric ∈ minimalDirective.Metrics,
        1 ≤ len metric.Name ∧ len metric.Name ≤ 1024 ∧ metric.Name ∈ minimalLog.metrics) ∧
      (∀ metric ∈ minimalDirective.Metrics, ∀ unit, metric.Unit = some unit → unit ∈ Units) ∧
      (∀ metric ∈ minimalDirective.Metrics,
        ∀ r, metric.StorageResolution = some r → r = 1 ∨ r = 60) ∧
      Units.length = 27) :=
  ⟨rfl, by decide, validate_succeeds_iff minimalLog minimalDirective rfl⟩

theorem firstError_append (xs ys : List (Option Error)) :
    firstError (xs ++ ys) =
      match firstError xs with
      | some err => some err
      | none => firstError ys := by
  induction xs with
  | nil => cases h : firstError ys <;> simp [firstError, h]
  | cons x rest ih =>
    cases x with
    | none => simpa [firstError] using ih
    | some err => simp [firstError]

theorem firstError_eq_some (cs : List (Option Error)) (err : Error)
    (h : firstError cs = some err) :
    ∃ pre post, cs = pre ++ some err :: post ∧ ∀ c ∈ pre, c = none := by
  induction cs with
  | nil => simp [firstError] at h
  | cons c rest ih =>
    cases c with
    | some e =>
      simp only [firstError, Option.some.injEq] at h
      subst h
      exact ⟨[], rest, rfl, by simp⟩
    | none =>
      simp only [firstError] at h
      obtain ⟨pre, post, hcs, hpre⟩ := ih h
      refine ⟨none :: pre, post, by simp [hcs], ?_⟩
      intro c hc
      rcases List.mem_cons.1 hc with hc | hc
      · exact hc
      · exact hpre c hc

theorem firstError_emptySetChecks (i : Nat) (sets : List (List String)) :
    firstError (emptySetChecks i sets) = checkNoEmptySet i sets := by
  induction sets generalizing i with
  | nil => rfl
  | cons s rest ih =>
    by_cases hs : s = []
    · simp [emptySetChecks, emptySetCheck, checkNoEmptySet, firstError, hs]
    · simp [emptySetChecks, emptySetCheck, checkNoEmptySet, firstError, hs, ih]

theorem firstError_metricCheck (metrics : ValueMap)
    (metric : EmfFormatJsonAwsCloudWatchMetricsElemMetricsElem) :
    firstError [metricNameCheck metric, metricValueCheck metrics metric, unitCheck metric,
      resolutionCheck metric] = validateMetric metrics metric := by
  obtain ⟨name, res, unit⟩ := metric
  unfold validateMetric metricNameCheck metricValueCheck unitCheck resolutionCheck
  simp only [MinMetricNameLength, MaxMetricNameLength, StorageResolutionStandard,
    StorageResolutionHigh]
  by_cases h1 : len name < 1
  · simp [h1, firstError]
  by_cases h2 : len name > 1024
  · simp [h1, h2, firstError]
  have h2b : ¬ 1024 < len name := h2
  by_cases h3 : (metrics.lookup name).isNone = true
  · have h3k : name ∉ metrics := (lookup_isNone_iff metrics name).1 h3
    simp [h1, h2b, h3, h3k, firstError]
  have h3k : name ∈ metrics := by
    by_contra hn
    exact h3 ((lookup_isNone_iff metrics name).2 hn)
  cases unit with
  | some u =>
    by_cases hu : unitRegexMatchString u = true
    · have hu2 : u ∈ Units := (unitRegexMatchString_iff u).1 hu
      cases res with
      | none => simp [h1, h2b, h3, h3k, hu, hu2, firstError]
      | some r =>
        by_cases hr : r = 1
        · simp [h1, h2b, h3, h3k, hu, hu2, hr, firstError]
        · by_cases hr2 : r = 60
          · simp [h1, h2b, h3, h3k, hu, hu2, hr2, firstError]
          · simp [h1, h2b, h3, h3k, hu, hu2, hr, hr2, firstError]
    · have hu2 : u ∉ Units := fun hm => hu ((unitRegexMatchString_iff u).2 hm)
      simp [h1, h2b, h3, h3k, hu, hu2, firstError]
  | none =>
    cases res with
    | none => simp [h1, h2b, h3, h3k, firstError]
    | some r =>
      by_cases hr : r = 1
      · simp [h1, h2b, h3, h3k, hr, firstError]
      · by_cases hr2 : r = 60
        · simp [h1, h2b, h3, h3k, hr2, firstError]
        · simp [h1, h2b, h3, h3k, hr, hr2, firstError]

theorem firstError_metricChecks (metrics : ValueMap)
    (ms : List EmfFormatJsonAwsCloudWatchMetricsElemMetricsElem) :
    firstError (metricChecks metrics ms) = validateMetrics metrics ms := by
  induction ms with
  | nil => rfl
  | cons m rest ih =>
    unfold metricChecks validateMetrics
    rw [firstError_append, firstError_metricCheck, ih]

theorem firstError_entryChecks (metrics : ValueMap) (dimSet : List String) :
    firstError (entryChecks metrics dimSet) = validateDimensionNames metrics dimSet := by
  induction dimSet with
  | nil => rfl
  | cons d rest ih =>
    unfold entryChecks validateDimensionNames dimensionNameCheck dimensionValueCheck
    simp only [MaxDimensionNameLength]
    by_cases h1 : len d > 250
    · simp [h1, firstError]
    have h1b : ¬ 250 < len d := h1
    by_cases h2 : (metrics.lookup d).isNone = true
    · have h2k : d ∉ metrics := (lookup_isNone_iff metrics d).1 h2
      simp [h1b, h2, h2k, firstError]
    have h2k : d ∈ metrics := by
      by_contra hn
      exact h2 ((lookup_isNone_iff metrics d).2 hn)
    simp [h1b, h2, h2k, firstError, ih]

theorem firstError_dimensionChecks (metrics : ValueMap) (i : Nat)
    (sets : List (List String)) :
    firstError (dimensionChecks metrics i sets) = validateDimensionSets metrics i sets := by
  induction sets generalizing i with
  | nil => rfl
  | cons s rest ih =>
    unfold dimensionChecks validateDimensionSets setSizeCheck
    simp only [MaxDimensionSetSize]
    rw [firstError_append]
    by_cases h1 : s.length > 30
    · simp [h1, firstError]
    have h1b : ¬ 30 < s.length := h1
    simp only [h1b, if_false, firstError, firstError_entryChecks, ih]

theorem validateDirective_eq_firstError (metrics : ValueMap)
    (directive : EmfFormatJsonAwsCloudWatchMetricsElem) :
    validateDirective metrics directive = firstError (orderedChecks metrics directive) := by
  unfold orderedChecks validateDirective namespaceCheck metricsExistCheck
    dimensionSetsExistCheck
  simp only [MinNamespaceLength, MaxNamespaceLength, MinDimensions]
  by_cases h1 : len directive.Namespace < 1
  · simp [h1, firstError]
  by_cases h2 : len directive.Namespace > 1024
  · simp [h1, h2, firstError]
  have h2b : ¬ 1024 < len directive.Namespace := h2
  by_cases h3 : directive.Metrics = []
  · simp [h1, h2b, h3, firstError]
  have h3b : ¬ directive.Metrics.length = 0 := fun hl => h3 (List.length_eq_zero.1 hl)
  by_cases h4 : directive.Dimensions = []
  · simp [h1, h2b, h3, h4, firstError]
  have h4b : ¬ directive.Dimensions.length < 1 := by
    intro hl
    exact h4 (List.length_eq_zero.1 (by omega))
  simp only [h1, h2b, h2, h3, h3b, h4, h4b, if_false, List.cons_append, List.nil_append,
    firstError, List.append_assoc]
  rw [firstError_append, firstError_append, firstError_emptySetChecks, firstError_metricChecks,
    firstError_dimensionChecks]

/-- C3: Validate returns the error of the first failing check in the fixed
order namespace length, metrics exist, dimension sets exist, no empty set (sets
in insertion order), then per metric in insertion order name length, value
presence, unit, storage resolution, then per dimension set in insertion order
set size and per entry name length, value presence; when it returns an error,
every check before the one that produced it passed. -/
theorem validate_first_failing_check (ml : MetricLog)
    (directive : EmfFormatJsonAwsCloudWatchMetricsElem)
    (rest : List EmfFormatJsonAwsCloudWatchMetricsElem)
    (h : ml.emf.Aws.CloudWatchMetrics = directive :: rest) :
    Validate ml = some (firstError (orderedChecks ml.metrics directive)) ∧
    ∀ err, Validate ml = some (some err) →
      ∃ earlier later, orderedChecks ml.metrics directive = earlier ++ some err :: later ∧
        ∀ check ∈ earlier, check = none := by
  have hv : Validate ml = some (firstError (orderedChecks ml.metrics directive)) := by
    unfold Validate
    rw [h]
    simp only [validateDirective_eq_firstError]
  refine ⟨hv, ?_⟩
  intro err herr
  rw [hv] at herr
  exact firstError_eq_some _ err (Option.some.inj herr)

/-- C3 at the log whose dimension "Service" has no value: all fourteen checks
before the value-presence check of "Service" pass and its error is returned. -/
theorem validate_first_failing_check_witness :
    missingValueLog.emf.Aws.CloudWatchMetrics = missingValueDirective :: [] ∧
    Validate missingValueLog = some (some (Error.dimensionValueMissing "Service")) ∧
    (Validate missingValueLog
        = some (firstError (orderedChecks missingValueLog.metrics missingValueDirective)) ∧
      ∀ err, Validate missingValueLog = some (some err) →
        ∃ earlier later,
          orderedChecks missingValueLog.metrics missingValueDirective
            = earlier ++ some err :: later ∧
          ∀ check ∈ earlier, check = none) :=
  ⟨rfl, by decide, validate_first_failing_check missingValueLog missingValueDirective [] rfl⟩

/-! ## Facts about `json.Marshal` and the combined map -/

theorem lookup_eq_some_iff_mem (ms : List (String × Json)) (hnd : (ms.map Prod.fst).Nodup)
    (k : String) (j : Json) : ms.lookup k = some j ↔ (k, j) ∈ ms := by
  induction ms with
  | nil => simp
  | cons m rest ih =>
    obtain ⟨k0, j0⟩ := m
    simp only [List.map_cons, List.nodup_cons] at hnd
    by_cases hk : k = k0
    · subst hk
      have hnot : ∀ j1, (k, j1) ∉ rest := fun j1 hm => hnd.1 (List.mem_map.2 ⟨(k, j1), hm, rfl⟩)
      simp only [List.lookup_cons, beq_self_eq_true, Option.some.injEq, List.mem_cons,
        Prod.mk.injEq, true_and]
      constructor
      · intro h; exact Or.inl h.symm
      · intro h
        rcases h with h | h
        · exact h.symm
        · exact absurd h (hnot j)
    · have hb : (k == k0) = false := by simpa using hk
      simp only [List.lookup_cons, hb, List.mem_cons, Prod.mk.injEq, hk, false_and, false_or]
      exact ih hnd.2

theorem lookup_eq_none_of_not_mem (ms : List (String × Json)) (k : String)
    (h : k ∉ ms.map Prod.fst) : ms.lookup k = none := by
  induction ms with
  | nil => rfl
  | cons m rest ih =>
    obtain ⟨k0, j0⟩ := m
    simp only [List.map_cons, List.mem_cons, not_or] at h
    have hb : (k == k0) = false := by simpa using h.1
    simp only [List.lookup_cons, hb]
    exact ih h.2

theorem encodeMembers_some (es : List (Sigma (fun _ : String => Any)))
    (h : ∀ e ∈ es, e.2.encode ≠ none) :
    ∃ ms, encodeMembers es = some ms ∧ ms.map Prod.fst = es.map Sigma.fst ∧
      ∀ k j, (k, j) ∈ ms ↔ ∃ a, (⟨k, a⟩ : Sigma (fun _ : String => Any)) ∈ es ∧
        a.encode = some j := by
  induction es with
  | nil => exact ⟨[], rfl, rfl, by simp⟩
  | cons e rest ih =>
    obtain ⟨ms, hms, hkeys, hmem⟩ := ih (fun e he => h e (List.mem_cons_of_mem _ he))
    obtain ⟨k0, a0⟩ := e
    cases hj : a0.encode with
    | none => exact absurd hj (h ⟨k0, a0⟩ (List.mem_cons_self _ _))
    | some j0 =>
      refine ⟨(k0, j0) :: ms, by simp [encodeMembers, hj, hms], by simp [hkeys], ?_⟩
      intro k j
      simp only [List.mem_cons, Prod.mk.injEq, hmem]
      constructor
      · rintro (⟨rfl, rfl⟩ | ⟨a, ha, hja⟩)
        · exact ⟨a0, Or.inl rfl, hj⟩
        · exact ⟨a, Or.inr ha, hja⟩
      · rintro ⟨a, ha | ha, hja⟩
        · cases ha
          rw [hj] at hja
          exact Or.inl ⟨rfl, (Option.some.inj hja).symm⟩
        · exact Or.inr ⟨a, ha, hja⟩

theorem encodeMembers_none (es : List (Sigma (fun _ : String => Any)))
    (h : ∃ e ∈ es, e.2.encode = none) : encodeMembers es = none := by
  induction es with
  | nil => simp at h
  | cons e rest ih =>
    cases hj : e.2.encode with
    | none => simp [encodeMembers, hj]
    | some j =>
      have hr : ∃ e ∈ rest, e.2.encode = none := by
        obtain ⟨e1, he1, hn⟩ := h
        rcases List.mem_cons.1 he1 with rfl | hm
        · rw [hj] at hn; exact Option.noConfusion hn
        · exact ⟨e1, hm, hn⟩
      simp [encodeMembers, hj, ih hr]

/-- When every value of the map can be encoded, `json.Marshal` returns an
object with one member for each key of the map, each key once, holding the
encoding of the value under that key, and no error. -/
theorem jsonMarshal_ok (m : AList (fun _ : String => Any))
    (h : ∀ k a, m.lookup k = some a → a.encode ≠ none) :
    ∃ doc, jsonMarshal m = (some doc, none) ∧ doc.keys.Nodup ∧
      (∀ k, k ∈ doc.keys ↔ k ∈ m) ∧
      (∀ k, doc.get k = (m.lookup k).bind Any.encode) := by
  have hperm := List.perm_insertionSort (fun a b : Sigma (fun _ : String => Any) =>
    keyLE a.1 b.1 = true) m.entries
  have henc : ∀ e ∈ m.entries.insertionSort (fun a b => keyLE a.1 b.1 = true),
      e.2.encode ≠ none := by
    intro e he
    have hme : e ∈ m.entries := hperm.mem_iff.1 he
    obtain ⟨k, a⟩ := e
    exact h k a (AList.mem_lookup_iff.2 hme)
  obtain ⟨ms, hms, hkeys, hmem⟩ := encodeMembers_some _ henc
  have hkperm : (ms.map Prod.fst).Perm m.keys := by
    rw [hkeys]
    exact hperm.map Sigma.fst
  have hnd : (ms.map Prod.fst).Nodup := hkperm.nodup_iff.2 m.keys_nodup
  refine ⟨Json.obj ms, by simp [jsonMarshal, hms], hnd, ?_, ?_⟩
  · intro k
    show k ∈ ms.map Prod.fst ↔ k ∈ m
    rw [hkperm.mem_iff, AList.mem_keys]
  · intro k
    show ms.lookup k = (m.lookup k).bind Any.encode
    cases hl : m.lookup k with
    | none =>
      have hk : k ∉ ms.map Prod.fst := by
        rw [hkperm.mem_iff, ← AList.mem_keys]
        exact AList.lookup_eq_none.1 hl
      simpa using lookup_eq_none_of_not_mem ms k hk
    | some a =>
      cases hj : a.encode with
      | none => exact absurd hj (h k a hl)
      | some j =>
        simp only [Option.some_bind, hj]
        rw [lookup_eq_some_iff_mem ms hnd]
        exact (hmem k j).2 ⟨a, hperm.mem_iff.2 (AList.mem_lookup_iff.1 hl), hj⟩

/-- When some value of the map cannot be encoded, `json.Marshal` returns no
bytes and its error. -/
theorem jsonMarshal_error (m : AList (fun _ : String => Any)) (k : String) (a : Any)
    (hl : m.lookup k = some a) (ha : a.encode = none) :
    jsonMarshal m = (none, some Error.jsonUnsupported) := by
  have hperm := List.perm_insertionSort (fun a b : Sigma (fun _ : String => Any) =>
    keyLE a.1 b.1 = true) m.entries
  have hex : ∃ e ∈ m.entries.insertionSort (fun a b => keyLE a.1 b.1 = true),
      e.2.encode = none :=
    ⟨⟨k, a⟩, hperm.mem_iff.2 (AList.mem_lookup_iff.1 hl), ha⟩
  simp [jsonMarshal, encodeMembers_none _ hex]

theorem foldl_insert_lookup (es : List (Sigma (fun _ : String => Value))) (hnd : es.NodupKeys)
    (init : AList (fun _ : String => Any)) (k : String) :
    (es.foldl (fun acc e => acc.insert e.1 (Any.value e.2)) init).lookup k =
      match es.dlookup k with
      | some v => some (Any.value v)
      | none => init.lookup k := by
  induction es generalizing init with
  | nil => simp
  | cons e rest ih =>
    obtain ⟨k0, v0⟩ := e
    rw [List.nodupKeys_cons] at hnd
    rw [List.foldl_cons, ih hnd.2]
    by_cases hk : k = k0
    · subst hk
      have hnone : rest.dlookup k = none := List.dlookup_eq_none.2 hnd.1
      simp [hnone, AList.lookup_insert]
    · have hne : List.dlookup k (⟨k0, v0⟩ :: rest) = List.dlookup k rest :=
        List.dlookup_cons_ne rest ⟨k0, v0⟩ hk
      rw [hne]
      cases hd : rest.dlookup k with
      | some v => rfl
      | none => simp [AList.lookup_insert_ne hk]

/-- The combined map holds, under every key of the flat value map, the flat
value, and under "_aws" the metadata unless "_aws" is a key of the flat value
map. -/
theorem combinedMap_lookup (ml : MetricLog) (k : String) :
    (combinedMap ml).lookup k =
      match ml.metrics.lookup k with
      | some v => some (Any.value v)
      | none => if k = "_aws" then some (Any.aws ml.emf.Aws) else none := by
  unfold combinedMap AList.foldl
  rw [foldl_insert_lookup _ ml.metrics.nodupKeys]
  show (match ml.metrics.lookup k with
      | some v => some (Any.value v)
      | none => _) = _
  cases ml.metrics.lookup k with
  | some v => rfl
  | none =>
    dsimp only
    by_cases hk : k = "_aws"
    · subst hk
      rw [if_pos rfl]
      exact AList.lookup_insert _
    · rw [if_neg hk, AList.lookup_insert_ne hk]
      exact AList.lookup_empty k

theorem combinedMap_mem (ml : MetricLog) (k : String) :
    k ∈ combinedMap ml ↔ k = "_aws" ∨ k ∈ ml.metrics := by
  rw [← AList.lookup_isSome, ← AList.lookup_isSome, combinedMap_lookup]
  cases ml.metrics.lookup k with
  | some v => simp
  | none => by_cases hk : k = "_aws" <;> simp [hk]

theorem combinedMap_encodable (ml : MetricLog) (h : Encodable ml.metrics) :
    ∀ k a, (combinedMap ml).lookup k = some a → a.encode ≠ none := by
  intro k a hl
  rw [combinedMap_lookup] at hl
  cases hv : ml.metrics.lookup k with
  | some v =>
    rw [hv] at hl
    have ha : a = Any.value v := (Option.some.inj hl).symm
    subst ha
    have hne : v ≠ Value.unsupported := h ⟨k, v⟩ (AList.mem_lookup_iff.1 hv)
    cases v <;> simp [Any.encode, Value.encode] at hne ⊢
  | none =>
    rw [hv] at hl
    by_cases hk : k = "_aws"
    · simp only [hk, if_true, Option.some.injEq] at hl
      subst hl
      simp [Any.encode]
    · simp [hk] at hl

theorem jsonMarshal_eq_some (m : AList (fun _ : String => Any)) (doc : Json)
    (h : jsonMarshal m = (some doc, none)) :
    doc.keys.Nodup ∧ (∀ k, k ∈ doc.keys ↔ k ∈ m) ∧
      (∀ k, doc.get k = (m.lookup k).bind Any.encode) := by
  by_cases hall : ∀ k a, m.lookup k = some a → a.encode ≠ none
  · obtain ⟨doc1, hdoc1, hnd, hkeys, hget⟩ := jsonMarshal_ok m hall
    rw [hdoc1] at h
    have hd : doc1 = doc := Option.some.inj (congrArg Prod.fst h)
    subst hd
    exact ⟨hnd, hkeys, hget⟩
  · push_neg at hall
    obtain ⟨k, a, hl, ha⟩ := hall
    rw [jsonMarshal_error m k a hl ha] at h
    exact Option.noConfusion (congrArg Prod.fst h)

theorem marshalJSON_of_valid (ml : MetricLog) (hv : Validate ml = some none) :
    MarshalJSON ml = some (jsonMarshal (combinedMap ml)) := by
  simp [MarshalJSON, hv]

theorem marshalJSON_eq_some (ml : MetricLog) (doc : Json)
    (h : MarshalJSON ml = some (some doc, none)) :
    Validate ml = some none ∧ jsonMarshal (combinedMap ml) = (some doc, none) := by
  unfold MarshalJSON at h
  cases hv : Validate ml with
  | none => simp [hv] at h
  | some r =>
    cases r with
    | some err => simp [hv] at h
    | none =>
      simp only [hv, Option.some.injEq] at h
      exact ⟨rfl, h⟩

theorem scalar_get (v : Value) (j : Json) (h : v.encode = some j) (k : String) :
    j.get k = none := by
  cases v <;> simp [Value.encode] at h <;> subst h <;> rfl

/-! ## MarshalJSON -/

/-- C2, counterexample: after `PutMetric("Latency", math.NaN(), "Milliseconds")`
on the minimal valid log Validate returns no error, and MarshalJSON returns an
error and no bytes. -/
theorem marshal_fails_on_valid_log :
    applyOps (NewMetricLog "N" 1700000000000)
      [Op.putDimension "Service" "API", Op.withDimensionSet ["Service"],
       Op.putMetric "Count" (Value.int 1) "Count"] = some minimalLog ∧
    PutMetric minimalLog "Latency" Value.unsupported "Milliseconds" = some nanLog ∧
    Validate nanLog = some none ∧
    MarshalJSON nanLog = some (none, some Error.jsonUnsupported) :=
  ⟨rfl, rfl, by decide, rfl⟩

/-- C2, amended: MarshalJSON panics exactly when Validate does; when Validate
returns an error, MarshalJSON returns that error and no bytes; when Validate
returns no error, MarshalJSON returns a document and no error if every flat
value can be encoded, and the error of json.Marshal and no bytes otherwise. So
MarshalJSON returns an error exactly when Validate returns one or some flat
value cannot be encoded. -/
theorem marshal_error_cases (ml : MetricLog) :
    (Validate ml = none ↔ MarshalJSON ml = none) ∧
    (∀ err, Validate ml = some (some err) → MarshalJSON ml = some (none, some err)) ∧
    (Validate ml = some none → Encodable ml.metrics →
      ∃ doc, MarshalJSON ml = some (some doc, none)) ∧
    (Validate ml = some none → ¬ Encodable ml.metrics →
      MarshalJSON ml = some (none, some Error.jsonUnsupported)) ∧
    ((∃ err, MarshalJSON ml = some (none, some err)) ↔
      (∃ err, Validate ml = some (some err)) ∨
        (Validate ml = some none ∧ ¬ Encodable ml.metrics)) := by
  have h1 : Validate ml = none ↔ MarshalJSON ml = none := by
    unfold MarshalJSON
    cases hv : Validate ml with
    | none => simp
    | some r => cases r <;> simp
  have h2 : ∀ err, Validate ml = some (some err) → MarshalJSON ml = some (none, some err) := by
    intro err hv
    simp [MarshalJSON, hv]
  have h3 : Validate ml = some none → Encodable ml.metrics →
      ∃ doc, MarshalJSON ml = some (some doc, none) := by
    intro hv henc
    obtain ⟨doc, hdoc, _⟩ := jsonMarshal_ok (combinedMap ml) (combinedMap_encodable ml henc)
    exact ⟨doc, by rw [marshalJSON_of_valid ml hv, hdoc]⟩
  have h4 : Validate ml = some none → ¬ Encodable ml.metrics →
      MarshalJSON ml = some (none, some Error.jsonUnsupported) := by
    intro hv henc
    unfold Encodable at henc
    push_neg at henc
    obtain ⟨e, he, hu⟩ := henc
    obtain ⟨k, v⟩ := e
    have hl : ml.metrics.lookup k = some v := AList.mem_lookup_iff.2 he
    have hc : (combinedMap ml).lookup k = some (Any.value v) := by
      rw [combinedMap_lookup, hl]
    have hu1 : v = Value.unsupported := hu
    rw [marshalJSON_of_valid ml hv,
      jsonMarshal_error (combinedMap ml) k (Any.value v) hc (by rw [hu1]; rfl)]
  refine ⟨h1, h2, h3, h4, ?_⟩
  constructor
  · rintro ⟨err, herr⟩
    cases hv : Validate ml with
    | none => rw [h1.1 hv] at herr; exact Option.noConfusion herr
    | some r =>
      cases r with
      | some e => exact Or.inl ⟨e, rfl⟩
      | none =>
        refine Or.inr ⟨rfl, ?_⟩
        intro henc
        obtain ⟨doc, hdoc⟩ := h3 hv henc
        rw [hdoc] at herr
        exact Option.noConfusion (congrArg Prod.fst (Option.some.inj herr))
  · rintro (⟨err, herr⟩ | ⟨hv, henc⟩)
    · exact ⟨err, h2 err herr⟩
    · exact ⟨Error.jsonUnsupported, h4 hv henc⟩

/-- C4, the code at the failing input: after `Builder().Property("_aws", "x")`
on the minimal valid log, Validate returns no error and the top-level "_aws"
member of the document is the string "x", not the metadata object. -/
theorem property_aws_overwrites_metadata :
    applyOps (NewMetricLog "N" 1700000000000)
      [Op.putDimension "Service" "API", Op.withDimensionSet ["Service"],
       Op.putMetric "Count" (Value.int 1) "Count",
       Op.property "_aws" (Value.str "x")] = some collisionLog ∧
    Validate collisionLog = some none ∧
    collisionLog.metrics.lookup "_aws" = some (Value.str "x") ∧
    MarshalJSON collisionLog =
      some (some (Json.obj [("Count", Json.int 1), ("Service", Json.str "API"),
        ("_aws", Json.str "x")]), none) ∧
    Json.get (Json.obj [("Count", Json.int 1), ("Service", Json.str "API"),
        ("_aws", Json.str "x")]) "_aws" = some (Json.str "x") ∧
    Json.str "x" ≠ encodeAws collisionLog.emf.Aws := by
  refine ⟨rfl, by decide, by decide, rfl, rfl, ?_⟩
  intro h
  simp [encodeAws] at h

/-- C5: when Validate succeeds (and every flat value is a string, a number, a
boolean or nil), MarshalJSON returns a document whose top-level keys, each
occurring once, are exactly "_aws" and the keys of the flat value map, and every
flat key other than "_aws" carries the value stored under it; a nil value is a
present member with value null. -/
theorem marshal_top_level_keys (ml : MetricLog) (hv : Validate ml = some none)
    (henc : Encodable ml.metrics) :
    ∃ doc, MarshalJSON ml = some (some doc, none) ∧ doc.keys.Nodup ∧
      (∀ k, k ∈ doc.keys ↔ k = "_aws" ∨ k ∈ ml.metrics) ∧
      (∀ k v, k ≠ "_aws" → ml.metrics.lookup k = some v →
        doc.get k = v.encode ∧ v.encode ≠ none) ∧
      (∀ k, k ≠ "_aws" → ml.metrics.lookup k = some Value.null →
        k ∈ doc.keys ∧ doc.get k = some Json.null) := by
  obtain ⟨doc, hdoc, hnd, hkeys, hget⟩ :=
    jsonMarshal_ok (combinedMap ml) (combinedMap_encodable ml henc)
  have hval : ∀ k v, ml.metrics.lookup k = some v → doc.get k = v.encode := by
    intro k v hl
    rw [hget k, combinedMap_lookup, hl]
    rfl
  refine ⟨doc, by rw [marshalJSON_of_valid ml hv, hdoc], hnd, ?_, ?_, ?_⟩
  · intro k
    rw [hkeys k, combinedMap_mem]
  · intro k v _ hl
    refine ⟨hval k v hl, ?_⟩
    have hne : v ≠ Value.unsupported := henc ⟨k, v⟩ (AList.mem_lookup_iff.1 hl)
    cases v <;> simp [Value.encode] at hne ⊢
  · intro k _ hl
    refine ⟨?_, hval k Value.null hl⟩
    rw [hkeys k, combinedMap_mem]
    exact Or.inr (AList.lookup_isSome.1 (by rw [hl]; rfl))

/-- C5 at the minimal valid log. -/
theorem marshal_top_level_keys_witness :
    Validate minimalLog = some none ∧ Encodable minimalLog.metrics ∧
    ∃ doc, MarshalJSON minimalLog = some (some doc, none) ∧ doc.keys.Nodup ∧
      (∀ k, k ∈ doc.keys ↔ k = "_aws" ∨ k ∈ minimalLog.metrics) ∧
      (∀ k v, k ≠ "_aws" → minimalLog.metrics.lookup k = some v →
        doc.get k = v.encode ∧ v.encode ≠ none) ∧
      (∀ k, k ≠ "_aws" → minimalLog.metrics.lookup k = some Value.null →
        k ∈ doc.keys ∧ doc.get k = some Json.null) :=
  ⟨by decide, by decide, marshal_top_level_keys minimalLog (by decide) (by decide)⟩

/-! ## Mutations -/

theorem updateDirective_eq (ml : MetricLog)
    (f : EmfFormatJsonAwsCloudWatchMetricsElem → EmfFormatJsonAwsCloudWatchMetricsElem)
    (directive : EmfFormatJsonAwsCloudWatchMetricsElem)
    (rest : List EmfFormatJsonAwsCloudWatchMetricsElem)
    (h : ml.emf.Aws.CloudWatchMetrics = directive :: rest) :
    updateDirective ml f =
      some { emf := { Aws := { CloudWatchMetrics := f directive :: rest
                               Timestamp := ml.emf.Aws.Timestamp } }
             metrics := ml.metrics } := by
  unfold updateDirective
  rw [h]

theorem withDimensionSet_eq (ml : MetricLog) (dimensions : List String)
    (directive : EmfFormatJsonAwsCloudWatchMetricsElem)
    (rest : List EmfFormatJsonAwsCloudWatchMetricsElem)
    (h : ml.emf.Aws.CloudWatchMetrics = directive :: rest) :
    WithDimensionSet ml dimensions =
      some { emf := { Aws := { CloudWatchMetrics :=
                                 { Dimensions := directive.Dimensions ++ [dimensions]
                                   Metrics := directive.Metrics
                                   Namespace := directive.Namespace } :: rest
                               Timestamp := ml.emf.Aws.Timestamp } }
             metrics := ml.metrics } := by
  unfold WithDimensionSet
  rw [updateDirective_eq ml _ directive rest h]

theorem putMetric_eq (ml : MetricLog) (name : String) (value : Value) (unit : String)
    (directive : EmfFormatJsonAwsCloudWatchMetricsElem)
    (rest : List EmfFormatJsonAwsCloudWatchMetricsElem)
    (h : ml.emf.Aws.CloudWatchMetrics = directive :: rest) :
    PutMetric ml name value unit =
      some { emf := { Aws := { CloudWatchMetrics :=
                                 { Dimensions := directive.Dimensions
                                   Metrics := directive.Metrics ++
                                     [{ Name := name, Unit := some unit,
                                        StorageResolution := none }]
                                   Namespace := directive.Namespace } :: rest
                               Timestamp := ml.emf.Aws.Timestamp } }
             metrics := ml.metrics.insert name value } := by
  exact updateDirective_eq { ml with metrics := ml.metrics.insert name value } _ directive rest h

theorem putMetricWithResolution_eq (ml : MetricLog) (name : String) (value : Value)
    (unit : String) (resolution : Int)
    (directive : EmfFormatJsonAwsCloudWatchMetricsElem)
    (rest : List EmfFormatJsonAwsCloudWatchMetricsElem)
    (h : ml.emf.Aws.CloudWatchMetrics = directive :: rest) :
    PutMetricWithResolution ml name value unit resolution =
      some { emf := { Aws := { CloudWatchMetrics :=
                                 { Dimensions := directive.Dimensions
                                   Metrics := directive.Metrics ++
                                     [{ Name := name, Unit := some unit,
                                        StorageResolution := some resolution }]
                                   Namespace := directive.Namespace } :: rest
                               Timestamp := ml.emf.Aws.Timestamp } }
             metrics := ml.metrics.insert name value } := by
  exact updateDirective_eq { ml with metrics := ml.metrics.insert name value } _ directive rest h

theorem apply_dimensionSet (ml : MetricLog) (dimensions : List String) :
    (Op.dimensionSet dimensions).apply ml = WithDimensionSet ml dimensions := by
  show Option.map MetricLogBuilder.Build
    (Option.map (fun ml => (⟨ml⟩ : MetricLogBuilder)) (WithDimensionSet ml dimensions)) = _
  cases WithDimensionSet ml dimensions <;> rfl

theorem apply_metric (ml : MetricLog) (name : String) (value : Value) (unit : String) :
    (Op.metric name value unit).apply ml = PutMetric ml name value unit := by
  show Option.map MetricLogBuilder.Build
    (Option.map (fun ml => (⟨ml⟩ : MetricLogBuilder)) (PutMetric ml name value unit)) = _
  cases PutMetric ml name value unit <;> rfl

theorem apply_metricWithResolution (ml : MetricLog) (name : String) (value : Value)
    (unit : String) (resolution : Int) :
    (Op.metricWithResolution name value unit resolution).apply ml =
      PutMetricWithResolution ml name value unit resolution := by
  show Option.map MetricLogBuilder.Build
    (Option.map (fun ml => (⟨ml⟩ : MetricLogBuilder)) (PutMetricWithResolution ml name value unit resolution)) = _
  cases PutMetricWithResolution ml name value unit resolution <;> rfl

/-- One call on a log with one directive succeeds and leaves one directive,
with the same namespace, the dimension set the call adds (if any) appended to
the dimension sets, and the metric definition it adds (if any) appended to the
metric definitions; the timestamp is unchanged. -/
theorem apply_directive (ml : MetricLog) (op : Op)
    (directive : EmfFormatJsonAwsCloudWatchMetricsElem)
    (h : ml.emf.Aws.CloudWatchMetrics = [directive]) :
    ∃ ml1, op.apply ml = some ml1 ∧
      ml1.emf.Aws.CloudWatchMetrics =
        [{ Dimensions := directive.Dimensions ++ op.addedDimensionSet.toList
           Metrics := directive.Metrics ++ op.addedMetric.toList
           Namespace := directive.Namespace }] ∧
      ml1.emf.Aws.Timestamp = ml.emf.Aws.Timestamp := by
  cases op with
  | putDimension key value =>
    exact ⟨_, rfl, by simp [PutDimension, h, Op.addedDimensionSet, Op.addedMetric], rfl⟩
  | withDimensionSet dimensions =>
    exact ⟨_, withDimensionSet_eq ml dimensions directive [] h,
      by simp [Op.addedDimensionSet, Op.addedMetric], rfl⟩
  | putMetric name value unit =>
    exact ⟨_, putMetric_eq ml name value unit directive [] h,
      by simp [Op.addedDimensionSet, Op.addedMetric], rfl⟩
  | putMetricWithResolution name value unit resolution =>
    exact ⟨_, putMetricWithResolution_eq ml name value unit resolution directive [] h,
      by simp [Op.addedDimensionSet, Op.addedMetric], rfl⟩
  | dimension key value =>
    exact ⟨_, rfl, by
      simp [MetricLogBuilder.Build, MetricLogBuilder.Dimension, Builder, NewMetricLogBuilder,
        PutDimension, h, Op.addedDimensionSet, Op.addedMetric], rfl⟩
  | dimensionSet dimensions =>
    rw [apply_dimensionSet]
    exact ⟨_, withDimensionSet_eq ml dimensions directive [] h,
      by simp [Op.addedDimensionSet, Op.addedMetric], rfl⟩
  | metric name value unit =>
    rw [apply_metric]
    exact ⟨_, putMetric_eq ml name value unit directive [] h,
      by simp [Op.addedDimensionSet, Op.addedMetric], rfl⟩
  | metricWithResolution name value unit resolution =>
    rw [apply_metricWithResolution]
    exact ⟨_, putMetricWithResolution_eq ml name value unit resolution directive [] h,
      by simp [Op.addedDimensionSet, Op.addedMetric], rfl⟩
  | property key value =>
    exact ⟨_, rfl, by
      simp [MetricLogBuilder.Build, MetricLogBuilder.Property, Builder, NewMetricLogBuilder,
        h, Op.addedDimensionSet, Op.addedMetric], rfl⟩

/-- A sequence of calls on a log with one directive succeeds and appends the
added dimension sets and the added metric definitions in call order. -/
theorem applyOps_directive (ops : List Op) (ml : MetricLog)
    (directive : EmfFormatJsonAwsCloudWatchMetricsElem)
    (h : ml.emf.Aws.CloudWatchMetrics = [directive]) :
    ∃ ml1, applyOps ml ops = some ml1 ∧
      ml1.emf.Aws.CloudWatchMetrics =
        [{ Dimensions := directive.Dimensions ++ ops.filterMap Op.addedDimensionSet
           Metrics := directive.Metrics ++ ops.filterMap Op.addedMetric
           Namespace := directive.Namespace }] ∧
      ml1.emf.Aws.Timestamp = ml.emf.Aws.Timestamp := by
  induction ops generalizing ml directive with
  | nil => exact ⟨ml, rfl, by simp [h], rfl⟩
  | cons op rest ih =>
    obtain ⟨ml1, h1, hd1, ht1⟩ := apply_directive ml op directive h
    obtain ⟨ml2, h2, hd2, ht2⟩ := ih ml1 _ hd1
    refine ⟨ml2, by simp [applyOps, h1, h2], ?_, by rw [ht2, ht1]⟩
    rw [hd2]
    cases hds : op.addedDimensionSet <;> cases hm : op.addedMetric <;>
      simp [List.filterMap_cons, hds, hm]

/-- C7: on a fresh log every sequence of mutation calls succeeds and leaves
as dimension-set sequence exactly the arguments of its WithDimensionSet calls, in
call order, whatever other calls are interleaved; in particular the calls
WithDimensionSet(s1), ..., WithDimensionSet(sn) leave [s1, ..., sn], empty and
repeated sets included; and one call appends its argument to the dimension sets
and changes nothing else. -/
theorem dimension_sets_in_call_order (ns : String) (timestamp : Int) :
    (∀ ops : List Op, ∃ ml directive,
      applyOps (NewMetricLog ns timestamp) ops = some ml ∧
      ml.emf.Aws.CloudWatchMetrics = [directive] ∧
      directive.Dimensions = ops.filterMap Op.addedDimensionSet) ∧
    (∀ sets : List (List String), ∃ ml directive,
      applyOps (NewMetricLog ns timestamp) (sets.map Op.withDimensionSet) = some ml ∧
      ml.emf.Aws.CloudWatchMetrics = [directive] ∧
      directive.Dimensions = sets) ∧
    (∀ (ml : MetricLog) (directive : EmfFormatJsonAwsCloudWatchMetricsElem)
      (rest : List EmfFormatJsonAwsCloudWatchMetricsElem) (dimensions : List String),
      ml.emf.Aws.CloudWatchMetrics = directive :: rest →
      ∃ ml1, WithDimensionSet ml dimensions = some ml1 ∧
        ml1.emf.Aws.CloudWatchMetrics =
          { directive with Dimensions := directive.Dimensions ++ [dimensions] } :: rest ∧
        ml1.metrics = ml.metrics ∧ ml1.emf.Aws.Timestamp = ml.emf.Aws.Timestamp) := by
  have hseq : ∀ ops : List Op, ∃ ml directive,
      applyOps (NewMetricLog ns timestamp) ops = some ml ∧
      ml.emf.Aws.CloudWatchMetrics = [directive] ∧
      directive.Dimensions = ops.filterMap Op.addedDimensionSet := by
    intro ops
    obtain ⟨ml, hml, hd, _⟩ := applyOps_directive ops (NewMetricLog ns timestamp) _ rfl
    exact ⟨ml, _, hml, hd, by simp⟩
  refine ⟨hseq, ?_, ?_⟩
  · intro sets
    obtain ⟨ml, directive, hml, hd, hdims⟩ := hseq (sets.map Op.withDimensionSet)
    refine ⟨ml, directive, hml, hd, ?_⟩
    rw [hdims, List.filterMap_map]
    have hf : Op.addedDimensionSet ∘ Op.withDimensionSet = some := by
      funext s
      rfl
    rw [hf, List.filterMap_some]
  · intro ml directive rest dimensions h
    exact ⟨_, withDimensionSet_eq ml dimensions directive rest h, rfl, rfl, rfl⟩

/-- C8: PutMetric(name, value, unit) stores value under name in the flat value
map and appends the one definition with that name, that unit and no storage
resolution; PutMetricWithResolution does the same with the storage resolution
given; so after any sequence of calls on a fresh log the metric definitions are
those of the metric calls in call order. -/
theorem put_metric_appends (name : String) (value : Value) (unit : String) :
    (∀ (ml : MetricLog) (directive : EmfFormatJsonAwsCloudWatchMetricsElem)
      (rest : List EmfFormatJsonAwsCloudWatchMetricsElem),
      ml.emf.Aws.CloudWatchMetrics = directive :: rest →
      ∃ ml1, PutMetric ml name value unit = some ml1 ∧
        ml1.metrics = ml.metrics.insert name value ∧
        ml1.metrics.lookup name = some value ∧
        ml1.emf.Aws.CloudWatchMetrics =
          { directive with
            Metrics := directive.Metrics ++
              [{ Name := name, Unit := some unit, StorageResolution := none }] } :: rest) ∧
    (∀ (ml : MetricLog) (directive : EmfFormatJsonAwsCloudWatchMetricsElem)
      (rest : List EmfFormatJsonAwsCloudWatchMetricsElem) (resolution : Int),
      ml.emf.Aws.CloudWatchMetrics = directive :: rest →
      ∃ ml1, PutMetricWithResolution ml name value unit resolution = some ml1 ∧
        ml1.metrics = ml.metrics.insert name value ∧
        ml1.metrics.lookup name = some value ∧
        ml1.emf.Aws.CloudWatchMetrics =
          { directive with
            Metrics := directive.Metrics ++
              [{ Name := name, Unit := some unit,
                 StorageResolution := some resolution }] } :: rest) ∧
    (∀ (ns : String) (timestamp : Int) (ops : List Op), ∃ ml directive,
      applyOps (NewMetricLog ns timestamp) ops = some ml ∧
      ml.emf.Aws.CloudWatchMetrics = [directive] ∧
      directive.Metrics = ops.filterMap Op.addedMetric) := by
  refine ⟨?_, ?_, ?_⟩
  · intro ml directive rest h
    exact ⟨_, putMetric_eq ml name value unit directive rest h, rfl,
      AList.lookup_insert _, rfl⟩
  · intro ml directive rest resolution h
    exact ⟨_, putMetricWithResolution_eq ml name value unit resolution directive rest h, rfl,
      AList.lookup_insert _, rfl⟩
  · intro ns timestamp ops
    obtain ⟨ml, hml, hd, _⟩ := applyOps_directive ops (NewMetricLog ns timestamp) _ rfl
    exact ⟨ml, _, hml, hd, by simp⟩

/-- C9: two calls PutMetric(name, v1, u1), PutMetric(name, v2, u2) append two
definitions named name, with units u1 then u2, while the flat value map holds
the one value v2 under name; and when the namespace, the dimension sets and the
earlier metric definitions of the log pass their checks, name has length in
1..1024 and u1, u2 are unit constants, Validate succeeds on the result. -/
theorem duplicate_metric_kept (ml : MetricLog)
    (directive : EmfFormatJsonAwsCloudWatchMetricsElem)
    (rest : List EmfFormatJsonAwsCloudWatchMetricsElem)
    (name : String) (v1 v2 : Value) (u1 u2 : String)
    (h : ml.emf.Aws.CloudWatchMetrics = directive :: rest) :
    ∃ ml2, (PutMetric ml name v1 u1).bind (fun ml1 => PutMetric ml1 name v2 u2) = some ml2 ∧
      ml2.emf.Aws.CloudWatchMetrics =
        { directive with
          Metrics := directive.Metrics ++
            [{ Name := name, Unit := some u1, StorageResolution := none },
             { Name := name, Unit := some u2, StorageResolution := none }] } :: rest ∧
      ml2.metrics.lookup name = some v2 ∧
      ml2.metrics.keys.count name = 1 ∧
      ((1 ≤ len directive.Namespace ∧ len directive.Namespace ≤ 1024) →
        1 ≤ directive.Dimensions.length →
        (∀ dimSet ∈ directive.Dimensions, dimSet ≠ [] ∧ dimSet.length ≤ 30 ∧
          ∀ dim ∈ dimSet, len dim ≤ 250 ∧ dim ∈ ml.metrics) →
        (∀ metric ∈ directive.Metrics, validateMetric ml.metrics metric = none) →
        (1 ≤ len name ∧ len name ≤ 1024) →
        u1 ∈ Units → u2 ∈ Units →
        Validate ml2 = some none) := by
  refine ⟨{ emf := { Aws := { CloudWatchMetrics :=
                                { directive with
                                  Metrics := directive.Metrics ++
                                    [{ Name := name, Unit := some u1, StorageResolution := none },
                                     { Name := name, Unit := some u2,
                                       StorageResolution := none }] } :: rest
                              Timestamp := ml.emf.Aws.Timestamp } }
            metrics := (ml.metrics.insert name v1).insert name v2 },
    ?_, rfl, AList.lookup_insert _, ?_, ?_⟩
  · rw [putMetric_eq ml name v1 u1 directive rest h]
    simp only [Option.some_bind]
    rw [putMetric_eq _ name v2 u2 _ rest rfl]
    simp
  · exact List.count_eq_one_of_mem (AList.keys_nodup _)
      (AList.mem_keys.1 ((AList.mem_insert _).2 (Or.inl rfl)))
  · intro hns hd hdim hmet hname hu1 hu2
    show some (validateDirective _ _) = some none
    rw [(validateDirective_eq_none_iff _ _).2]
    have hmono : ∀ k, k ∈ ml.metrics →
        k ∈ (ml.metrics.insert name v1).insert name v2 := by
      intro k hk
      exact (AList.mem_insert _).2 (Or.inr ((AList.mem_insert _).2 (Or.inr hk)))
    have hnew : name ∈ (ml.metrics.insert name v1).insert name v2 :=
      (AList.mem_insert _).2 (Or.inl rfl)
    refine ⟨hns, by simp, hd, fun s hs => (hdim s hs).1, ?_, ?_⟩
    · intro metric hm
      rw [validateMetric_eq_none_iff]
      simp only [List.append_assoc, List.mem_append, List.mem_cons, List.mem_singleton,
        List.not_mem_nil, or_false] at hm
      rcases hm with hm | hm | hm
      · have hold := (validateMetric_eq_none_iff _ _).1 (hmet metric hm)
        exact ⟨⟨hold.1.1, hold.1.2.1, hmono _ hold.1.2.2⟩, hold.2⟩
      · subst hm
        refine ⟨⟨hname.1, hname.2, hnew⟩, ?_, ?_⟩
        · intro unit hunit
          rw [← Option.some.inj hunit]
          exact hu1
        · intro r hr
          exact Option.noConfusion hr
      · subst hm
        refine ⟨⟨hname.1, hname.2, hnew⟩, ?_, ?_⟩
        · intro unit hunit
          rw [← Option.some.inj hunit]
          exact hu2
        · intro r hr
          exact Option.noConfusion hr
    · intro s hs
      exact ⟨(hdim s hs).2.1, fun dim hdm =>
        ⟨((hdim s hs).2.2 dim hdm).1, hmono _ ((hdim s hs).2.2 dim hdm).2⟩⟩

/-- C9 at the log with one dimension set and no metric, for
PutMetric("Count", 1, "Count") then PutMetric("Count", 2, "None"): the result
passes Validate. -/
theorem duplicate_metric_kept_witness :
    noMetricLog.emf.Aws.CloudWatchMetrics = noMetricDirective :: [] ∧
    ((PutMetric noMetricLog "Count" (Value.int 1) "Count").bind
      (fun ml1 => PutMetric ml1 "Count" (Value.int 2) "None")).bind Validate = some none ∧
    ∃ ml2, (PutMetric noMetricLog "Count" (Value.int 1) "Count").bind
        (fun ml1 => PutMetric ml1 "Count" (Value.int 2) "None") = some ml2 ∧
      ml2.emf.Aws.CloudWatchMetrics =
        { noMetricDirective with
          Metrics := noMetricDirective.Metrics ++
            [{ Name := "Count", Unit := some "Count", StorageResolution := none },
             { Name := "Count", Unit := some "None", StorageResolution := none }] } :: [] ∧
      ml2.metrics.lookup "Count" = some (Value.int 2) ∧
      ml2.metrics.keys.count "Count" = 1 ∧
      ((1 ≤ len noMetricDirective.Namespace ∧ len noMetricDirective.Namespace ≤ 1024) →
        1 ≤ noMetricDirective.Dimensions.length →
        (∀ dimSet ∈ noMetricDirective.Dimensions, dimSet ≠ [] ∧ dimSet.length ≤ 30 ∧
          ∀ dim ∈ dimSet, len dim ≤ 250 ∧ dim ∈ noMetricLog.metrics) →
        (∀ metric ∈ noMetricDirective.Metrics,
          validateMetric noMetricLog.metrics metric = none) →
        (1 ≤ len "Count" ∧ len "Count" ≤ 1024) →
        "Count" ∈ Units → "None" ∈ Units →
        Validate ml2 = some none) :=
  ⟨rfl, by decide,
    duplicate_metric_kept noMetricLog noMetricDirective [] "Count" (Value.int 1) (Value.int 2)
      "Count" "None" rfl⟩

theorem elemsAt_encodeDirective (d : EmfFormatJsonAwsCloudWatchMetricsElem) :
    (encodeDirective d).elemsAt "Metrics" = d.Metrics.map encodeMetricsElem := by
  have h : (encodeDirective d).get "Metrics" = some (Json.arr (d.Metrics.map encodeMetricsElem)) := by
    simp [encodeDirective, Json.get, Json.members, List.lookup]
  simp [Json.elemsAt, h, Json.elems]

theorem elemsAt_encodeAws (a : EmfFormatJsonAws) :
    (encodeAws a).elemsAt "CloudWatchMetrics" = a.CloudWatchMetrics.map encodeDirective := by
  have h : (encodeAws a).get "CloudWatchMetrics"
      = some (Json.arr (a.CloudWatchMetrics.map encodeDirective)) := by
    simp [encodeAws, Json.get, Json.members, List.lookup]
  simp [Json.elemsAt, h, Json.elems]

theorem flatMap_encodeDirective (ds : List EmfFormatJsonAwsCloudWatchMetricsElem) :
    (ds.map encodeDirective).flatMap (fun d => d.elemsAt "Metrics")
      = ds.flatMap (fun d => d.Metrics.map encodeMetricsElem) := by
  induction ds with
  | nil => rfl
  | cons d rest ih => simp [List.flatMap_cons, elemsAt_encodeDirective, ih]

/-- The "_aws" member of an emitted document: the flat value under "_aws" when
there is one, the metadata otherwise. -/
theorem marshal_get_aws (ml : MetricLog) (doc : Json)
    (h : MarshalJSON ml = some (some doc, none)) :
    (∀ v, ml.metrics.lookup "_aws" = some v → doc.get "_aws" = v.encode) ∧
    ("_aws" ∉ ml.metrics → doc.get "_aws" = some (encodeAws ml.emf.Aws)) := by
  obtain ⟨_, hj⟩ := marshalJSON_eq_some ml doc h
  obtain ⟨_, _, hget⟩ := jsonMarshal_eq_some _ doc hj
  constructor
  · intro v hv
    rw [hget, combinedMap_lookup, hv]
    rfl
  · intro hno
    rw [hget, combinedMap_lookup, AList.lookup_eq_none.2 hno]
    rfl

theorem metricObjects_of_marshal (ml : MetricLog) (doc : Json)
    (h : MarshalJSON ml = some (some doc, none)) :
    ("_aws" ∈ ml.metrics → metricObjects doc = []) ∧
    ("_aws" ∉ ml.metrics → metricObjects doc =
      ml.emf.Aws.CloudWatchMetrics.flatMap (fun d => d.Metrics.map encodeMetricsElem)) := by
  obtain ⟨hflat, hmeta⟩ := marshal_get_aws ml doc h
  constructor
  · intro hmem
    obtain ⟨v, hv⟩ := Option.isSome_iff_exists.1 (AList.lookup_isSome.2 hmem)
    have hg := hflat v hv
    unfold metricObjects
    rw [hg]
    cases hj : v.encode with
    | none => rfl
    | some j =>
      have hnone : j.get "CloudWatchMetrics" = none := scalar_get v j hj _
      simp [Json.elemsAt, hnone]
  · intro hno
    unfold metricObjects
    rw [hmeta hno]
    simp only [elemsAt_encodeAws, flatMap_encodeDirective]

theorem encodeMetricsElem_keys (m : EmfFormatJsonAwsCloudWatchMetricsElemMetricsElem) :
    "Name" ∈ (encodeMetricsElem m).keys ∧
    (encodeMetricsElem m).get "Name" = some (Json.str m.Name) ∧
    ("Unit" ∈ (encodeMetricsElem m).keys ↔ m.Unit ≠ none) ∧
    ("StorageResolution" ∈ (encodeMetricsElem m).keys ↔ m.StorageResolution ≠ none) ∧
    (∀ u, m.Unit = some u → (encodeMetricsElem m).get "Unit" = some (Json.str u)) ∧
    (∀ r, m.StorageResolution = some r →
      (encodeMetricsElem m).get "StorageResolution" = some (Json.int r)) := by
  obtain ⟨name, res, unit⟩ := m
  cases res <;> cases unit <;>
    simp [encodeMetricsElem, Json.keys, Json.get, Json.members, List.lookup]

/-- C6, counterexample: on the minimal valid log after
`PutMetric("Latency", math.NaN(), "Milliseconds")` Validate succeeds and
MarshalJSON returns no document at all; after `PutDimension("_aws", "x")`
Validate succeeds and the "_aws" member of the document is the string "x",
without Timestamp or CloudWatchMetrics. -/
theorem marshal_without_metadata :
    PutMetric minimalLog "Latency" Value.unsupported "Milliseconds" = some nanLog ∧
    PutDimension minimalLog "_aws" "x" = shadowedLog ∧
    Validate nanLog = some none ∧
    (MarshalJSON nanLog).map Prod.fst = some none ∧
    Validate shadowedLog = some none ∧
    MarshalJSON shadowedLog =
      some (some (Json.obj [("Count", Json.int 1), ("Service", Json.str "API"),
        ("_aws", Json.str "x")]), none) ∧
    Json.get (Json.obj [("Count", Json.int 1), ("Service", Json.str "API"),
        ("_aws", Json.str "x")]) "_aws" = some (Json.str "x") :=
  ⟨rfl, rfl, by decide, rfl, by decide, rfl, rfl⟩

/-- C6, amended: for a log with one directive on which Validate succeeds, whose
flat values can all be encoded and whose flat value map has no key "_aws",
MarshalJSON returns a document whose "_aws" member has Timestamp equal to the
stored timestamp and CloudWatchMetrics equal to the one-element array holding
Dimensions (the dimension sets, as arrays of strings, in order), Metrics (the
metric definitions, in order) and Namespace. For namespace "N",
PutDimension("Service","API"), WithDimensionSet(["Service"]),
PutMetric("Count",1,"Count") at any timestamp the document is the one of the
specification. -/
theorem marshal_metadata :
    (∀ (ml : MetricLog) (directive : EmfFormatJsonAwsCloudWatchMetricsElem),
      ml.emf.Aws.CloudWatchMetrics = [directive] → Validate ml = some none →
      Encodable ml.metrics → "_aws" ∉ ml.metrics →
      ∃ doc, MarshalJSON ml = some (some doc, none) ∧
        doc.get "_aws" = some (Json.obj
          [("CloudWatchMetrics", Json.arr
             [Json.obj
               [("Dimensions", Json.arr
                  (directive.Dimensions.map (fun dimSet => Json.arr (dimSet.map Json.str)))),
                ("Metrics", Json.arr (directive.Metrics.map encodeMetricsElem)),
                ("Namespace", Json.str directive.Namespace)]]),
           ("Timestamp", Json.int ml.emf.Aws.Timestamp)])) ∧
    (∀ timestamp : Int, ∃ ml,
      (WithDimensionSet (PutDimension (NewMetricLog "N" timestamp) "Service" "API")
          ["Service"]).bind (fun ml1 => PutMetric ml1 "Count" (Value.int 1) "Count") = some ml ∧
      MarshalJSON ml = some (some (Json.obj
        [("Count", Json.int 1),
         ("Service", Json.str "API"),
         ("_aws", Json.obj
           [("CloudWatchMetrics", Json.arr
              [Json.obj
                [("Dimensions", Json.arr [Json.arr [Json.str "Service"]]),
                 ("Metrics", Json.arr [Json.obj [("Name", Json.str "Count"),
                                                 ("Unit", Json.str "Count")]]),
                 ("Namespace", Json.str "N")]]),
            ("Timestamp", Json.int timestamp)])]), none)) := by
  constructor
  · intro ml directive hd hv henc hno
    obtain ⟨doc, hdoc, _⟩ := jsonMarshal_ok (combinedMap ml) (combinedMap_encodable ml henc)
    have hm : MarshalJSON ml = some (some doc, none) := by
      rw [marshalJSON_of_valid ml hv, hdoc]
    refine ⟨doc, hm, ?_⟩
    rw [(marshal_get_aws ml doc hm).2 hno]
    simp [encodeAws, encodeDirective, hd]
  · intro timestamp
    exact ⟨_, rfl, rfl⟩

/-- C10: in every document MarshalJSON emits, each metric object is the
encoding of a metric definition of the log; it has the key Name, the key Unit
exactly when the definition has a unit and the key StorageResolution exactly
when it has a storage resolution; when "_aws" is not a flat key the metric
objects are the definitions in order. The definition PutMetric appends is
emitted as Name and Unit only, the one PutMetricWithResolution appends as Name,
StorageResolution (the integer given) and Unit. -/
theorem metric_object_keys (ml : MetricLog) (doc : Json)
    (h : MarshalJSON ml = some (some doc, none)) :
    (∀ o ∈ metricObjects doc, ∃ directive ∈ ml.emf.Aws.CloudWatchMetrics,
      ∃ metric ∈ directive.Metrics, o = encodeMetricsElem metric ∧
        "Name" ∈ o.keys ∧ o.get "Name" = some (Json.str metric.Name) ∧
        ("Unit" ∈ o.keys ↔ metric.Unit ≠ none) ∧
        ("StorageResolution" ∈ o.keys ↔ metric.StorageResolution ≠ none)) ∧
    ("_aws" ∉ ml.metrics → metricObjects doc =
      ml.emf.Aws.CloudWatchMetrics.flatMap (fun d => d.Metrics.map encodeMetricsElem)) ∧
    (∀ (name : String) (value : Value) (unit : String) (ml1 : MetricLog),
      PutMetric ml name value unit = some ml1 →
      ∃ directive rest metric, ml1.emf.Aws.CloudWatchMetrics = directive :: rest ∧
        directive.Metrics.getLast? = some metric ∧
        encodeMetricsElem metric =
          Json.obj [("Name", Json.str name), ("Unit", Json.str unit)]) ∧
    (∀ (name : String) (value : Value) (unit : String) (resolution : Int) (ml1 : MetricLog),
      PutMetricWithResolution ml name value unit resolution = some ml1 →
      ∃ directive rest metric, ml1.emf.Aws.CloudWatchMetrics = directive :: rest ∧
        directive.Metrics.getLast? = some metric ∧
        encodeMetricsElem metric =
          Json.obj [("Name", Json.str name), ("StorageResolution", Json.int resolution),
            ("Unit", Json.str unit)]) := by
  obtain ⟨hshadow, hmeta⟩ := metricObjects_of_marshal ml doc h
  refine ⟨?_, hmeta, ?_, ?_⟩
  · intro o ho
    by_cases hk : "_aws" ∈ ml.metrics
    · rw [hshadow hk] at ho
      exact absurd ho (List.not_mem_nil o)
    · rw [hmeta hk] at ho
      obtain ⟨directive, hd, hmem⟩ := List.mem_flatMap.1 ho
      obtain ⟨metric, hm, rfl⟩ := List.mem_map.1 hmem
      have hkeys := encodeMetricsElem_keys metric
      exact ⟨directive, hd, metric, hm, rfl, hkeys.1, hkeys.2.1, hkeys.2.2.1, hkeys.2.2.2.1⟩
  · intro name value unit ml1 hput
    cases hc : ml.emf.Aws.CloudWatchMetrics with
    | nil =>
      have hnone : PutMetric ml name value unit = none := by
        simp [PutMetric, updateDirective, hc]
      rw [hnone] at hput
      exact Option.noConfusion hput
    | cons directive rest =>
      rw [putMetric_eq ml name value unit directive rest hc] at hput
      have hml1 := Option.some.inj hput
      subst hml1
      exact ⟨_, rest, { Name := name, Unit := some unit, StorageResolution := none }, rfl,
        by simp, rfl⟩
  · intro name value unit resolution ml1 hput
    cases hc : ml.emf.Aws.CloudWatchMetrics with
    | nil =>
      have hnone : PutMetricWithResolution ml name value unit resolution = none := by
        simp [PutMetricWithResolution, updateDirective, hc]
      rw [hnone] at hput
      exact Option.noConfusion hput
    | cons directive rest =>
      rw [putMetricWithResolution_eq ml name value unit resolution directive rest hc] at hput
      have hml1 := Option.some.inj hput
      subst hml1
      exact ⟨_, rest, { Name := name, Unit := some unit, StorageResolution := some resolution },
        rfl, by simp, rfl⟩

/-- C10 at the minimal valid log and its document, whose one metric object has
the keys Name and Unit. -/
theorem metric_object_keys_witness :
    MarshalJSON minimalLog = some (some minimalDocument, none) ∧
    metricObjects minimalDocument =
      [Json.obj [("Name", Json.str "Count"), ("Unit", Json.str "Count")]] ∧
    ((∀ o ∈ metricObjects minimalDocument,
      ∃ directive ∈ minimalLog.emf.Aws.CloudWatchMetrics,
      ∃ metric ∈ directive.Metrics, o = encodeMetricsElem metric ∧
        "Name" ∈ o.keys ∧ o.get "Name" = some (Json.str metric.Name) ∧
        ("Unit" ∈ o.keys ↔ metric.Unit ≠ none) ∧
        ("StorageResolution" ∈ o.keys ↔ metric.StorageResolution ≠ none)) ∧
    ("_aws" ∉ minimalLog.metrics → metricObjects minimalDocument =
      minimalLog.emf.Aws.CloudWatchMetrics.flatMap
        (fun d => d.Metrics.map encodeMetricsElem)) ∧
    (∀ (name : String) (value : Value) (unit : String) (ml1 : MetricLog),
      PutMetric minimalLog name value unit = some ml1 →
      ∃ directive rest metric, ml1.emf.Aws.CloudWatchMetrics = directive :: rest ∧
        directive.Metrics.getLast? = some metric ∧
        encodeMetricsElem metric =
          Json.obj [("Name", Json.str name), ("Unit", Json.str unit)]) ∧
    (∀ (name : String) (value : Value) (unit : String) (resolution : Int) (ml1 : MetricLog),
      PutMetricWithResolution minimalLog name value unit resolution = some ml1 →
      ∃ directive rest metric, ml1.emf.Aws.CloudWatchMetrics = directive :: rest ∧
        directive.Metrics.getLast? = some metric ∧
        encodeMetricsElem metric =
          Json.obj [("Name", Json.str name), ("StorageResolution", Json.int resolution),
            ("Unit", Json.str unit)])) :=
  ⟨rfl, rfl, metric_object_keys minimalLog minimalDocument rfl⟩

/-! ## Writes to the flat value map and the builder -/

theorem updateDirective_metrics (ml ml1 : MetricLog)
    (f : EmfFormatJsonAwsCloudWatchMetricsElem → EmfFormatJsonAwsCloudWatchMetricsElem)
    (h : updateDirective ml f = some ml1) : ml1.metrics = ml.metrics := by
  unfold updateDirective at h
  cases hc : ml.emf.Aws.CloudWatchMetrics with
  | nil => rw [hc] at h; exact Option.noConfusion h
  | cons directive rest =>
    rw [hc] at h
    rw [← Option.some.inj h]

/-- After a call that succeeds, the flat value map is the old one with the
written pair inserted, or the old one when the call writes nothing. -/
theorem apply_metrics (ml ml1 : MetricLog) (op : Op) (h : op.apply ml = some ml1) :
    ml1.metrics =
      match op.written with
      | some kv => ml.metrics.insert kv.1 kv.2
      | none => ml.metrics := by
  cases op with
  | putDimension key value => rw [← Option.some.inj h]; rfl
  | withDimensionSet dimensions => exact updateDirective_metrics _ _ _ h
  | putMetric name value unit => exact updateDirective_metrics _ _ _ h
  | putMetricWithResolution name value unit resolution =>
    exact updateDirective_metrics _ _ _ h
  | dimension key value => rw [← Option.some.inj h]; rfl
  | dimensionSet dimensions =>
    rw [apply_dimensionSet] at h
    exact updateDirective_metrics _ _ _ h
  | metric name value unit =>
    rw [apply_metric] at h
    exact updateDirective_metrics _ _ _ h
  | metricWithResolution name value unit resolution =>
    rw [apply_metricWithResolution] at h
    exact updateDirective_metrics _ _ _ h
  | property key value => rw [← Option.some.inj h]; rfl

theorem applyOps_append (ml : MetricLog) (xs ys : List Op) :
    applyOps ml (xs ++ ys) = (applyOps ml xs).bind (fun ml1 => applyOps ml1 ys) := by
  induction xs generalizing ml with
  | nil => rfl
  | cons op rest ih =>
    simp only [List.cons_append, applyOps]
    cases op.apply ml with
    | none => rfl
    | some ml1 => simp [ih]

theorem apply_direct (ml : MetricLog) (op : Op) : op.direct.apply ml = op.apply ml := by
  cases op with
  | dimensionSet dimensions => exact (apply_dimensionSet ml dimensions).symm
  | metric name value unit => exact (apply_metric ml name value unit).symm
  | metricWithResolution name value unit resolution =>
    exact (apply_metricWithResolution ml name value unit resolution).symm
  | _ => rfl

/-- C19: each builder method leaves the log exactly as the method of the log
it forwards to, at once; the builder it returns is the builder of that (now
updated) log; Build returns the log the builder was made from; so a chain of
builder calls gives the same log as the chain of direct calls. -/
theorem builder_is_facade (ml : MetricLog) :
    (∀ k v, ((Builder ml).Dimension k v).Build = PutDimension ml k v ∧
      (Builder ml).Dimension k v = Builder (PutDimension ml k v)) ∧
    (∀ d, ((Builder ml).DimensionSet d).map MetricLogBuilder.Build = WithDimensionSet ml d ∧
      (Builder ml).DimensionSet d = (WithDimensionSet ml d).map Builder) ∧
    (∀ n v u, ((Builder ml).Metric n v u).map MetricLogBuilder.Build = PutMetric ml n v u ∧
      (Builder ml).Metric n v u = (PutMetric ml n v u).map Builder) ∧
    (∀ n v u r,
      ((Builder ml).MetricWithResolution n v u r).map MetricLogBuilder.Build
        = PutMetricWithResolution ml n v u r ∧
      (Builder ml).MetricWithResolution n v u r
        = (PutMetricWithResolution ml n v u r).map Builder) ∧
    (Builder ml).Build = ml ∧
    (∀ ops : List Op, applyOps ml (ops.map Op.direct) = applyOps ml ops) := by
  refine ⟨fun k v => ⟨rfl, rfl⟩, fun d => ⟨?_, rfl⟩, fun n v u => ⟨?_, rfl⟩,
    fun n v u r => ⟨?_, rfl⟩, rfl, ?_⟩
  · exact apply_dimensionSet ml d
  · exact apply_metric ml n v u
  · exact apply_metricWithResolution ml n v u r
  · intro ops
    induction ops generalizing ml with
    | nil => rfl
    | cons op rest ih =>
      simp only [List.map_cons, applyOps, apply_direct]
      cases op.apply ml with
      | none => rfl
      | some ml1 => exact ih ml1

/-- C20: Builder.Property(k, v) and PutDimension(k, v) store v under k and
leave the structural side (namespace, timestamp, dimension sets, metric
definitions) and the value under every other key unchanged; WithDimensionSet
leaves the flat value map and the metric definitions unchanged. -/
theorem property_and_dimension_frame (ml : MetricLog) (k : String) :
    (∀ v : Value,
      ((Builder ml).Property k v).Build.metrics.lookup k = some v ∧
      ((Builder ml).Property k v).Build.emf = ml.emf ∧
      ∀ k1, k1 ≠ k →
        ((Builder ml).Property k v).Build.metrics.lookup k1 = ml.metrics.lookup k1) ∧
    (∀ v : String,
      (PutDimension ml k v).metrics.lookup k = some (Value.str v) ∧
      (PutDimension ml k v).emf = ml.emf ∧
      ∀ k1, k1 ≠ k → (PutDimension ml k v).metrics.lookup k1 = ml.metrics.lookup k1) ∧
    (∀ (dimensions : List String) (directive : EmfFormatJsonAwsCloudWatchMetricsElem)
      (rest : List EmfFormatJsonAwsCloudWatchMetricsElem),
      ml.emf.Aws.CloudWatchMetrics = directive :: rest →
      ∃ ml1 directive1, WithDimensionSet ml dimensions = some ml1 ∧
        ml1.metrics = ml.metrics ∧
        ml1.emf.Aws.CloudWatchMetrics = directive1 :: rest ∧
        directive1.Metrics = directive.Metrics ∧
        directive1.Namespace = directive.Namespace ∧
        directive1.Dimensions = directive.Dimensions ++ [dimensions] ∧
        ml1.emf.Aws.Timestamp = ml.emf.Aws.Timestamp) := by
  refine ⟨fun v => ⟨AList.lookup_insert _, rfl, fun k1 hk => AList.lookup_insert_ne hk⟩,
    fun v => ⟨AList.lookup_insert _, rfl, fun k1 hk => AList.lookup_insert_ne hk⟩, ?_⟩
  intro dimensions directive rest h
  exact ⟨_, _, withDimensionSet_eq ml dimensions directive rest h, rfl, rfl, rfl, rfl, rfl, rfl⟩

/-- C11: when a call writes a under k and a later call writes b under k, the
flat value map holds b under k, whatever the kinds of the two calls and whatever
calls come between them; when the log is then valid (and its flat values can be
encoded) the document has the top-level member k with value b. -/
theorem last_write_wins (ml : MetricLog) (directive : EmfFormatJsonAwsCloudWatchMetricsElem)
    (op1 op2 : Op) (between : List Op) (k : String) (a b : Value)
    (h : ml.emf.Aws.CloudWatchMetrics = [directive])
    (h1 : op1.written = some (k, a)) (h2 : op2.written = some (k, b)) :
    (∃ ml1, op1.apply ml = some ml1 ∧ ml1.metrics.lookup k = some a) ∧
    ∃ ml2, applyOps ml (op1 :: between ++ [op2]) = some ml2 ∧
      ml2.metrics.lookup k = some b ∧
      (Validate ml2 = some none → Encodable ml2.metrics →
        ∃ doc, MarshalJSON ml2 = some (some doc, none) ∧ k ∈ doc.keys ∧
          doc.get k = b.encode ∧ b.encode ≠ none) := by
  refine ⟨?_, ?_⟩
  · obtain ⟨ml0, hml0, _, _⟩ := apply_directive ml op1 directive h
    have hmet0 := apply_metrics ml ml0 op1 hml0
    rw [h1] at hmet0
    exact ⟨ml0, hml0, by rw [hmet0]; exact AList.lookup_insert _⟩
  obtain ⟨ml1, hml1, hd1, _⟩ := applyOps_directive (op1 :: between) ml directive h
  obtain ⟨ml2, hml2, _, _⟩ := apply_directive ml1 op2 _ hd1
  have hmet := apply_metrics ml1 ml2 op2 hml2
  rw [h2] at hmet
  have hlook : ml2.metrics.lookup k = some b := by
    rw [hmet]
    exact AList.lookup_insert _
  refine ⟨ml2, ?_, hlook, ?_⟩
  · rw [applyOps_append ml (op1 :: between) [op2], hml1]
    simp [applyOps, hml2]
  · intro hv henc
    obtain ⟨doc, hdoc, _, hkeys, hget⟩ :=
      jsonMarshal_ok (combinedMap ml2) (combinedMap_encodable ml2 henc)
    refine ⟨doc, by rw [marshalJSON_of_valid ml2 hv, hdoc], ?_, ?_, ?_⟩
    · rw [hkeys k, combinedMap_mem]
      exact Or.inr (AList.lookup_isSome.1 (by rw [hlook]; rfl))
    · rw [hget k, combinedMap_lookup, hlook]
      rfl
    · have hne : b ≠ Value.unsupported := henc ⟨k, b⟩ (AList.mem_lookup_iff.1 hlook)
      cases b <;> simp [Value.encode] at hne ⊢

/-- C11 for PutDimension("K","a") then PutDimension("K","b") on the log that
names the dimension "K": the document has "K": "b". -/
theorem last_write_wins_witness :
    overwriteLog.emf.Aws.CloudWatchMetrics = [overwriteDirective] ∧
    (Op.putDimension "K" "a").written = some ("K", Value.str "a") ∧
    (Op.putDimension "K" "b").written = some ("K", Value.str "b") ∧
    (applyOps overwriteLog [Op.putDimension "K" "a", Op.putDimension "K" "b"]).bind MarshalJSON
      = some (some (Json.obj
        [("Count", Json.int 1),
         ("K", Json.str "b"),
         ("_aws", encodeAws overwriteLog.emf.Aws)]), none) ∧
    (∃ ml1, (Op.putDimension "K" "a").apply overwriteLog = some ml1 ∧
      ml1.metrics.lookup "K" = some (Value.str "a")) ∧
    ∃ ml2, applyOps overwriteLog (Op.putDimension "K" "a" :: [] ++ [Op.putDimension "K" "b"])
        = some ml2 ∧
      ml2.metrics.lookup "K" = some (Value.str "b") ∧
      (Validate ml2 = some none → Encodable ml2.metrics →
        ∃ doc, MarshalJSON ml2 = some (some doc, none) ∧ "K" ∈ doc.keys ∧
          doc.get "K" = (Value.str "b").encode ∧ (Value.str "b").encode ≠ none) :=
  ⟨rfl, rfl, rfl, rfl,
    last_write_wins overwriteLog overwriteDirective (Op.putDimension "K" "a")
      (Op.putDimension "K" "b") [] "K" (Value.str "a") (Value.str "b") rfl rfl rfl⟩

/-! ## Units, storage resolutions and dimension sets -/

theorem patternAlternatives_unitRegexPattern :
    patternAlternatives unitRegexPattern = unitAlternatives := by decide

theorem validateMetrics_append (metrics : ValueMap)
    (xs ys : List EmfFormatJsonAwsCloudWatchMetricsElemMetricsElem) :
    validateMetrics metrics (xs ++ ys) =
      match validateMetrics metrics xs with
      | some err => some err
      | none => validateMetrics metrics ys := by
  induction xs with
  | nil => cases h : validateMetrics metrics ys <;> simp [validateMetrics, h]
  | cons x rest ih =>
    simp only [List.cons_append, validateMetrics]
    cases validateMetric metrics x with
    | some err => rfl
    | none => exact ih

/-- When a directive passes every check with the metric `m0` at some position,
the directive with `m` at that position gets exactly the verdict of `m`. -/
theorem validateDirective_focus (metrics : ValueMap) (dims : List (List String)) (ns : String)
    (pre post : List EmfFormatJsonAwsCloudWatchMetricsElemMetricsElem)
    (m m0 : EmfFormatJsonAwsCloudWatchMetricsElemMetricsElem)
    (hother : validateDirective metrics
      { Dimensions := dims, Metrics := pre ++ m0 :: post, Namespace := ns } = none) :
    validateDirective metrics { Dimensions := dims, Metrics := pre ++ m :: post, Namespace := ns }
      = validateMetric metrics m := by
  obtain ⟨hns, _, hdl, hne, hmets, hdims⟩ := (validateDirective_eq_none_iff _ _).1 hother
  dsimp only at hns hdl hne hmets hdims
  have hpre : validateMetrics metrics pre = none :=
    (validateMetrics_eq_none_iff _ _).2 (fun x hx => hmets x (by simp [hx]))
  have hpost : validateMetrics metrics post = none :=
    (validateMetrics_eq_none_iff _ _).2 (fun x hx => hmets x (by simp [hx]))
  have hempty : checkNoEmptySet 0 dims = none := (checkNoEmptySet_eq_none_iff 0 _).2 hne
  have hdim : validateDimensionSets metrics 0 dims = none :=
    (validateDimensionSets_eq_none_iff _ 0 _).2 hdims
  have h1 : ¬ len ns < 1 := by omega
  have h2 : ¬ len ns > 1024 := by omega
  have h3 : ¬ (pre ++ m :: post).length = 0 := by simp
  have h4 : ¬ dims.length < 1 := by omega
  unfold validateDirective
  simp only [MinNamespaceLength, MaxNamespaceLength, MinDimensions, h1, h2, h3, h4, if_false,
    hempty, validateMetrics_append, hpre, validateMetrics, hpost, hdim]
  cases validateMetric metrics m <;> rfl

/-- C13: in a log with one directive that passes every check once the unit of
one metric definition is taken away, that definition with the unit u passes
Validate exactly when u is one of the 27 unit constants, and otherwise Validate
returns the invalid-unit error with u and the metric name; the 27 constants are
pairwise distinct, are all accepted and are exactly the alternatives of the
pattern of unitRegex; strings that differ in case or carry extra characters are
rejected. -/
theorem unit_accepted_iff (ml : MetricLog) (directive : EmfFormatJsonAwsCloudWatchMetricsElem)
    (pre post : List EmfFormatJsonAwsCloudWatchMetricsElemMetricsElem)
    (name u : String) (res : Option Int)
    (h : ml.emf.Aws.CloudWatchMetrics = [directive])
    (hm : directive.Metrics =
      pre ++ { Name := name, Unit := some u, StorageResolution := res } :: post)
    (hother : validateDirective ml.metrics
      { directive with
        Metrics := pre ++ { Name := name, Unit := none, StorageResolution := res } :: post }
      = none) :
    (Validate ml = some none ↔ u ∈ Units) ∧
    (u ∉ Units → Validate ml = some (some (Error.invalidUnit u name))) ∧
    (∀ c ∈ Units, unitRegexMatchString c = true) ∧
    Units.length = 27 ∧ Units.Nodup ∧ patternAlternatives unitRegexPattern = Units ∧
    unitRegexMatchString "InvalidUnit" = false ∧ unitRegexMatchString "count" = false ∧
    unitRegexMatchString "Count " = false ∧ unitRegexMatchString " Count" = false ∧
    unitRegexMatchString "Count\n" = false ∧ unitRegexMatchString "" = false := by
  have hv : Validate ml = some (validateMetric ml.metrics
      { Name := name, Unit := some u, StorageResolution := res }) := by
    unfold Validate
    rw [h]
    have hd : directive = { Dimensions := directive.Dimensions
                            Metrics := pre ++ { Name := name, Unit := some u,
                                                StorageResolution := res } :: post
                            Namespace := directive.Namespace } := by
      rw [← hm]
    rw [hd]
    exact congrArg some (validateDirective_focus ml.metrics _ _ pre post _ _ hother)
  have hbase : validateMetric ml.metrics
      { Name := name, Unit := none, StorageResolution := res } = none := by
    have hall := ((validateDirective_eq_none_iff _ _).1 hother).2.2.2.2.1
    exact hall _ (by simp)
  obtain ⟨hname, _, hres⟩ := (validateMetric_eq_none_iff _ _).1 hbase
  have hiff : validateMetric ml.metrics
      { Name := name, Unit := some u, StorageResolution := res } = none ↔ u ∈ Units := by
    rw [validateMetric_eq_none_iff]
    constructor
    · intro hh
      exact hh.2.1 u rfl
    · intro hu
      exact ⟨hname, fun unit hunit => by rw [← Option.some.inj hunit]; exact hu, hres⟩
  refine ⟨?_, ?_, ?_, rfl, by decide, patternAlternatives_unitRegexPattern, by decide,
    by decide, by decide, by decide, by decide, by decide⟩
  · rw [hv]
    simp only [Option.some.injEq]
    exact hiff
  · intro hu
    rw [hv]
    have hmatch : unitRegexMatchString u = false := by
      cases hb : unitRegexMatchString u with
      | false => rfl
      | true => exact absurd ((unitRegexMatchString_iff u).1 hb) hu
    have h1 : ¬ len name < 1 := by
      have := hname.1
      dsimp only at this
      omega
    have h2 : ¬ len name > 1024 := by
      have := hname.2.1
      dsimp only at this
      omega
    have h3 : (ml.metrics.lookup name).isNone = false := by
      cases hb : (ml.metrics.lookup name).isNone with
      | false => rfl
      | true => exact absurd hname.2.2 ((lookup_isNone_iff _ _).1 hb)
    simp [validateMetric, MinMetricNameLength, MaxMetricNameLength, h1, h2, h3, hmatch]
  · intro c hc
    exact (unitRegexMatchString_iff c).2 hc

/-- C13 at the minimal valid log with the unit "InvalidUnit": Validate returns
the invalid-unit error naming "InvalidUnit" and "Count". -/
theorem unit_accepted_iff_witness :
    Validate invalidUnitLog = some (some (Error.invalidUnit "InvalidUnit" "Count")) ∧
    (Error.invalidUnit "InvalidUnit" "Count").message
      = "invalid unit 'InvalidUnit' for metric 'Count'" ∧
    ((Validate invalidUnitLog = some none ↔ "InvalidUnit" ∈ Units) ∧
    ("InvalidUnit" ∉ Units →
      Validate invalidUnitLog = some (some (Error.invalidUnit "InvalidUnit" "Count"))) ∧
    (∀ c ∈ Units, unitRegexMatchString c = true) ∧
    Units.length = 27 ∧ Units.Nodup ∧ patternAlternatives unitRegexPattern = Units ∧
    unitRegexMatchString "InvalidUnit" = false ∧ unitRegexMatchString "count" = false ∧
    unitRegexMatchString "Count " = false ∧ unitRegexMatchString " Count" = false ∧
    unitRegexMatchString "Count\n" = false ∧ unitRegexMatchString "" = false) :=
  ⟨by decide, by decide,
    unit_accepted_iff invalidUnitLog _ [] [] "Count" "InvalidUnit" none rfl rfl (by decide)⟩

/-- C14: when the log with the metric added by PutMetric (no storage
resolution) passes Validate, the log with the metric added by
PutMetricWithResolution with resolution r passes Validate exactly when r is 1
or 60, and for every other r Validate returns the invalid-storage-resolution
error naming the metric. -/
theorem resolution_accepted_iff (ml : MetricLog)
    (directive : EmfFormatJsonAwsCloudWatchMetricsElem)
    (name : String) (value : Value) (unit : String) (r : Int)
    (h : ml.emf.Aws.CloudWatchMetrics = [directive])
    (hother : (PutMetric ml name value unit).bind Validate = some none) :
    ∃ ml1, PutMetricWithResolution ml name value unit r = some ml1 ∧
      (Validate ml1 = some none ↔ r = 1 ∨ r = 60) ∧
      (¬ (r = 1 ∨ r = 60) →
        Validate ml1 = some (some (Error.invalidStorageResolution name))) := by
  rw [putMetric_eq ml name value unit directive [] h] at hother
  have hother1 : validateDirective (ml.metrics.insert name value)
      { Dimensions := directive.Dimensions
        Metrics := directive.Metrics ++
          { Name := name, Unit := some unit, StorageResolution := none } :: []
        Namespace := directive.Namespace } = none := by
    simpa [Validate] using hother
  have hfocus := validateDirective_focus (ml.metrics.insert name value) directive.Dimensions
    directive.Namespace directive.Metrics []
    { Name := name, Unit := some unit, StorageResolution := some r } _ hother1
  have hbase : validateMetric (ml.metrics.insert name value)
      { Name := name, Unit := some unit, StorageResolution := none } = none :=
    ((validateDirective_eq_none_iff _ _).1 hother1).2.2.2.2.1 _ (by simp)
  obtain ⟨hname, hunit, _⟩ := (validateMetric_eq_none_iff _ _).1 hbase
  refine ⟨_, putMetricWithResolution_eq ml name value unit r directive [] h, ?_, ?_⟩
  · show some (validateDirective _ _) = some none ↔ _
    rw [hfocus]
    simp only [Option.some.injEq]
    rw [validateMetric_eq_none_iff]
    constructor
    · intro hh
      exact hh.2.2 r rfl
    · intro hr
      exact ⟨hname, hunit, fun r1 hr1 => by rw [← Option.some.inj hr1]; exact hr⟩
  · intro hr
    show some (validateDirective _ _) = some _
    rw [hfocus]
    have h1 : ¬ len name < 1 := by
      have := hname.1
      dsimp only at this
      omega
    have h2 : ¬ len name > 1024 := by
      have := hname.2.1
      dsimp only at this
      omega
    have h3 : ((ml.metrics.insert name value).lookup name).isNone = false := by
      rw [AList.lookup_insert]
      rfl
    have hmatch : unitRegexMatchString unit = true :=
      (unitRegexMatchString_iff unit).2 (hunit unit rfl)
    have hr60 : r ≠ 60 := fun h60 => hr (Or.inr h60)
    have hr1 : r ≠ 1 := fun h1 => hr (Or.inl h1)
    simp [validateMetric, MinMetricNameLength, MaxMetricNameLength, StorageResolutionStandard,
      StorageResolutionHigh, h1, h2, h3, hmatch, hr60, hr1]

/-- C14 at the log with one dimension set and no metric, for
PutMetricWithResolution("M", 1.0, "Count", 30): Validate returns the
invalid-storage-resolution error naming "M"; with 0 and -1 as well, and with 1
and 60 Validate succeeds. -/
theorem resolution_accepted_iff_witness :
    noMetricLog.emf.Aws.CloudWatchMetrics = [noMetricDirective] ∧
    (PutMetric noMetricLog "M" (Value.float 1 0) "Count").bind Validate = some none ∧
    (PutMetricWithResolution noMetricLog "M" (Value.float 1 0) "Count" 30).bind Validate
      = some (some (Error.invalidStorageResolution "M")) ∧
    (PutMetricWithResolution noMetricLog "M" (Value.float 1 0) "Count" 0).bind Validate
      = some (some (Error.invalidStorageResolution "M")) ∧
    (PutMetricWithResolution noMetricLog "M" (Value.float 1 0) "Count" (-1)).bind Validate
      = some (some (Error.invalidStorageResolution "M")) ∧
    (PutMetricWithResolution noMetricLog "M" (Value.float 1 0) "Count" 1).bind Validate
      = some none ∧
    (PutMetricWithResolution noMetricLog "M" (Value.float 1 0) "Count" 60).bind Validate
      = some none ∧
    (Error.invalidStorageResolution "M").message
      = "invalid storage resolution for metric 'M'. Must be either 60 (standard) or 1 (high resolution)" ∧
    ∃ ml1, PutMetricWithResolution noMetricLog "M" (Value.float 1 0) "Count" 30 = some ml1 ∧
      (Validate ml1 = some none ↔ (30 : Int) = 1 ∨ (30 : Int) = 60) ∧
      (¬ ((30 : Int) = 1 ∨ (30 : Int) = 60) →
        Validate ml1 = some (some (Error.invalidStorageResolution "M"))) :=
  ⟨rfl, by decide, by decide, by decide, by decide, by decide, by decide, by decide,
    resolution_accepted_iff noMetricLog noMetricDirective "M" (Value.float 1 0) "Count" 30 rfl
      (by decide)⟩

/-- C15: for a log with one directive, a valid namespace, at least one metric
definition, every metric definition valid, and a single dimension set whose
names are at most 250 long and have values, Validate succeeds exactly when the
set has between 1 and 30 names; with more than 30 (so with 31) it returns the
dimension-set-too-large error for set 0, whose text names the maximum 30; with
none, the empty-dimension-set error for set 0. -/
theorem single_set_size_bound (ml : MetricLog)
    (directive : EmfFormatJsonAwsCloudWatchMetricsElem) (dimSet : List String)
    (h : ml.emf.Aws.CloudWatchMetrics = [directive])
    (hset : directive.Dimensions = [dimSet])
    (hns : 1 ≤ len directive.Namespace ∧ len directive.Namespace ≤ 1024)
    (hcount : 1 ≤ directive.Metrics.length)
    (hmets : ∀ metric ∈ directive.Metrics, validateMetric ml.metrics metric = none)
    (hnames : ∀ dim ∈ dimSet, len dim ≤ 250 ∧ dim ∈ ml.metrics) :
    (Validate ml = some none ↔ 1 ≤ dimSet.length ∧ dimSet.length ≤ 30) ∧
    (30 < dimSet.length → Validate ml = some (some (Error.dimensionSetTooLarge 0))) ∧
    (dimSet.length = 0 → Validate ml = some (some (Error.emptyDimensionSet 0))) ∧
    (Error.dimensionSetTooLarge 0).message = "dimension set 0 exceeds maximum size of 30" := by
  have hv : Validate ml = some (validateDirective ml.metrics directive) := by
    unfold Validate
    rw [h]
  have h1 : ¬ len directive.Namespace < 1 := by omega
  have h2 : ¬ len directive.Namespace > 1024 := by omega
  have h3 : ¬ directive.Metrics.length = 0 := by omega
  have hms : validateMetrics ml.metrics directive.Metrics = none :=
    (validateMetrics_eq_none_iff _ _).2 hmets
  refine ⟨?_, ?_, ?_, by decide⟩
  · rw [hv]
    simp only [Option.some.injEq]
    rw [validateDirective_eq_none_iff, hset]
    constructor
    · rintro ⟨_, _, _, hne, _, hsz⟩
      have hne1 : dimSet ≠ [] := hne dimSet (List.mem_singleton.2 rfl)
      have hlen : 0 < dimSet.length := List.length_pos.2 hne1
      exact ⟨hlen, (hsz dimSet (List.mem_singleton.2 rfl)).1⟩
    · rintro ⟨hlo, hhi⟩
      refine ⟨hns, hcount, by simp, ?_, hmets, ?_⟩
      · intro s hs
        rw [List.mem_singleton.1 hs]
        exact List.length_pos.1 hlo
      · intro s hs
        rw [List.mem_singleton.1 hs]
        exact ⟨hhi, hnames⟩
  · intro hbig
    rw [hv]
    have hne : dimSet ≠ [] := List.length_pos.1 (by omega)
    have hlen0 : ¬ dimSet.length = 0 := by omega
    simp [validateDirective, MinNamespaceLength, MaxNamespaceLength, MinDimensions, h1, h2, h3,
      hset, checkNoEmptySet, hlen0, hms, validateDimensionSets, MaxDimensionSetSize, hbig]
  · intro hzero
    rw [hv]
    simp [validateDirective, MinNamespaceLength, MaxNamespaceLength, MinDimensions, h1, h2, h3,
      hset, checkNoEmptySet, hzero]

/-- C15 at the log of the test with 31 dimensions: it fails with the
dimension-set-too-large error for set 0, and the log with 30 dimensions
passes. -/
theorem single_set_size_bound_witness :
    (dimensionNames 30).length = 30 ∧ Validate (boundaryLog 30) = some none ∧
    (dimensionNames 31).length = 31 ∧
    Validate (boundaryLog 31) = some (some (Error.dimensionSetTooLarge 0)) ∧
    ((Validate (boundaryLog 31) = some none ↔
      1 ≤ (dimensionNames 31).length ∧ (dimensionNames 31).length ≤ 30) ∧
    (30 < (dimensionNames 31).length →
      Validate (boundaryLog 31) = some (some (Error.dimensionSetTooLarge 0))) ∧
    ((dimensionNames 31).length = 0 →
      Validate (boundaryLog 31) = some (some (Error.emptyDimensionSet 0))) ∧
    (Error.dimensionSetTooLarge 0).message = "dimension set 0 exceeds maximum size of 30") :=
  ⟨by decide, by decide, by decide, by decide,
    single_set_size_bound (boundaryLog 31) (boundaryDirective 31) (dimensionNames 31) rfl rfl
      (by decide) (by decide) (by decide) (by decide)⟩

theorem validateDimensionNames_eq_find (metrics : ValueMap) (dimSet : List String)
    (hlen : ∀ dim ∈ dimSet, len dim ≤ 250) :
    validateDimensionNames metrics dimSet =
      (dimSet.find? (fun dim => decide (dim ∉ metrics))).map Error.dimensionValueMissing := by
  induction dimSet with
  | nil => rfl
  | cons d rest ih =>
    have h1 : ¬ len d > 250 := by
      have := hlen d (List.mem_cons_self _ _)
      omega
    have ih1 := ih (fun dim hd => hlen dim (List.mem_cons_of_mem _ hd))
    unfold validateDimensionNames
    simp only [MaxDimensionNameLength, h1, if_false]
    by_cases h2 : (metrics.lookup d).isNone = true
    · have h2k : d ∉ metrics := (lookup_isNone_iff metrics d).1 h2
      simp [h2, h2k]
    · have h2k : d ∈ metrics := by
        by_contra hn
        exact h2 ((lookup_isNone_iff metrics d).2 hn)
      simp [h2, h2k, ih1]

theorem validateDimensionSets_eq_find (metrics : ValueMap) (i : Nat)
    (sets : List (List String))
    (hsz : ∀ dimSet ∈ sets, dimSet.length ≤ 30)
    (hlen : ∀ dimSet ∈ sets, ∀ dim ∈ dimSet, len dim ≤ 250) :
    validateDimensionSets metrics i sets =
      (sets.flatten.find? (fun dim => decide (dim ∉ metrics))).map
        Error.dimensionValueMissing := by
  induction sets generalizing i with
  | nil => rfl
  | cons s rest ih =>
    have h1 : ¬ s.length > 30 := by
      have := hsz s (List.mem_cons_self _ _)
      omega
    have ih1 := ih (i + 1) (fun t ht => hsz t (List.mem_cons_of_mem _ ht))
      (fun t ht => hlen t (List.mem_cons_of_mem _ ht))
    unfold validateDimensionSets
    simp only [MaxDimensionSetSize, h1, if_false, List.flatten_cons, List.find?_append]
    rw [validateDimensionNames_eq_find metrics s (hlen s (List.mem_cons_self _ _)), ih1]
    cases s.find? (fun dim => decide (dim ∉ metrics)) <;> rfl

/-- C16: for a log with a valid namespace, at least one metric definition,
every metric definition valid, no empty dimension set, no set larger than 30 and
no dimension name longer than 250, if some dimension name of some set is not a
key of the flat value map, Validate returns the error whose text is "dimension
'd' is referenced but no value is provided", d being the first such name in set
order and then entry order. -/
theorem first_missing_dimension_value (ml : MetricLog)
    (directive : EmfFormatJsonAwsCloudWatchMetricsElem)
    (h : ml.emf.Aws.CloudWatchMetrics = [directive])
    (hns : 1 ≤ len directive.Namespace ∧ len directive.Namespace ≤ 1024)
    (hcount : 1 ≤ directive.Metrics.length)
    (hmets : ∀ metric ∈ directive.Metrics, validateMetric ml.metrics metric = none)
    (hne : ∀ dimSet ∈ directive.Dimensions, dimSet ≠ [])
    (hsz : ∀ dimSet ∈ directive.Dimensions, dimSet.length ≤ 30)
    (hlen : ∀ dimSet ∈ directive.Dimensions, ∀ dim ∈ dimSet, len dim ≤ 250)
    (hmiss : ∃ dimSet ∈ directive.Dimensions, ∃ dim ∈ dimSet, dim ∉ ml.metrics) :
    ∃ d, directive.Dimensions.flatten.find? (fun dim => decide (dim ∉ ml.metrics)) = some d ∧
      Validate ml = some (some (Error.dimensionValueMissing d)) ∧
      (Error.dimensionValueMissing d).message
        = "dimension '" ++ d ++ "' is referenced but no value is provided" := by
  obtain ⟨s, hs, dim, hdim, hno⟩ := hmiss
  have hsome : (directive.Dimensions.flatten.find?
      (fun dim => decide (dim ∉ ml.metrics))).isSome = true := by
    rw [List.find?_isSome]
    exact ⟨dim, List.mem_flatten.2 ⟨s, hs, hdim⟩, by simpa using hno⟩
  obtain ⟨d, hd⟩ := Option.isSome_iff_exists.1 hsome
  refine ⟨d, hd, ?_, rfl⟩
  have h1 : ¬ len directive.Namespace < 1 := by omega
  have h2 : ¬ len directive.Namespace > 1024 := by omega
  have h3 : ¬ directive.Metrics.length = 0 := by omega
  have h4 : ¬ directive.Dimensions.length < 1 := by
    have : 0 < directive.Dimensions.length := List.length_pos_of_mem hs
    omega
  have hms : validateMetrics ml.metrics directive.Metrics = none :=
    (validateMetrics_eq_none_iff _ _).2 hmets
  have hempty : checkNoEmptySet 0 directive.Dimensions = none :=
    (checkNoEmptySet_eq_none_iff 0 _).2 hne
  unfold Validate
  rw [h]
  simp only [validateDirective, MinNamespaceLength, MaxNamespaceLength, MinDimensions, h1, h2,
    h3, h4, if_false, hempty, hms, validateDimensionSets_eq_find ml.metrics 0 _ hsz hlen, hd,
    Option.map_some']

/-- C16 at the log with namespace "N", the set ["Service"], no value for
"Service" and the metric "M" = 1 with unit Count: d is "Service". -/
theorem first_missing_dimension_value_witness :
    Validate missingValueLog = some (some (Error.dimensionValueMissing "Service")) ∧
    (Error.dimensionValueMissing "Service").message
      = "dimension 'Service' is referenced but no value is provided" ∧
    ∃ d, missingValueDirective.Dimensions.flatten.find?
        (fun dim => decide (dim ∉ missingValueLog.metrics)) = some d ∧
      Validate missingValueLog = some (some (Error.dimensionValueMissing d)) ∧
      (Error.dimensionValueMissing d).message
        = "dimension '" ++ d ++ "' is referenced but no value is provided" :=
  ⟨by decide, by decide,
    first_missing_dimension_value missingValueLog missingValueDirective rfl (by decide)
      (by decide) (by decide) (by decide) (by decide) (by decide)
      ⟨["Service"], by decide, "Service", by decide, by decide⟩⟩

theorem checkNoEmptySet_first (i : Nat) (pre post : List (List String))
    (hpre : ∀ dimSet ∈ pre, dimSet ≠ []) :
    checkNoEmptySet i (pre ++ [] :: post) = some (Error.emptyDimensionSet (i + pre.length)) := by
  induction pre generalizing i with
  | nil => simp [checkNoEmptySet]
  | cons s rest ih =>
    have hs : s ≠ [] := hpre s (List.mem_cons_self _ _)
    have hlen : ¬ s.length = 0 := fun hz => hs (List.length_eq_zero.1 hz)
    simp only [List.cons_append, checkNoEmptySet, hlen, if_false, List.length_cons]
    have hih := ih (i + 1) (fun t ht => hpre t (List.mem_cons_of_mem _ ht))
    show checkNoEmptySet (i + 1) (rest ++ [] :: post) = _
    rw [hih]
    congr 2
    omega

/-- C17: for a log with a valid namespace and at least one metric definition,
if the dimension set at position i is empty and every set before it is not,
Validate returns the empty-dimension-set error for i, with the text "dimension
set i is empty, must contain at least one dimension", whatever the other sets
and the metric definitions contain. -/
theorem first_empty_dimension_set (ml : MetricLog)
    (directive : EmfFormatJsonAwsCloudWatchMetricsElem)
    (rest : List EmfFormatJsonAwsCloudWatchMetricsElem)
    (before after : List (List String))
    (h : ml.emf.Aws.CloudWatchMetrics = directive :: rest)
    (hns : 1 ≤ len directive.Namespace ∧ len directive.Namespace ≤ 1024)
    (hcount : 1 ≤ directive.Metrics.length)
    (hdims : directive.Dimensions = before ++ [] :: after)
    (hbefore : ∀ dimSet ∈ before, dimSet ≠ []) :
    Validate ml = some (some (Error.emptyDimensionSet before.length)) ∧
    (Error.emptyDimensionSet before.length).message
      = "dimension set " ++ toString before.length
        ++ " is empty, must contain at least one dimension" := by
  refine ⟨?_, rfl⟩
  have h1 : ¬ len directive.Namespace < 1 := by omega
  have h2 : ¬ len directive.Namespace > 1024 := by omega
  have h3 : ¬ directive.Metrics.length = 0 := by omega
  have h4 : ¬ directive.Dimensions.length < 1 := by
    rw [hdims]
    simp
  have hfirst := checkNoEmptySet_first 0 before after hbefore
  rw [← hdims, Nat.zero_add] at hfirst
  unfold Validate
  rw [h]
  simp only [validateDirective, MinNamespaceLength, MaxNamespaceLength, MinDimensions, h1, h2,
    h3, h4, if_false, hfirst]

/-- C17 at a log whose sets are a valid one, an empty one and one of 31 names,
with no flat value at all and a metric with an empty name, an invalid unit and
an invalid resolution: the error is the one of the empty set at position 1. -/
theorem first_empty_dimension_set_witness :
    emptySetLog.emf.Aws.CloudWatchMetrics = emptySetDirective :: [] ∧
    emptySetDirective.Dimensions = [["Service"]] ++ [] :: [dimensionNames 31] ∧
    (Validate emptySetLog = some (some (Error.emptyDimensionSet [["Service"]].length)) ∧
    (Error.emptyDimensionSet [["Service"]].length).message
      = "dimension set " ++ toString [["Service"]].length
        ++ " is empty, must contain at least one dimension") ∧
    (Error.emptyDimensionSet 1).message
      = "dimension set 1 is empty, must contain at least one dimension" :=
  ⟨rfl, rfl,
    first_empty_dimension_set emptySetLog emptySetDirective [] [["Service"]]
      [dimensionNames 31] rfl (by decide) (by decide) rfl (by decide),
    by decide⟩

theorem utf8ByteSize_replicate (n : Nat) (c : Char) :
    (String.mk (List.replicate n c)).utf8ByteSize = n * c.utf8Size := by
  induction n with
  | zero => simp [String.utf8ByteSize, String.utf8ByteSize.go]
  | succ k ih =>
    simp only [String.utf8ByteSize, List.replicate_succ, String.utf8ByteSize.go] at ih ⊢
    rw [ih]
    ring

/-- C18, the code at the failing input: a namespace of 600 two-byte characters
has 600 characters and 1200 bytes, and Validate rejects it with the error whose
text is "namespace length must be at most 1024 characters". -/
theorem wide_namespace_rejected :
    applyOps (NewMetricLog wideNamespace 1700000000000)
      [Op.putDimension "Service" "API", Op.withDimensionSet ["Service"],
       Op.putMetric "Count" (Value.int 1) "Count"] = some wideNamespaceLog ∧
    wideNamespace.length = 600 ∧
    len wideNamespace = 1200 ∧
    Validate wideNamespaceLog = some (some Error.namespaceTooLong) ∧
    Error.namespaceTooLong.message = "namespace length must be at most 1024 characters" := by
  have hlen : len wideNamespace = 1200 := by
    unfold len wideNamespace
    rw [utf8ByteSize_replicate]
    decide
  have hchars : wideNamespace.length = 600 := by
    unfold wideNamespace
    show (List.replicate 600 'é').length = 600
    exact List.length_replicate ..
  refine ⟨rfl, hchars, hlen, ?_, by decide⟩
  simp [Validate, wideNamespaceLog, validateDirective, MinNamespaceLength, MaxNamespaceLength,
    hlen]

/-! ## The reading methods -/

theorem bytesLE_total (a b : List Char) : bytesLE a b = true ∨ bytesLE b a = true := by
  induction a generalizing b with
  | nil => exact Or.inl (by cases b <;> rfl)
  | cons x xs ih =>
    cases b with
    | nil => exact Or.inr rfl
    | cons y ys =>
      by_cases h1 : x.toNat < y.toNat
      · exact Or.inl (by simp [bytesLE, h1])
      · by_cases h2 : y.toNat < x.toNat
        · exact Or.inr (by simp [bytesLE, h2])
        · rcases ih ys with h | h
          · exact Or.inl (by simp [bytesLE, h1, h2, h])
          · exact Or.inr (by simp [bytesLE, h1, h2, h])

theorem bytesLE_antisymm (a b : List Char) (hab : bytesLE a b = true)
    (hba : bytesLE b a = true) : a = b := by
  induction a generalizing b with
  | nil =>
    cases b with
    | nil => rfl
    | cons y ys => simp [bytesLE] at hba
  | cons x xs ih =>
    cases b with
    | nil => simp [bytesLE] at hab
    | cons y ys =>
      by_cases h1 : x.toNat < y.toNat
      · have h2 : ¬ y.toNat < x.toNat := by omega
        simp [bytesLE, h1, h2] at hba
      · by_cases h2 : y.toNat < x.toNat
        · simp [bytesLE, h1, h2] at hab
        · simp only [bytesLE, h1, h2, if_false] at hab hba
          have hxy : x = y := by
            have hn : x.toNat = y.toNat := by omega
            have := congrArg Char.ofNat hn
            simpa using this
          rw [hxy, ih ys hab hba]

theorem bytesLE_trans (a b c : List Char) (hab : bytesLE a b = true)
    (hbc : bytesLE b c = true) : bytesLE a c = true := by
  induction a generalizing b c with
  | nil => cases c <;> rfl
  | cons x xs ih =>
    cases b with
    | nil => simp [bytesLE] at hab
    | cons y ys =>
      cases c with
      | nil => simp [bytesLE] at hbc
      | cons z zs =>
        by_cases h1 : x.toNat < y.toNat
        · by_cases h3 : y.toNat < z.toNat
          · have : x.toNat < z.toNat := by omega
            simp [bytesLE, this]
          · by_cases h4 : z.toNat < y.toNat
            · simp [bytesLE, h3, h4] at hbc
            · have : x.toNat < z.toNat := by omega
              simp [bytesLE, this]
        · by_cases h2 : y.toNat < x.toNat
          · simp [bytesLE, h1, h2] at hab
          · simp only [bytesLE, h1, h2, if_false] at hab
            by_cases h3 : y.toNat < z.toNat
            · have : x.toNat < z.toNat := by omega
              simp [bytesLE, this]
            · by_cases h4 : z.toNat < y.toNat
              · simp [bytesLE, h3, h4] at hbc
              · simp only [bytesLE, h3, h4, if_false] at hbc
                have h5 : ¬ x.toNat < z.toNat := by omega
                have h6 : ¬ z.toNat < x.toNat := by omega
                simp only [bytesLE, h5, h6, if_false]
                exact ih ys zs hab hbc

/-- Sorting the entries of a map by key gives the same list whatever the order
in which the entries are met. -/
theorem sort_eq_of_perm (l1 l2 : List (Sigma (fun _ : String => Any))) (hp : l1.Perm l2)
    (hnd : l1.NodupKeys) :
    l1.insertionSort (fun a b => keyLE a.1 b.1 = true)
      = l2.insertionSort (fun a b => keyLE a.1 b.1 = true) := by
  haveI : IsTotal (Sigma (fun _ : String => Any)) (fun a b => keyLE a.1 b.1 = true) :=
    ⟨fun a b => bytesLE_total a.1.data b.1.data⟩
  haveI : IsTrans (Sigma (fun _ : String => Any)) (fun a b => keyLE a.1 b.1 = true) :=
    ⟨fun a b c hab hbc => bytesLE_trans a.1.data b.1.data c.1.data hab hbc⟩
  haveI : IsAntisymm (Sigma (fun _ : String => Any))
      (fun a b => keyLE a.1 b.1 = true ∧ a.1 ≠ b.1) :=
    ⟨fun a b hab hba => by
      have hd : a.1.data = b.1.data := bytesLE_antisymm _ _ hab.1 hba.1
      have hk : a.1 = b.1 := String.ext hd
      exact absurd hk hab.2⟩
  have hp1 := List.perm_insertionSort (fun a b : Sigma (fun _ : String => Any) =>
    keyLE a.1 b.1 = true) l1
  have hp2 := List.perm_insertionSort (fun a b : Sigma (fun _ : String => Any) =>
    keyLE a.1 b.1 = true) l2
  have hs1 := List.sorted_insertionSort (fun a b : Sigma (fun _ : String => Any) =>
    keyLE a.1 b.1 = true) l1
  have hs2 := List.sorted_insertionSort (fun a b : Sigma (fun _ : String => Any) =>
    keyLE a.1 b.1 = true) l2
  have hnd1 : (l1.insertionSort (fun a b => keyLE a.1 b.1 = true)).NodupKeys :=
    (List.perm_nodupKeys hp1).2 hnd
  have hnd2 : (l2.insertionSort (fun a b => keyLE a.1 b.1 = true)).NodupKeys :=
    (List.perm_nodupKeys (hp2.trans hp.symm)).2 hnd
  exact List.eq_of_perm_of_sorted (hp1.trans (hp.trans hp2.symm))
    (List.Pairwise.and hs1 (List.nodupKeys_iff_pairwise.1 hnd1))
    (List.Pairwise.and hs2 (List.nodupKeys_iff_pairwise.1 hnd2))

theorem jsonMarshal_congr (m1 m2 : AList (fun _ : String => Any))
    (h : ∀ k, m1.lookup k = m2.lookup k) : jsonMarshal m1 = jsonMarshal m2 := by
  have hp : m1.entries.Perm m2.entries :=
    List.lookup_ext m1.nodupKeys m2.nodupKeys (fun k a => by
      show a ∈ m1.lookup k ↔ a ∈ m2.lookup k
      rw [h k])
  unfold jsonMarshal
  rw [sort_eq_of_perm m1.entries m2.entries hp m1.nodupKeys]

theorem validateMetric_congr (m1 m2 : ValueMap)
    (h : ∀ k, (m1.lookup k).isNone = (m2.lookup k).isNone)
    (metric : EmfFormatJsonAwsCloudWatchMetricsElemMetricsElem) :
    validateMetric m1 metric = validateMetric m2 metric := by
  simp only [validateMetric, h]

theorem validateMetrics_congr (m1 m2 : ValueMap)
    (h : ∀ k, (m1.lookup k).isNone = (m2.lookup k).isNone)
    (ms : List EmfFormatJsonAwsCloudWatchMetricsElemMetricsElem) :
    validateMetrics m1 ms = validateMetrics m2 ms := by
  induction ms with
  | nil => rfl
  | cons m rest ih => simp only [validateMetrics, validateMetric_congr m1 m2 h, ih]

theorem validateDimensionNames_congr (m1 m2 : ValueMap)
    (h : ∀ k, (m1.lookup k).isNone = (m2.lookup k).isNone) (dimSet : List String) :
    validateDimensionNames m1 dimSet = validateDimensionNames m2 dimSet := by
  induction dimSet with
  | nil => rfl
  | cons d rest ih => simp only [validateDimensionNames, h, ih]

theorem validateDimensionSets_congr (m1 m2 : ValueMap)
    (h : ∀ k, (m1.lookup k).isNone = (m2.lookup k).isNone) (i : Nat)
    (sets : List (List String)) :
    validateDimensionSets m1 i sets = validateDimensionSets m2 i sets := by
  induction sets generalizing i with
  | nil => rfl
  | cons s rest ih =>
    simp only [validateDimensionSets, validateDimensionNames_congr m1 m2 h, ih]

/-- The verdict of the validator depends on the flat value map only through
the set of its keys. -/
theorem validateDirective_congr (m1 m2 : ValueMap)
    (h : ∀ k, (m1.lookup k).isNone = (m2.lookup k).isNone)
    (directive : EmfFormatJsonAwsCloudWatchMetricsElem) :
    validateDirective m1 directive = validateDirective m2 directive := by
  simp only [validateDirective, validateMetrics_congr m1 m2 h,
    validateDimensionSets_congr m1 m2 h]

theorem validate_congr (ml1 ml2 : MetricLog) (hemf : ml1.emf = ml2.emf)
    (h : ∀ k, (ml1.metrics.lookup k).isNone = (ml2.metrics.lookup k).isNone) :
    Validate ml1 = Validate ml2 := by
  unfold Validate
  rw [hemf]
  cases ml2.emf.Aws.CloudWatchMetrics with
  | nil => rfl
  | cons d rest => simp only [validateDirective_congr _ _ h]

theorem marshalJSON_congr (ml1 ml2 : MetricLog) (hemf : ml1.emf = ml2.emf)
    (h : ∀ k, ml1.metrics.lookup k = ml2.metrics.lookup k) :
    MarshalJSON ml1 = MarshalJSON ml2 := by
  have hv := validate_congr ml1 ml2 hemf (fun k => by rw [h k])
  have hc : jsonMarshal (combinedMap ml1) = jsonMarshal (combinedMap ml2) :=
    jsonMarshal_congr _ _ (fun k => by rw [combinedMap_lookup, combinedMap_lookup, h k, hemf])
  unfold MarshalJSON
  rw [hv, hc]

/-- C12: a call of Validate, MarshalJSON or String leaves the log as it was
(namespace, timestamp, dimension sets, metric definitions and flat value map),
and the same call made again returns the same answer; what the three methods
return depends only on the structural side and on the contents of the flat
value map, not on the order in which the map is traversed, so two consecutive
MarshalJSON calls return the same document, with the same Timestamp, or the
same error. -/
theorem reads_leave_log_unchanged (text : Json → String) (ml : MetricLog) :
    (∀ (q : Query) (ml1 : MetricLog) (answer : Answer),
      q.run text ml = some (ml1, answer) →
      ml1 = ml ∧ q.run text ml1 = some (ml1, answer)) ∧
    (∀ ml2 : MetricLog, ml2.emf = ml.emf →
      (∀ k, ml2.metrics.lookup k = ml.metrics.lookup k) →
      Validate ml2 = Validate ml ∧ MarshalJSON ml2 = MarshalJSON ml ∧
        ml2.String text = ml.String text) := by
  constructor
  · intro q ml1 answer hrun
    have hml : ml1 = ml := by
      cases q with
      | validate =>
        simp only [Query.run, Option.map_eq_some'] at hrun
        obtain ⟨_, _, hpair⟩ := hrun
        exact (congrArg Prod.fst hpair).symm
      | marshalJSON =>
        simp only [Query.run, Option.map_eq_some'] at hrun
        obtain ⟨_, _, hpair⟩ := hrun
        exact (congrArg Prod.fst hpair).symm
      | string =>
        simp only [Query.run, Option.map_eq_some'] at hrun
        obtain ⟨_, _, hpair⟩ := hrun
        exact (congrArg Prod.fst hpair).symm
    refine ⟨hml, ?_⟩
    rw [hml]
    rw [hml] at hrun
    exact hrun
  · intro ml2 hemf hlook
    have hm := marshalJSON_congr ml2 ml hemf hlook
    refine ⟨validate_congr ml2 ml hemf (fun k => by rw [hlook k]), hm, ?_⟩
    unfold MetricLog.String
    rw [hm]

/-! ## Construction, reachable logs and the frame of the mutations -/

theorem validate_isSome_of_directive (ml : MetricLog)
    (directive : EmfFormatJsonAwsCloudWatchMetricsElem)
    (rest : List EmfFormatJsonAwsCloudWatchMetricsElem)
    (h : ml.emf.Aws.CloudWatchMetrics = directive :: rest) :
    Validate ml = some (validateDirective ml.metrics directive) := by
  unfold Validate
  rw [h]

theorem query_run_of_directive (text : Json → String) (ml : MetricLog)
    (directive : EmfFormatJsonAwsCloudWatchMetricsElem)
    (rest : List EmfFormatJsonAwsCloudWatchMetricsElem)
    (h : ml.emf.Aws.CloudWatchMetrics = directive :: rest) (q : Query) :
    ∃ answer, q.run text ml = some (ml, answer) := by
  have hv := validate_isSome_of_directive ml directive rest h
  have hm : ∃ r, MarshalJSON ml = some r := by
    unfold MarshalJSON
    rw [hv]
    cases validateDirective ml.metrics directive with
    | none => exact ⟨_, rfl⟩
    | some err => exact ⟨_, rfl⟩
  obtain ⟨r, hr⟩ := hm
  have hs : ∃ s, ml.String text = some s := by
    unfold MetricLog.String
    rw [hr]
    obtain ⟨bytes, err⟩ := r
    cases bytes with
    | none =>
      cases err with
      | none => exact ⟨"", rfl⟩
      | some e => exact ⟨"", rfl⟩
    | some doc =>
      cases err with
      | none => exact ⟨text doc, rfl⟩
      | some e => exact ⟨"", rfl⟩
  obtain ⟨s, hs1⟩ := hs
  cases q with
  | validate => exact ⟨Answer.validate (validateDirective ml.metrics directive), by
      simp [Query.run, hv]⟩
  | marshalJSON => exact ⟨Answer.marshalJSON r, by simp [Query.run, hr]⟩
  | string => exact ⟨Answer.string s, by simp [Query.run, hs1]⟩

/-- A sequence of public calls on a log with one directive never panics and
leaves a log with one directive, of the same namespace and timestamp. -/
theorem runCalls_directive (text : Json → String) (calls : List Call) (ml : MetricLog)
    (directive : EmfFormatJsonAwsCloudWatchMetricsElem)
    (h : ml.emf.Aws.CloudWatchMetrics = [directive]) :
    ∃ ml1 directive1, runCalls text ml calls = some ml1 ∧
      ml1.emf.Aws.CloudWatchMetrics = [directive1] ∧
      directive1.Namespace = directive.Namespace ∧
      ml1.emf.Aws.Timestamp = ml.emf.Aws.Timestamp := by
  induction calls generalizing ml directive with
  | nil => exact ⟨ml, directive, rfl, h, rfl, rfl⟩
  | cons call rest ih =>
    cases call with
    | mutation op =>
      obtain ⟨ml1, h1, hd1, ht1⟩ := apply_directive ml op directive h
      obtain ⟨ml2, d2, h2, hd2, hn2, ht2⟩ := ih ml1 _ hd1
      exact ⟨ml2, d2, by simp [runCalls, Call.run, h1, h2], hd2, hn2, by rw [ht2, ht1]⟩
    | query q =>
      obtain ⟨answer, hq⟩ := query_run_of_directive text ml directive [] h q
      obtain ⟨ml2, d2, h2, hd2, hn2, ht2⟩ := ih ml directive h
      exact ⟨ml2, d2, by simp [runCalls, Call.run, hq, h2], hd2, hn2, ht2⟩

/-- C26: every log reached from NewMetricLog by a finite sequence of public
calls (mutations, builder methods, Validate, MarshalJSON, String) has exactly
one element in CloudWatchMetrics, and on it none of Validate, MarshalJSON,
String and the mutation methods fails with the out-of-range access. -/
theorem reachable_has_one_directive (text : Json → String) (ns : String) (timestamp : Int)
    (calls : List Call) :
    ∃ ml directive, runCalls text (NewMetricLog ns timestamp) calls = some ml ∧
      ml.emf.Aws.CloudWatchMetrics = [directive] ∧
      ml.emf.Aws.CloudWatchMetrics.length = 1 ∧
      (∃ r, Validate ml = some r) ∧ (∃ r, MarshalJSON ml = some r) ∧
      (∃ s, ml.String text = some s) ∧
      (∀ op : Op, ∃ ml1, op.apply ml = some ml1) ∧
      (∀ call : Call, ∃ ml1, call.run text ml = some ml1) := by
  obtain ⟨ml, d, hml, hd, _, _⟩ := runCalls_directive text calls (NewMetricLog ns timestamp) _ rfl
  have hq := query_run_of_directive text ml d [] hd
  have hop : ∀ op : Op, ∃ ml1, op.apply ml = some ml1 := by
    intro op
    obtain ⟨ml1, h1, _, _⟩ := apply_directive ml op d hd
    exact ⟨ml1, h1⟩
  refine ⟨ml, d, hml, hd, by rw [hd]; rfl, ?_, ?_, ?_, hop, ?_⟩
  · obtain ⟨answer, ha⟩ := hq Query.validate
    simp only [Query.run, Option.map_eq_some'] at ha
    obtain ⟨r, hr, _⟩ := ha
    exact ⟨r, hr⟩
  · obtain ⟨answer, ha⟩ := hq Query.marshalJSON
    simp only [Query.run, Option.map_eq_some'] at ha
    obtain ⟨r, hr, _⟩ := ha
    exact ⟨r, hr⟩
  · obtain ⟨answer, ha⟩ := hq Query.string
    simp only [Query.run, Option.map_eq_some'] at ha
    obtain ⟨r, hr, _⟩ := ha
    exact ⟨r, hr⟩
  · intro call
    cases call with
    | mutation op => exact hop op
    | query q =>
      obtain ⟨answer, ha⟩ := hq q
      exact ⟨ml, by simp [Call.run, ha]⟩

/-- C27: NewMetricLog(ns) returns, for every ns, a log with the single
directive of namespace ns, no dimension set, no metric definition and an empty
flat value map; Validate on it fails, with a namespace-length error when the
length of ns is below 1 or above 1024, and otherwise with "at least one metric
must be defined". -/
theorem new_metric_log_fresh (ns : String) (timestamp : Int) :
    (NewMetricLog ns timestamp).emf.Aws.CloudWatchMetrics
      = [{ Namespace := ns, Dimensions := [], Metrics := [] }] ∧
    (NewMetricLog ns timestamp).emf.Aws.Timestamp = timestamp ∧
    (NewMetricLog ns timestamp).metrics.keys = [] ∧
    (∀ k, (NewMetricLog ns timestamp).metrics.lookup k = none) ∧
    Validate (NewMetricLog ns timestamp) =
      some (some (if len ns < 1 then Error.namespaceTooShort
        else if 1024 < len ns then Error.namespaceTooLong
        else Error.noMetrics)) ∧
    Validate (NewMetricLog ns timestamp) ≠ some none ∧
    Error.noMetrics.message = "at least one metric must be defined" ∧
    Validate (NewMetricLog "" timestamp) = some (some Error.namespaceTooShort) ∧
    Validate (NewMetricLog wideNamespace timestamp) = some (some Error.namespaceTooLong) := by
  have hv : Validate (NewMetricLog ns timestamp) =
      some (some (if len ns < 1 then Error.namespaceTooShort
        else if 1024 < len ns then Error.namespaceTooLong
        else Error.noMetrics)) := by
    show some (validateDirective _ _) = _
    unfold validateDirective
    simp only [MinNamespaceLength, MaxNamespaceLength]
    by_cases h1 : len ns < 1
    · simp [h1]
    · by_cases h2 : len ns > 1024
      · simp [h1, h2]
      · have h2b : ¬ 1024 < len ns := h2
        simp [h1, h2, h2b]
  have hwide : len wideNamespace = 1200 := by
    unfold len wideNamespace
    rw [utf8ByteSize_replicate]
    decide
  refine ⟨rfl, rfl, rfl, fun k => rfl, hv, ?_, by decide, rfl, ?_⟩
  · rw [hv]
    intro hc
    exact Option.noConfusion (Option.some.inj hc)
  · show some (validateDirective _ _) = _
    simp [validateDirective, MinNamespaceLength, MaxNamespaceLength, hwide]

/-- C21, what holds and the code at the failing input: every sequence of
public calls on NewMetricLog(ns) at timestamp t succeeds and keeps the namespace
ns and the timestamp t, and a document emitted for a log without the flat key
"_aws" carries them; but after PutDimension("_aws", "x") on the minimal valid
log MarshalJSON succeeds with a document whose "_aws" member is the string "x":
it carries neither Namespace nor Timestamp. -/
theorem serialization_may_lose_namespace_and_timestamp :
    (∀ (text : Json → String) (ns : String) (t : Int) (calls : List Call),
      ∃ ml directive, runCalls text (NewMetricLog ns t) calls = some ml ∧
        ml.emf.Aws.CloudWatchMetrics = [directive] ∧
        directive.Namespace = ns ∧ ml.emf.Aws.Timestamp = t ∧
        ∀ doc, MarshalJSON ml = some (some doc, none) → "_aws" ∉ ml.metrics →
          doc.get "_aws" = some (Json.obj
            [("CloudWatchMetrics", Json.arr
               [Json.obj
                 [("Dimensions", Json.arr
                    (directive.Dimensions.map (fun dimSet => Json.arr (dimSet.map Json.str)))),
                  ("Metrics", Json.arr (directive.Metrics.map encodeMetricsElem)),
                  ("Namespace", Json.str ns)]]),
             ("Timestamp", Json.int t)])) ∧
    applyOps (NewMetricLog "N" 1700000000000)
      [Op.putDimension "Service" "API", Op.withDimensionSet ["Service"],
       Op.putMetric "Count" (Value.int 1) "Count",
       Op.putDimension "_aws" "x"] = some shadowedLog ∧
    MarshalJSON shadowedLog =
      some (some (Json.obj [("Count", Json.int 1), ("Service", Json.str "API"),
        ("_aws", Json.str "x")]), none) ∧
    Json.get (Json.obj [("Count", Json.int 1), ("Service", Json.str "API"),
        ("_aws", Json.str "x")]) "_aws" = some (Json.str "x") ∧
    (Json.str "x").get "Timestamp" = none ∧
    (Json.str "x").get "CloudWatchMetrics" = none := by
  refine ⟨?_, rfl, rfl, rfl, rfl, rfl⟩
  intro text ns t calls
  obtain ⟨ml, d, hml, hd, hns, ht⟩ := runCalls_directive text calls (NewMetricLog ns t) _ rfl
  refine ⟨ml, d, hml, hd, hns, ht, ?_⟩
  intro doc hdoc hno
  rw [(marshal_get_aws ml doc hdoc).2 hno]
  have hns1 : d.Namespace = ns := hns
  have ht1 : ml.emf.Aws.Timestamp = t := ht
  simp [encodeAws, encodeDirective, hd, hns1, ht1]

/-- C23: MarshalJSON validates the state it is called on: it succeeds on the
minimal valid log and fails after the single call WithDimensionSet([]) and
after the single call WithDimensionSet(["Region"]), "Region" having no value;
it fails on the log whose dimension "Service" has no value and succeeds after
the single call PutDimension("Service", "API"); and whenever Validate returns an
error on the current state, MarshalJSON returns that error. -/
theorem validity_not_monotone :
    MarshalJSON minimalLog = some (some minimalDocument, none) ∧
    (WithDimensionSet minimalLog []).bind MarshalJSON
      = some (none, some (Error.emptyDimensionSet 1)) ∧
    (WithDimensionSet minimalLog ["Region"]).bind MarshalJSON
      = some (none, some (Error.dimensionValueMissing "Region")) ∧
    MarshalJSON missingValueLog = some (none, some (Error.dimensionValueMissing "Service")) ∧
    MarshalJSON (PutDimension missingValueLog "Service" "API") =
      some (some (Json.obj
        [("M", Json.int 1),
         ("Service", Json.str "API"),
         ("_aws", encodeAws missingValueLog.emf.Aws)]), none) ∧
    (∀ (ml : MetricLog) (err : Error), Validate ml = some (some err) →
      MarshalJSON ml = some (none, some err)) ∧
    (∀ ml : MetricLog, Validate ml = some none →
      MarshalJSON ml = some (jsonMarshal (combinedMap ml))) := by
  refine ⟨rfl, rfl, rfl, rfl, rfl, ?_, marshalJSON_of_valid⟩
  intro ml err hv
  simp [MarshalJSON, hv]

theorem isNone_eq_of_mem_iff (m1 m2 : ValueMap) (h : ∀ k, k ∈ m1 ↔ k ∈ m2) (k : String) :
    (m1.lookup k).isNone = (m2.lookup k).isNone := by
  by_cases hk : k ∈ m1
  · have h1 : (m1.lookup k).isNone = false := by
      cases hb : (m1.lookup k).isNone with
      | false => rfl
      | true => exact absurd hk ((lookup_isNone_iff m1 k).1 hb)
    have h2 : (m2.lookup k).isNone = false := by
      cases hb : (m2.lookup k).isNone with
      | false => rfl
      | true => exact absurd ((h k).1 hk) ((lookup_isNone_iff m2 k).1 hb)
    rw [h1, h2]
  · have hk2 : k ∉ m2 := fun hm => hk ((h k).2 hm)
    rw [(lookup_isNone_iff m1 k).2 hk, (lookup_isNone_iff m2 k).2 hk2]

/-- Validity of a directive is kept when its dimension sets and its metric
definitions are reordered and the flat value map keeps its set of keys. -/
theorem validateDirective_none_of_perm (m1 m2 : ValueMap)
    (d1 d2 : EmfFormatJsonAwsCloudWatchMetricsElem)
    (hns : d1.Namespace = d2.Namespace) (hdims : d1.Dimensions.Perm d2.Dimensions)
    (hmets : d1.Metrics.Perm d2.Metrics) (hkeys : ∀ k, k ∈ m1 ↔ k ∈ m2)
    (h : validateDirective m1 d1 = none) : validateDirective m2 d2 = none := by
  obtain ⟨h1, h2, h3, h4, h5, h6⟩ := (validateDirective_eq_none_iff m1 d1).1 h
  rw [validateDirective_eq_none_iff]
  refine ⟨by rw [← hns]; exact h1, by rw [← hmets.length_eq]; exact h2,
    by rw [← hdims.length_eq]; exact h3, ?_, ?_, ?_⟩
  · intro s hs
    exact h4 s (hdims.mem_iff.2 hs)
  · intro metric hm
    rw [← validateMetric_congr m1 m2 (isNone_eq_of_mem_iff m1 m2 hkeys)]
    exact h5 metric (hmets.mem_iff.2 hm)
  · intro s hs
    obtain ⟨hsz, hnames⟩ := h6 s (hdims.mem_iff.2 hs)
    exact ⟨hsz, fun dim hd => ⟨(hnames dim hd).1, (hkeys dim).1 (hnames dim hd).2⟩⟩

/-- After a sequence of calls the keys of the flat value map are the old keys
and the keys the calls wrote. -/
theorem applyOps_mem_metrics (ops : List Op) (ml ml1 : MetricLog)
    (h : applyOps ml ops = some ml1) (k : String) :
    k ∈ ml1.metrics ↔ k ∈ ml.metrics ∨ ∃ op ∈ ops, ∃ v, op.written = some (k, v) := by
  induction ops generalizing ml with
  | nil =>
    simp only [applyOps, Option.some.injEq] at h
    subst h
    simp
  | cons op rest ih =>
    simp only [applyOps] at h
    cases hop : op.apply ml with
    | none => rw [hop] at h; exact Option.noConfusion h
    | some ml0 =>
      rw [hop] at h
      have hrest := ih ml0 h
      have hmet := apply_metrics ml ml0 op hop
      rw [hrest]
      have hstep : k ∈ ml0.metrics ↔ k ∈ ml.metrics ∨ ∃ v, op.written = some (k, v) := by
        rw [hmet]
        cases hw : op.written with
        | none => simp
        | some kv =>
          obtain ⟨k0, v0⟩ := kv
          simp only [AList.mem_insert, Option.some.injEq, Prod.mk.injEq]
          constructor
          · rintro (hk | hk)
            · exact Or.inr ⟨v0, hk.symm, rfl⟩
            · exact Or.inl hk
          · rintro (hk | ⟨v, hk, _⟩)
            · exact Or.inr hk
            · exact Or.inl hk.symm
      rw [hstep]
      simp only [List.mem_cons, exists_eq_or_imp]
      tauto

/-- C22: two sequences of mutation calls that are permutations of each other,
applied to fresh logs of the same namespace, give logs on which Validate
succeeds or fails together; and PutDimension(k, v) and WithDimensionSet(d)
commute: in both orders they give the same state. -/
theorem validity_independent_of_order (ns : String) (t1 t2 : Int) (ops1 ops2 : List Op)
    (hp : ops1.Perm ops2) :
    (∃ ml1 ml2, applyOps (NewMetricLog ns t1) ops1 = some ml1 ∧
      applyOps (NewMetricLog ns t2) ops2 = some ml2 ∧
      (Validate ml1 = some none ↔ Validate ml2 = some none)) ∧
    (∀ (ml : MetricLog) (k v : String) (d : List String),
      WithDimensionSet (PutDimension ml k v) d
        = (WithDimensionSet ml d).map (fun ml1 => PutDimension ml1 k v)) := by
  constructor
  · obtain ⟨ml1, h1, hd1, _⟩ := applyOps_directive ops1 (NewMetricLog ns t1) _ rfl
    obtain ⟨ml2, h2, hd2, _⟩ := applyOps_directive ops2 (NewMetricLog ns t2) _ rfl
    have hk1 := applyOps_mem_metrics ops1 _ ml1 h1
    have hk2 := applyOps_mem_metrics ops2 _ ml2 h2
    have hkeys : ∀ k, k ∈ ml1.metrics ↔ k ∈ ml2.metrics := by
      intro k
      rw [hk1 k, hk2 k]
      constructor
      · rintro (hk | ⟨op, hop, hw⟩)
        · exact Or.inl hk
        · exact Or.inr ⟨op, hp.mem_iff.1 hop, hw⟩
      · rintro (hk | ⟨op, hop, hw⟩)
        · exact Or.inl hk
        · exact Or.inr ⟨op, hp.mem_iff.2 hop, hw⟩
    have hdims : (ops1.filterMap Op.addedDimensionSet).Perm
        (ops2.filterMap Op.addedDimensionSet) := hp.filterMap _
    have hmets : (ops1.filterMap Op.addedMetric).Perm (ops2.filterMap Op.addedMetric) :=
      hp.filterMap _
    refine ⟨ml1, ml2, h1, h2, ?_⟩
    rw [validate_isSome_of_directive ml1 _ [] hd1, validate_isSome_of_directive ml2 _ [] hd2]
    simp only [Option.some.injEq]
    constructor
    · exact validateDirective_none_of_perm _ _ _ _ rfl (by simpa using hdims)
        (by simpa using hmets) hkeys
    · exact validateDirective_none_of_perm _ _ _ _ rfl (by simpa using hdims.symm)
        (by simpa using hmets.symm) (fun k => (hkeys k).symm)
  · intro ml k v d
    unfold WithDimensionSet updateDirective
    cases hc : ml.emf.Aws.CloudWatchMetrics with
    | nil => simp [PutDimension, hc]
    | cons directive rest => simp [PutDimension, hc]

/-- C22 for a log that names the dimension "Service" before giving it a value
and the same calls in another order: both logs are valid. -/
theorem validity_independent_of_order_witness :
    [Op.withDimensionSet ["Service"], Op.putMetric "Count" (Value.int 1) "Count",
      Op.putDimension "Service" "API"].Perm
      [Op.putDimension "Service" "API", Op.withDimensionSet ["Service"],
        Op.putMetric "Count" (Value.int 1) "Count"] ∧
    (applyOps (NewMetricLog "N" 1700000000000)
      [Op.withDimensionSet ["Service"], Op.putMetric "Count" (Value.int 1) "Count",
        Op.putDimension "Service" "API"]).bind Validate = some none ∧
    (applyOps (NewMetricLog "N" 1700000000000)
      [Op.putDimension "Service" "API", Op.withDimensionSet ["Service"],
        Op.putMetric "Count" (Value.int 1) "Count"]).bind Validate = some none ∧
    ((∃ ml1 ml2, applyOps (NewMetricLog "N" 1700000000000)
        [Op.withDimensionSet ["Service"], Op.putMetric "Count" (Value.int 1) "Count",
          Op.putDimension "Service" "API"] = some ml1 ∧
      applyOps (NewMetricLog "N" 1700000000000)
        [Op.putDimension "Service" "API", Op.withDimensionSet ["Service"],
          Op.putMetric "Count" (Value.int 1) "Count"] = some ml2 ∧
      (Validate ml1 = some none ↔ Validate ml2 = some none)) ∧
    (∀ (ml : MetricLog) (k v : String) (d : List String),
      WithDimensionSet (PutDimension ml k v) d
        = (WithDimensionSet ml d).map (fun ml1 => PutDimension ml1 k v))) :=
  ⟨by decide, by decide, by decide,
    validity_independent_of_order "N" 1700000000000 1700000000000 _ _ (by decide)⟩

/-! ## Precedence among the errors of Validate -/

theorem validateMetrics_first_failure (metrics : ValueMap)
    (ms : List EmfFormatJsonAwsCloudWatchMetricsElemMetricsElem)
    (hfail : ∃ metric ∈ ms, validateMetric metrics metric ≠ none) :
    ∃ before metric after err, ms = before ++ metric :: after ∧
      (∀ m ∈ before, validateMetric metrics m = none) ∧
      validateMetric metrics metric = some err ∧ validateMetrics metrics ms = some err := by
  induction ms with
  | nil =>
    obtain ⟨m, hm, _⟩ := hfail
    exact absurd hm (List.not_mem_nil m)
  | cons x rest ih =>
    cases hx : validateMetric metrics x with
    | some err =>
      exact ⟨[], x, rest, err, rfl, by simp, hx, by simp [validateMetrics, hx]⟩
    | none =>
      have hrest : ∃ metric ∈ rest, validateMetric metrics metric ≠ none := by
        obtain ⟨m, hm, hne⟩ := hfail
        rcases List.mem_cons.1 hm with rfl | hm1
        · exact absurd hx hne
        · exact ⟨m, hm1, hne⟩
      obtain ⟨before, metric, after, err, hsplit, hpass, herr, hres⟩ := ih hrest
      refine ⟨x :: before, metric, after, err, by simp [hsplit], ?_, herr, by
        simp [validateMetrics, hx, hres]⟩
      intro m hm
      rcases List.mem_cons.1 hm with rfl | hm1
      · exact hx
      · exact hpass m hm1

theorem validateMetric_error_form (metrics : ValueMap)
    (metric : EmfFormatJsonAwsCloudWatchMetricsElemMetricsElem) (err : Error)
    (h : validateMetric metrics metric = some err) :
    err = Error.metricNameTooShort metric.Name ∨ err = Error.metricNameTooLong metric.Name ∨
    err = Error.metricValueMissing metric.Name ∨
    (∃ u, metric.Unit = some u ∧ err = Error.invalidUnit u metric.Name) ∨
    err = Error.invalidStorageResolution metric.Name := by
  rw [← firstError_metricCheck] at h
  obtain ⟨name, res, unit⟩ := metric
  simp only [metricNameCheck, metricValueCheck, unitCheck, resolutionCheck] at h
  by_cases h1 : len name < 1
  · simp [h1, firstError] at h
    exact Or.inl h.symm
  by_cases h2 : 1024 < len name
  · simp [h1, h2, firstError] at h
    exact Or.inr (Or.inl h.symm)
  by_cases h3 : name ∈ metrics
  · cases unit with
    | some u =>
      by_cases hu : u ∈ Units
      · cases res with
        | none => simp [h1, h2, h3, hu, firstError] at h
        | some r =>
          by_cases hr : r = 1 ∨ r = 60
          · simp [h1, h2, h3, hu, hr, firstError] at h
          · simp [h1, h2, h3, hu, hr, firstError] at h
            exact Or.inr (Or.inr (Or.inr (Or.inr h.symm)))
      · simp [h1, h2, h3, hu, firstError] at h
        exact Or.inr (Or.inr (Or.inr (Or.inl ⟨u, rfl, h.symm⟩)))
    | none =>
      cases res with
      | none => simp [h1, h2, h3, firstError] at h
      | some r =>
        by_cases hr : r = 1 ∨ r = 60
        · simp [h1, h2, h3, hr, firstError] at h
        · simp [h1, h2, h3, hr, firstError] at h
          exact Or.inr (Or.inr (Or.inr (Or.inr h.symm)))
  · simp [h1, h2, h3, firstError] at h
    exact Or.inr (Or.inr (Or.inl h.symm))

/-- When the checks before the metric phase pass, Validate returns what the
metric phase returns as soon as that is an error. -/
theorem validate_of_metric_error (ml : MetricLog)
    (directive : EmfFormatJsonAwsCloudWatchMetricsElem)
    (rest : List EmfFormatJsonAwsCloudWatchMetricsElem) (err : Error)
    (h : ml.emf.Aws.CloudWatchMetrics = directive :: rest)
    (hns : 1 ≤ len directive.Namespace ∧ len directive.Namespace ≤ 1024)
    (hdims : 1 ≤ directive.Dimensions.length)
    (hne : ∀ dimSet ∈ directive.Dimensions, dimSet ≠ [])
    (herr : validateMetrics ml.metrics directive.Metrics = some err) :
    Validate ml = some (some err) := by
  have h1 : ¬ len directive.Namespace < 1 := by omega
  have h2 : ¬ len directive.Namespace > 1024 := by omega
  have h3 : ¬ directive.Metrics.length = 0 := by
    intro hz
    rw [List.length_eq_zero.1 hz] at herr
    exact Option.noConfusion herr
  have h4 : ¬ directive.Dimensions.length < 1 := by omega
  have hempty : checkNoEmptySet 0 directive.Dimensions = none :=
    (checkNoEmptySet_eq_none_iff 0 _).2 hne
  rw [validate_isSome_of_directive ml directive rest h]
  simp only [validateDirective, MinNamespaceLength, MaxNamespaceLength, MinDimensions, h1, h2,
    h3, h4, if_false, hempty, herr]

/-- C28: for a log with a valid namespace, at least one dimension set and no
empty dimension set, if some metric definition fails a metric check, Validate
returns the error of the first failing metric definition (a name-length,
value-missing, invalid-unit or invalid-storage-resolution error naming that
metric), whatever the dimension sets hold. -/
theorem metric_errors_take_precedence (ml : MetricLog)
    (directive : EmfFormatJsonAwsCloudWatchMetricsElem)
    (rest : List EmfFormatJsonAwsCloudWatchMetricsElem)
    (h : ml.emf.Aws.CloudWatchMetrics = directive :: rest)
    (hns : 1 ≤ len directive.Namespace ∧ len directive.Namespace ≤ 1024)
    (hdims : 1 ≤ directive.Dimensions.length)
    (hne : ∀ dimSet ∈ directive.Dimensions, dimSet ≠ [])
    (hfail : ∃ metric ∈ directive.Metrics, validateMetric ml.metrics metric ≠ none) :
    ∃ before metric after err, directive.Metrics = before ++ metric :: after ∧
      (∀ m ∈ before, validateMetric ml.metrics m = none) ∧
      validateMetric ml.metrics metric = some err ∧
      Validate ml = some (some err) ∧
      (err = Error.metricNameTooShort metric.Name ∨ err = Error.metricNameTooLong metric.Name ∨
        err = Error.metricValueMissing metric.Name ∨
        (∃ u, metric.Unit = some u ∧ err = Error.invalidUnit u metric.Name) ∨
        err = Error.invalidStorageResolution metric.Name) := by
  obtain ⟨before, metric, after, err, hsplit, hpass, herr, hres⟩ :=
    validateMetrics_first_failure ml.metrics directive.Metrics hfail
  exact ⟨before, metric, after, err, hsplit, hpass, herr,
    validate_of_metric_error ml directive rest err h hns hdims hne hres,
    validateMetric_error_form ml.metrics metric err herr⟩

/-- C28 at a log with a set of 31 names, a dimension without value and a
metric with an invalid unit: Validate returns the invalid-unit error, also when
the log is built with the dimension sets added before or after the metric. -/
theorem metric_errors_take_precedence_witness :
    precedenceLog.emf.Aws.CloudWatchMetrics = precedenceDirective :: [] ∧
    Validate precedenceLog = some (some (Error.invalidUnit "InvalidUnit" "M")) ∧
    (applyOps (NewMetricLog "N" 1700000000000)
      [Op.withDimensionSet (dimensionNames 31), Op.withDimensionSet ["NoValue"],
       Op.putMetricWithResolution "M" (Value.int 1) "InvalidUnit" 30]).bind Validate
      = some (some (Error.invalidUnit "InvalidUnit" "M")) ∧
    (applyOps (NewMetricLog "N" 1700000000000)
      [Op.putMetricWithResolution "M" (Value.int 1) "InvalidUnit" 30,
       Op.withDimensionSet (dimensionNames 31), Op.withDimensionSet ["NoValue"]]).bind Validate
      = some (some (Error.invalidUnit "InvalidUnit" "M")) ∧
    ∃ before metric after err, precedenceDirective.Metrics = before ++ metric :: after ∧
      (∀ m ∈ before, validateMetric precedenceLog.metrics m = none) ∧
      validateMetric precedenceLog.metrics metric = some err ∧
      Validate precedenceLog = some (some err) ∧
      (err = Error.metricNameTooShort metric.Name ∨ err = Error.metricNameTooLong metric.Name ∨
        err = Error.metricValueMissing metric.Name ∨
        (∃ u, metric.Unit = some u ∧ err = Error.invalidUnit u metric.Name) ∨
        err = Error.invalidStorageResolution metric.Name) :=
  ⟨rfl, by decide, by decide, by decide,
    metric_errors_take_precedence precedenceLog precedenceDirective [] rfl (by decide)
      (by decide) (by decide)
      ⟨{ Name := "M", Unit := some "InvalidUnit", StorageResolution := some 30 },
        by decide, by decide⟩⟩

/-- C29: in the metric phase the metric definitions are checked in insertion
order, each through name length, value presence, unit and storage resolution in
that order. When the earlier checks and the metric definitions before metric j
pass: an error of metric j is what Validate returns, whatever the later metric
definitions hold (so also when metric j+1 fails its name-length check); a metric
j whose name and value checks pass and whose unit is invalid reports
invalid-unit, also when its storage resolution is invalid; a metric j that fails
only its storage-resolution check reports invalid-storage-resolution. -/
theorem metric_checks_in_order (ml : MetricLog)
    (directive : EmfFormatJsonAwsCloudWatchMetricsElem)
    (rest : List EmfFormatJsonAwsCloudWatchMetricsElem)
    (before after : List EmfFormatJsonAwsCloudWatchMetricsElemMetricsElem)
    (mj mj1 : EmfFormatJsonAwsCloudWatchMetricsElemMetricsElem)
    (h : ml.emf.Aws.CloudWatchMetrics = directive :: rest)
    (hns : 1 ≤ len directive.Namespace ∧ len directive.Namespace ≤ 1024)
    (hdims : 1 ≤ directive.Dimensions.length)
    (hne : ∀ dimSet ∈ directive.Dimensions, dimSet ≠ [])
    (hm : directive.Metrics = before ++ mj :: mj1 :: after)
    (hbefore : ∀ m ∈ before, validateMetric ml.metrics m = none) :
    validateMetrics ml.metrics directive.Metrics = firstError (metricChecks ml.metrics
      directive.Metrics) ∧
    validateMetric ml.metrics mj = firstError [metricNameCheck mj,
      metricValueCheck ml.metrics mj, unitCheck mj, resolutionCheck mj] ∧
    (∀ err, validateMetric ml.metrics mj = some err → Validate ml = some (some err)) ∧
    (metricNameCheck mj = none → metricValueCheck ml.metrics mj = none →
      ∀ u, mj.Unit = some u → u ∉ Units →
        Validate ml = some (some (Error.invalidUnit u mj.Name))) ∧
    (metricNameCheck mj = none → metricValueCheck ml.metrics mj = none →
      unitCheck mj = none → ∀ r, mj.StorageResolution = some r → ¬ (r = 1 ∨ r = 60) →
        Validate ml = some (some (Error.invalidStorageResolution mj.Name))) := by
  have hkey : ∀ err, validateMetric ml.metrics mj = some err →
      Validate ml = some (some err) := by
    intro err herr
    apply validate_of_metric_error ml directive rest err h hns hdims hne
    rw [hm, validateMetrics_append, (validateMetrics_eq_none_iff _ _).2 hbefore]
    simp [validateMetrics, herr]
  refine ⟨(firstError_metricChecks _ _).symm, (firstError_metricCheck _ _).symm, hkey, ?_, ?_⟩
  · intro hn hv u hu hbad
    apply hkey
    rw [← firstError_metricCheck, hn, hv]
    simp [firstError, unitCheck, hu, hbad]
  · intro hn hv hunit r hr hbad
    apply hkey
    rw [← firstError_metricCheck, hn, hv, hunit]
    simp [firstError, resolutionCheck, hr, hbad]

/-- C29 at a log whose second metric "J" fails only its storage-resolution
check and whose third metric has an empty name: Validate returns the error of
"J"; and a metric with an invalid unit and an invalid resolution gets the
invalid-unit error. -/
theorem metric_checks_in_order_witness :
    Validate metricOrderLog = some (some (Error.invalidStorageResolution "J")) ∧
    validateMetric metricOrderLog.metrics
      { Name := "", Unit := some "Count", StorageResolution := none }
      = some (Error.metricNameTooShort "") ∧
    validateMetric metricOrderLog.metrics
      { Name := "J", Unit := some "InvalidUnit", StorageResolution := some 30 }
      = some (Error.invalidUnit "InvalidUnit" "J") ∧
    (validateMetrics metricOrderLog.metrics metricOrderDirective.Metrics
      = firstError (metricChecks metricOrderLog.metrics metricOrderDirective.Metrics) ∧
    validateMetric metricOrderLog.metrics
        { Name := "J", Unit := some "Count", StorageResolution := some 30 }
      = firstError [metricNameCheck { Name := "J", Unit := some "Count",
                                      StorageResolution := some 30 },
          metricValueCheck metricOrderLog.metrics
            { Name := "J", Unit := some "Count", StorageResolution := some 30 },
          unitCheck { Name := "J", Unit := some "Count", StorageResolution := some 30 },
          resolutionCheck { Name := "J", Unit := some "Count",
                            StorageResolution := some 30 }] ∧
    (∀ err, validateMetric metricOrderLog.metrics
        { Name := "J", Unit := some "Count", StorageResolution := some 30 } = some err →
      Validate metricOrderLog = some (some err)) ∧
    (metricNameCheck { Name := "J", Unit := some "Count", StorageResolution := some 30 }
        = none →
      metricValueCheck metricOrderLog.metrics
        { Name := "J", Unit := some "Count", StorageResolution := some 30 } = none →
      ∀ u, (some "Count" : Option String) = some u → u ∉ Units →
        Validate metricOrderLog = some (some (Error.invalidUnit u "J"))) ∧
    (metricNameCheck { Name := "J", Unit := some "Count", StorageResolution := some 30 }
        = none →
      metricValueCheck metricOrderLog.metrics
        { Name := "J", Unit := some "Count", StorageResolution := some 30 } = none →
      unitCheck { Name := "J", Unit := some "Count", StorageResolution := some 30 } = none →
      ∀ r, (some 30 : Option Int) = some r → ¬ (r = 1 ∨ r = 60) →
        Validate metricOrderLog = some (some (Error.invalidStorageResolution "J")))) :=
  ⟨by decide, by decide, by decide,
    metric_checks_in_order metricOrderLog metricOrderDirective []
      [{ Name := "Count", Unit := some "Count", StorageResolution := none }] []
      { Name := "J", Unit := some "Count", StorageResolution := some 30 }
      { Name := "", Unit := some "Count", StorageResolution := none }
      rfl (by decide) (by decide) (by decide) rfl (by decide)⟩

theorem validateDimensionSets_append (metrics : ValueMap) (i : Nat)
    (xs ys : List (List String)) :
    validateDimensionSets metrics i (xs ++ ys) =
      match validateDimensionSets metrics i xs with
      | some err => some err
      | none => validateDimensionSets metrics (i + xs.length) ys := by
  induction xs generalizing i with
  | nil => cases h : validateDimensionSets metrics i ys <;> simp [validateDimensionSets, h]
  | cons x rest ih =>
    simp only [List.cons_append, validateDimensionSets, List.length_cons]
    by_cases h1 : x.length > MaxDimensionSetSize
    · simp [h1]
    · simp only [h1, if_false]
      cases validateDimensionNames metrics x with
      | some err => rfl
      | none =>
        have hi : i + 1 + rest.length = i + (rest.length + 1) := by omega
        have hih := ih (i + 1)
        rw [hi] at hih
        exact hih

theorem validateDimensionNames_error_form (metrics : ValueMap) (dimSet : List String)
    (err : Error) (h : validateDimensionNames metrics dimSet = some err) :
    ∃ dim ∈ dimSet, (err = Error.dimensionNameTooLong dim ∧ 250 < len dim) ∨
      (err = Error.dimensionValueMissing dim ∧ dim ∉ metrics) := by
  induction dimSet with
  | nil => simp [validateDimensionNames] at h
  | cons d rest ih =>
    unfold validateDimensionNames at h
    simp only [MaxDimensionNameLength] at h
    by_cases h1 : len d > 250
    · simp only [h1, if_true, Option.some.injEq] at h
      exact ⟨d, List.mem_cons_self _ _, Or.inl ⟨h.symm, h1⟩⟩
    · by_cases h2 : (metrics.lookup d).isNone = true
      · simp only [h1, if_false, h2, if_true, Option.some.injEq] at h
        exact ⟨d, List.mem_cons_self _ _, Or.inr ⟨h.symm, (lookup_isNone_iff _ _).1 h2⟩⟩
      · simp only [h1, if_false, h2] at h
        obtain ⟨dim, hdim, hform⟩ := ih h
        exact ⟨dim, List.mem_cons_of_mem _ hdim, hform⟩

theorem validateDimensionSets_error_form (metrics : ValueMap) (i : Nat)
    (sets : List (List String)) (err : Error)
    (h : validateDimensionSets metrics i sets = some err) :
    (∃ k, i ≤ k ∧ k < i + sets.length ∧ err = Error.dimensionSetTooLarge k) ∨
    (∃ dim, err = Error.dimensionNameTooLong dim) ∨
    (∃ dim, err = Error.dimensionValueMissing dim) := by
  induction sets generalizing i with
  | nil => simp [validateDimensionSets] at h
  | cons s rest ih =>
    unfold validateDimensionSets at h
    by_cases h1 : s.length > MaxDimensionSetSize
    · simp only [h1, if_true, Option.some.injEq] at h
      exact Or.inl ⟨i, Nat.le_refl i, by simp, h.symm⟩
    · simp only [h1, if_false] at h
      cases hn : validateDimensionNames metrics s with
      | some e =>
        rw [hn] at h
        have he : e = err := Option.some.inj h
        obtain ⟨dim, _, hform⟩ := validateDimensionNames_error_form metrics s e hn
        rcases hform with ⟨hf, _⟩ | ⟨hf, _⟩
        · exact Or.inr (Or.inl ⟨dim, by rw [← he, hf]⟩)
        · exact Or.inr (Or.inr ⟨dim, by rw [← he, hf]⟩)
      | none =>
        rw [hn] at h
        rcases ih (i + 1) h with ⟨k, hk1, hk2, hk3⟩ | hname | hvalue
        · exact Or.inl ⟨k, by omega, by simp only [List.length_cons]; omega, hk3⟩
        · exact Or.inr (Or.inl hname)
        · exact Or.inr (Or.inr hvalue)

/-- C30: for a log that passes checks 1 to 5, when dimension set i has at most
30 entries and contains a name longer than 250 or a name without value, and a
later set j has more than 30 entries: Validate fails, its error is decided by
the sets up to i alone and is not the dimension-set-too-large error for set j;
when the sets before i pass their checks, the error is the name-length or
value-missing error of a name of set i; and a set with more than 30 entries is
reported before any of its entries is examined. -/
theorem dimension_size_check_interleaved (ml : MetricLog)
    (directive : EmfFormatJsonAwsCloudWatchMetricsElem)
    (rest : List EmfFormatJsonAwsCloudWatchMetricsElem)
    (before between after : List (List String)) (si sj : List String)
    (h : ml.emf.Aws.CloudWatchMetrics = directive :: rest)
    (hpass : firstError ([namespaceCheck directive, metricsExistCheck directive,
        dimensionSetsExistCheck directive] ++ emptySetChecks 0 directive.Dimensions
        ++ metricChecks ml.metrics directive.Metrics) = none)
    (hd : directive.Dimensions = before ++ si :: between ++ sj :: after)
    (hsi : si.length ≤ 30)
    (hbad : ∃ dim ∈ si, 250 < len dim ∨ dim ∉ ml.metrics)
    (hsj : 30 < sj.length) :
    Validate ml = some (validateDimensionSets ml.metrics 0 (before ++ [si])) ∧
    (∃ err, Validate ml = some (some err) ∧
      err ≠ Error.dimensionSetTooLarge (before.length + 1 + between.length)) ∧
    ((∀ dimSet ∈ before, dimSet.length ≤ 30 ∧
        ∀ dim ∈ dimSet, len dim ≤ 250 ∧ dim ∈ ml.metrics) →
      ∃ dim ∈ si,
        (Validate ml = some (some (Error.dimensionNameTooLong dim)) ∧ 250 < len dim) ∨
        (Validate ml = some (some (Error.dimensionValueMissing dim)) ∧ dim ∉ ml.metrics)) ∧
    (∀ (i : Nat) (others : List (List String)),
      validateDimensionSets ml.metrics i (sj :: others)
        = some (Error.dimensionSetTooLarge i)) := by
  have hv : Validate ml = some (validateDimensionSets ml.metrics 0 directive.Dimensions) := by
    rw [validate_isSome_of_directive ml directive rest h, validateDirective_eq_firstError]
    unfold orderedChecks
    rw [firstError_append, hpass, firstError_dimensionChecks]
  have hsi_names : validateDimensionNames ml.metrics si ≠ none := by
    intro hnone
    obtain ⟨dim, hdim, hb⟩ := hbad
    have hok := (validateDimensionNames_eq_none_iff _ _).1 hnone dim hdim
    rcases hb with hb | hb
    · omega
    · exact hb hok.2
  have hsi_size : ¬ si.length > MaxDimensionSetSize := by
    simp only [MaxDimensionSetSize]
    omega
  have hsplit : directive.Dimensions = (before ++ [si]) ++ (between ++ sj :: after) := by
    rw [hd]
    simp
  have hprefix : ∃ err, validateDimensionSets ml.metrics 0 (before ++ [si]) = some err := by
    rw [validateDimensionSets_append]
    cases validateDimensionSets ml.metrics 0 before with
    | some e => exact ⟨e, rfl⟩
    | none =>
      simp only [validateDimensionSets, hsi_size, if_false]
      cases hn : validateDimensionNames ml.metrics si with
      | some e => exact ⟨e, rfl⟩
      | none => exact absurd hn hsi_names
  obtain ⟨err, herr⟩ := hprefix
  have hv2 : Validate ml = some (validateDimensionSets ml.metrics 0 (before ++ [si])) := by
    rw [hv, hsplit, validateDimensionSets_append, herr]
  refine ⟨hv2, ⟨err, by rw [hv2, herr], ?_⟩, ?_, ?_⟩
  · intro heq
    rcases validateDimensionSets_error_form ml.metrics 0 (before ++ [si]) err herr with
      ⟨k, _, hk2, hk3⟩ | ⟨dim, hdim⟩ | ⟨dim, hdim⟩
    · rw [heq] at hk3
      have hk : before.length + 1 + between.length = k := by
        injection hk3
      simp only [List.length_append, List.length_singleton] at hk2
      omega
    · rw [heq] at hdim
      exact Error.noConfusion hdim
    · rw [heq] at hdim
      exact Error.noConfusion hdim
  · intro hbefore
    have hb : validateDimensionSets ml.metrics 0 before = none :=
      (validateDimensionSets_eq_none_iff _ 0 _).2 hbefore
    have herr2 : validateDimensionNames ml.metrics si = some err := by
      rw [validateDimensionSets_append, hb] at herr
      simp only [validateDimensionSets, hsi_size, if_false] at herr
      cases hn : validateDimensionNames ml.metrics si with
      | some e =>
        rw [hn] at herr
        exact herr
      | none => exact absurd hn hsi_names
    obtain ⟨dim, hdim, hform⟩ := validateDimensionNames_error_form ml.metrics si err herr2
    refine ⟨dim, hdim, ?_⟩
    rcases hform with ⟨hf, hlen⟩ | ⟨hf, hno⟩
    · exact Or.inl ⟨by rw [hv2, herr, hf], hlen⟩
    · exact Or.inr ⟨by rw [hv2, herr, hf], hno⟩
  · intro i others
    have hbig : sj.length > MaxDimensionSetSize := hsj
    simp [validateDimensionSets, hbig]

/-- C30 at the log whose set 1 names a dimension without value and whose set 3
has 31 names: Validate returns the value-missing error of set 1. -/
theorem dimension_size_check_interleaved_witness :
    Validate interleavedLog = some (some (Error.dimensionValueMissing "NoValue")) ∧
    interleavedDirective.Dimensions
      = [["Service"]] ++ ["NoValue"] :: [["Service"]] ++ dimensionNames 31 :: [] ∧
    (Validate interleavedLog
      = some (validateDimensionSets interleavedLog.metrics 0 ([["Service"]] ++ [["NoValue"]])) ∧
    (∃ err, Validate interleavedLog = some (some err) ∧
      err ≠ Error.dimensionSetTooLarge ([["Service"]].length + 1 + [["Service"]].length)) ∧
    ((∀ dimSet ∈ [["Service"]], dimSet.length ≤ 30 ∧
        ∀ dim ∈ dimSet, len dim ≤ 250 ∧ dim ∈ interleavedLog.metrics) →
      ∃ dim ∈ ["NoValue"],
        (Validate interleavedLog = some (some (Error.dimensionNameTooLong dim)) ∧
          250 < len dim) ∨
        (Validate interleavedLog = some (some (Error.dimensionValueMissing dim)) ∧
          dim ∉ interleavedLog.metrics)) ∧
    (∀ (i : Nat) (others : List (List String)),
      validateDimensionSets interleavedLog.metrics i (dimensionNames 31 :: others)
        = some (Error.dimensionSetTooLarge i))) :=
  ⟨by decide, rfl,
    dimension_size_check_interleaved interleavedLog interleavedDirective []
      [["Service"]] [["Service"]] [] ["NoValue"] (dimensionNames 31) rfl (by decide) rfl
      (by decide) ⟨"NoValue", by decide, Or.inr (by decide)⟩ (by decide)⟩

/-! ## Messages and kinds -/

theorem message_prefix (err : Error) : err.kind.messagePrefix.data <+: err.message.data := by
  cases err with
  | namespaceTooShort => decide
  | namespaceTooLong => decide
  | noMetrics => decide
  | noDimensionSets => decide
  | jsonUnsupported => decide
  | emptyDimensionSet i =>
    simp only [Error.message, Error.kind, Kind.messagePrefix, String.data_append,
      List.append_assoc]
    exact List.prefix_append _ _
  | metricNameTooShort name =>
    simp only [Error.message, Error.kind, Kind.messagePrefix, String.data_append,
      List.append_assoc]
    exact List.prefix_append _ _
  | metricNameTooLong name =>
    simp only [Error.message, Error.kind, Kind.messagePrefix, String.data_append,
      List.append_assoc]
    exact List.prefix_append _ _
  | metricValueMissing name =>
    simp only [Error.message, Error.kind, Kind.messagePrefix, String.data_append,
      List.append_assoc]
    exact List.prefix_append _ _
  | invalidUnit unit name =>
    simp only [Error.message, Error.kind, Kind.messagePrefix, String.data_append,
      List.append_assoc]
    exact List.prefix_append _ _
  | invalidStorageResolution name =>
    simp only [Error.message, Error.kind, Kind.messagePrefix, String.data_append,
      List.append_assoc]
    exact List.prefix_append _ _
  | dimensionSetTooLarge i =>
    simp only [Error.message, Error.kind, Kind.messagePrefix, String.data_append,
      List.append_assoc]
    exact List.prefix_append _ _
  | dimensionNameTooLong dim =>
    simp only [Error.message, Error.kind, Kind.messagePrefix, String.data_append,
      List.append_assoc]
    exact List.prefix_append _ _
  | dimensionValueMissing dim =>
    simp only [Error.message, Error.kind, Kind.messagePrefix, String.data_append,
      List.append_assoc]
    exact List.prefix_append _ _

theorem message_suffix (err : Error) : err.kind.messageSuffix.data <:+ err.message.data := by
  cases err with
  | emptyDimensionSet i =>
    simp only [Error.message, Error.kind, Kind.messageSuffix, String.data_append]
    exact List.suffix_append _ _
  | dimensionSetTooLarge i =>
    have hend : (" exceeds maximum size of " ++ toString MaxDimensionSetSize)
        = " exceeds maximum size of 30" := by decide
    have hmsg : (Error.dimensionSetTooLarge i).message
        = ("dimension set " ++ toString i) ++ " exceeds maximum size of 30" := by
      simp only [Error.message]
      rw [String.append_assoc, hend]
    rw [hmsg]
    simp only [Error.kind, Kind.messageSuffix, String.data_append]
    exact List.suffix_append _ _
  | _ => exact List.nil_suffix

theorem kinds_incompatible (k1 k2 : Kind) (h : k1 ≠ k2) : k1.compatible k2 = false := by
  cases k1 <;> cases k2 <;> first | exact absurd rfl h | decide

theorem message_ne_of_kind_ne (e1 e2 : Error) (hk : e1.kind ≠ e2.kind) :
    e1.message ≠ e2.message := by
  intro heq
  have hp1 := message_prefix e1
  have hp2 := message_prefix e2
  have hs1 := message_suffix e1
  have hs2 := message_suffix e2
  rw [← heq] at hp2 hs2
  have hc : e1.kind.compatible e2.kind = true := by
    unfold Kind.compatible
    exact decide_eq_true ⟨List.prefix_or_prefix_of_prefix hp1 hp2,
      List.suffix_or_suffix_of_suffix hs1 hs2⟩
  rw [kinds_incompatible _ _ hk] at hc
  exact Bool.noConfusion hc

theorem checkNoEmptySet_error_form (i : Nat) (sets : List (List String)) (err : Error)
    (h : checkNoEmptySet i sets = some err) : ∃ k, err = Error.emptyDimensionSet k := by
  induction sets generalizing i with
  | nil => simp [checkNoEmptySet] at h
  | cons s rest ih =>
    unfold checkNoEmptySet at h
    by_cases hs : s.length = 0
    · simp only [hs, if_true, Option.some.injEq] at h
      exact ⟨i, h.symm⟩
    · simp only [hs, if_false] at h
      exact ih (i + 1) h

/-- Every error Validate returns is of one of the eleven kinds of the
specification. -/
theorem validateDirective_error_kind (metrics : ValueMap)
    (directive : EmfFormatJsonAwsCloudWatchMetricsElem) (err : Error)
    (h : validateDirective metrics directive = some err) : err.kind ≠ Kind.encoding := by
  unfold validateDirective at h
  by_cases h1 : len directive.Namespace < MinNamespaceLength
  · simp only [h1, if_true, Option.some.injEq] at h
    rw [← h]; simp [Error.kind]
  by_cases h2 : len directive.Namespace > MaxNamespaceLength
  · simp only [h1, if_false, h2, if_true, Option.some.injEq] at h
    rw [← h]; simp [Error.kind]
  by_cases h3 : directive.Metrics.length = 0
  · simp only [h1, if_false, h2, h3, if_true, Option.some.injEq] at h
    rw [← h]; simp [Error.kind]
  by_cases h4 : directive.Dimensions.length < MinDimensions
  · simp only [h1, if_false, h2, h3, h4, if_true, Option.some.injEq] at h
    rw [← h]; simp [Error.kind]
  simp only [h1, h2, h3, h4, if_false] at h
  cases he : checkNoEmptySet 0 directive.Dimensions with
  | some e =>
    rw [he] at h
    obtain ⟨k, hk⟩ := checkNoEmptySet_error_form 0 _ e he
    rw [← Option.some.inj h, hk]
    simp [Error.kind]
  | none =>
    rw [he] at h
    cases hm : validateMetrics metrics directive.Metrics with
    | some e =>
      rw [hm] at h
      have hfail : ∃ metric ∈ directive.Metrics, validateMetric metrics metric ≠ none := by
        by_contra hno
        push_neg at hno
        rw [(validateMetrics_eq_none_iff _ _).2 hno] at hm
        exact Option.noConfusion hm
      obtain ⟨_, metric, _, e1, _, _, herr, hres⟩ :=
        validateMetrics_first_failure metrics directive.Metrics hfail
      rw [hm] at hres
      have he1 : e = e1 := Option.some.inj hres
      rw [← Option.some.inj h, he1]
      rcases validateMetric_error_form metrics metric e1 herr with
        hf | hf | hf | ⟨u, _, hf⟩ | hf <;> rw [hf] <;> simp [Error.kind]
    | none =>
      rw [hm] at h
      rcases validateDimensionSets_error_form metrics 0 _ err h with
        ⟨k, _, _, hf⟩ | ⟨dim, hf⟩ | ⟨dim, hf⟩ <;> rw [hf] <;> simp [Error.kind]

/-- C25: when Validate fails on two logs at checks of different kinds, the two
error messages are different strings, whatever names, units and indices they
embed; and each of the two errors is of one of the eleven kinds. -/
theorem message_determines_kind (ml1 ml2 : MetricLog) (e1 e2 : Error)
    (h1 : Validate ml1 = some (some e1)) (h2 : Validate ml2 = some (some e2))
    (hk : e1.kind ≠ e2.kind) :
    e1.message ≠ e2.message ∧ e1.kind ≠ Kind.encoding ∧ e2.kind ≠ Kind.encoding := by
  have hform : ∀ (ml : MetricLog) (e : Error), Validate ml = some (some e) →
      e.kind ≠ Kind.encoding := by
    intro ml e hv
    unfold Validate at hv
    cases hc : ml.emf.Aws.CloudWatchMetrics with
    | nil => rw [hc] at hv; exact Option.noConfusion hv
    | cons d rest =>
      rw [hc] at hv
      exact validateDirective_error_kind ml.metrics d e (Option.some.inj hv)
  exact ⟨message_ne_of_kind_ne e1 e2 hk, hform ml1 e1 h1, hform ml2 e2 h2⟩

/-- C25 at the log whose dimension has no value and the log whose unit is
invalid. -/
theorem message_determines_kind_witness :
    Validate missingValueLog = some (some (Error.dimensionValueMissing "Service")) ∧
    Validate invalidUnitLog = some (some (Error.invalidUnit "InvalidUnit" "Count")) ∧
    (Error.dimensionValueMissing "Service").kind
      ≠ (Error.invalidUnit "InvalidUnit" "Count").kind ∧
    ((Error.dimensionValueMissing "Service").message
        ≠ (Error.invalidUnit "InvalidUnit" "Count").message ∧
      (Error.dimensionValueMissing "Service").kind ≠ Kind.encoding ∧
      (Error.invalidUnit "InvalidUnit" "Count").kind ≠ Kind.encoding) :=
  ⟨by decide, by decide, by decide,
    message_determines_kind missingValueLog invalidUnitLog _ _ (by decide) (by decide)
      (by decide)⟩

/-! ## The emitted document and the generated decoder -/

/-- C24, the code at the failing inputs: the document of the minimal valid log
decodes to the structural side of the log; but the log with the namespace
"a\nb" passes Validate and its document is rejected by the decoder, the
namespace not matching `^(.*)$`; and the document of the log with the flat key
"_aws" is rejected as well, its "_aws" member being a string. -/
theorem emitted_document_rejected_by_decoder :
    MarshalJSON minimalLog = some (some minimalDocument, none) ∧
    decodeEmfFormatJson minimalDocument = .ok minimalLog.emf ∧
    applyOps (NewMetricLog "a\nb" 1700000000000)
      [Op.putDimension "Service" "API", Op.withDimensionSet ["Service"],
       Op.putMetric "Count" (Value.int 1) "Count"] = some newlineLog ∧
    Validate newlineLog = some none ∧
    MarshalJSON newlineLog = some (some newlineDocument, none) ∧
    decodeEmfFormatJson newlineDocument
      = .error (DecodeError.patternMatch "^(.*)$" "Namespace") ∧
    Validate shadowedLog = some none ∧
    MarshalJSON shadowedLog =
      some (some (Json.obj [("Count", Json.int 1), ("Service", Json.str "API"),
        ("_aws", Json.str "x")]), none) ∧
    decodeEmfFormatJson (Json.obj [("Count", Json.int 1), ("Service", Json.str "API"),
        ("_aws", Json.str "x")]) = .error DecodeError.unmarshal :=
  ⟨rfl, rfl, rfl, by decide, rfl, rfl, by decide, rfl, rfl⟩

/-! ## Logs made by public calls -/

/-- One call on a log with a first directive: it succeeds and appends to that
directive, leaving the directives behind it alone. -/
theorem apply_directive_cons (ml : MetricLog) (op : Op)
    (directive : EmfFormatJsonAwsCloudWatchMetricsElem)
    (rest : List EmfFormatJsonAwsCloudWatchMetricsElem)
    (h : ml.emf.Aws.CloudWatchMetrics = directive :: rest) :
    ∃ ml1, op.apply ml = some ml1 ∧
      ml1.emf.Aws.CloudWatchMetrics =
        { Dimensions := directive.Dimensions ++ op.addedDimensionSet.toList
          Metrics := directive.Metrics ++ op.addedMetric.toList
          Namespace := directive.Namespace } :: rest ∧
      ml1.emf.Aws.Timestamp = ml.emf.Aws.Timestamp := by
  cases op with
  | putDimension key value =>
    exact ⟨_, rfl, by simp [PutDimension, h, Op.addedDimensionSet, Op.addedMetric], rfl⟩
  | withDimensionSet dimensions =>
    exact ⟨_, withDimensionSet_eq ml dimensions directive rest h,
      by simp [Op.addedDimensionSet, Op.addedMetric], rfl⟩
  | putMetric name value unit =>
    exact ⟨_, putMetric_eq ml name value unit directive rest h,
      by simp [Op.addedDimensionSet, Op.addedMetric], rfl⟩
  | putMetricWithResolution name value unit resolution =>
    exact ⟨_, putMetricWithResolution_eq ml name value unit resolution directive rest h,
      by simp [Op.addedDimensionSet, Op.addedMetric], rfl⟩
  | dimension key value =>
    exact ⟨_, rfl, by
      simp [MetricLogBuilder.Build, MetricLogBuilder.Dimension, Builder, NewMetricLogBuilder,
        PutDimension, h, Op.addedDimensionSet, Op.addedMetric], rfl⟩
  | dimensionSet dimensions =>
    rw [apply_dimensionSet]
    exact ⟨_, withDimensionSet_eq ml dimensions directive rest h,
      by simp [Op.addedDimensionSet, Op.addedMetric], rfl⟩
  | metric name value unit =>
    rw [apply_metric]
    exact ⟨_, putMetric_eq ml name value unit directive rest h,
      by simp [Op.addedDimensionSet, Op.addedMetric], rfl⟩
  | metricWithResolution name value unit resolution =>
    rw [apply_metricWithResolution]
    exact ⟨_, putMetricWithResolution_eq ml name value unit resolution directive rest h,
      by simp [Op.addedDimensionSet, Op.addedMetric], rfl⟩
  | property key value =>
    exact ⟨_, rfl, by
      simp [MetricLogBuilder.Build, MetricLogBuilder.Property, Builder, NewMetricLogBuilder,
        h, Op.addedDimensionSet, Op.addedMetric], rfl⟩

/-- A sequence of calls on a log with a first directive. -/
theorem applyOps_directive_cons (ops : List Op) (ml : MetricLog)
    (directive : EmfFormatJsonAwsCloudWatchMetricsElem)
    (rest : List EmfFormatJsonAwsCloudWatchMetricsElem)
    (h : ml.emf.Aws.CloudWatchMetrics = directive :: rest) :
    ∃ ml1, applyOps ml ops = some ml1 ∧
      ml1.emf.Aws.CloudWatchMetrics =
        { Dimensions := directive.Dimensions ++ ops.filterMap Op.addedDimensionSet
          Metrics := directive.Metrics ++ ops.filterMap Op.addedMetric
          Namespace := directive.Namespace } :: rest ∧
      ml1.emf.Aws.Timestamp = ml.emf.Aws.Timestamp := by
  induction ops generalizing ml directive with
  | nil => exact ⟨ml, rfl, by simp [h], rfl⟩
  | cons op ops ih =>
    obtain ⟨ml1, h1, hd1, ht1⟩ := apply_directive_cons ml op directive rest h
    obtain ⟨ml2, h2, hd2, ht2⟩ := ih ml1 _ hd1
    refine ⟨ml2, by simp [applyOps, h1, h2], ?_, by rw [ht2, ht1]⟩
    rw [hd2]
    cases hds : op.addedDimensionSet <;> cases hm : op.addedMetric <;>
      simp [List.filterMap_cons, hds, hm]

theorem addedMetric_written (op : Op) (m : EmfFormatJsonAwsCloudWatchMetricsElemMetricsElem)
    (h : op.addedMetric = some m) : ∃ v, op.written = some (m.Name, v) := by
  cases op <;> simp [Op.addedMetric] at h <;> subst h <;> exact ⟨_, rfl⟩

/-- On a log made by public mutation calls every metric name has a flat value. -/
theorem reachable_metric_names (ns : String) (timestamp : Int) (ops : List Op) (ml : MetricLog)
    (hml : applyOps (NewMetricLog ns timestamp) ops = some ml) :
    ∃ directive, ml.emf.Aws.CloudWatchMetrics = [directive] ∧
      ∀ metric ∈ directive.Metrics, metric.Name ∈ ml.metrics := by
  obtain ⟨ml1, hml1, hd, _⟩ := applyOps_directive ops (NewMetricLog ns timestamp)
    { Namespace := ns, Dimensions := [], Metrics := [] } rfl
  rw [hml] at hml1
  simp only [Option.some.injEq] at hml1
  subst hml1
  refine ⟨_, hd, ?_⟩
  intro metric hmem
  simp only [List.nil_append] at hmem
  obtain ⟨op, hop, hadd⟩ := List.mem_filterMap.1 hmem
  obtain ⟨v, hv⟩ := addedMetric_written op metric hadd
  exact (applyOps_mem_metrics ops _ ml hml metric.Name).2 (Or.inr ⟨op, hop, v, hv⟩)

theorem validateMetrics_valueMissing (metrics : ValueMap)
    (ms : List EmfFormatJsonAwsCloudWatchMetricsElemMetricsElem) (name : String)
    (h : validateMetrics metrics ms = some (Error.metricValueMissing name)) :
    ∃ m ∈ ms, m.Name = name ∧ name ∉ metrics := by
  induction ms with
  | nil => simp [validateMetrics] at h
  | cons m rest ih =>
    simp only [validateMetrics] at h
    cases hm : validateMetric metrics m with
    | none =>
      rw [hm] at h
      obtain ⟨m1, hm1, hn⟩ := ih h
      exact ⟨m1, List.mem_cons_of_mem _ hm1, hn⟩
    | some err =>
      rw [hm] at h
      simp only [Option.some.injEq] at h
      subst h
      refine ⟨m, List.mem_cons_self _ _, ?_⟩
      unfold validateMetric at hm
      split_ifs at hm with h1 h2 h3
      · simp at hm
      · simp at hm
      · simp only [Option.some.injEq, Error.metricValueMissing.injEq] at hm
        subst hm
        exact ⟨rfl, (lookup_isNone_iff _ _).1 h3⟩
      · exfalso
        revert hm
        cases m.Unit with
        | none =>
          cases m.StorageResolution with
          | none => simp
          | some r => simp only []; split_ifs <;> simp
        | some u =>
          simp only []
          by_cases hu : unitRegexMatchString u = true
          · simp only [hu, Bool.not_true, Bool.false_eq_true, if_false]
            cases m.StorageResolution with
            | none => simp
            | some r => simp only []; split_ifs <;> simp
          · simp [hu]

theorem validateDirective_valueMissing (metrics : ValueMap)
    (directive : EmfFormatJsonAwsCloudWatchMetricsElem) (name : String)
    (h : validateDirective metrics directive = some (Error.metricValueMissing name)) :
    ∃ m ∈ directive.Metrics, m.Name = name ∧ name ∉ metrics := by
  unfold validateDirective at h
  split_ifs at h with h1 h2 h3 h4
  · simp at h
  · simp at h
  · simp at h
  · simp at h
  · cases hc : checkNoEmptySet 0 directive.Dimensions with
    | some err =>
      rw [hc] at h
      obtain ⟨k, hk⟩ := checkNoEmptySet_error_form _ _ _ hc
      simp only [Option.some.injEq] at h
      rw [hk] at h
      exact Error.noConfusion h
    | none =>
      rw [hc] at h
      cases hv : validateMetrics metrics directive.Metrics with
      | some err =>
        rw [hv] at h
        simp only [Option.some.injEq] at h
        subst h
        exact validateMetrics_valueMissing _ _ _ hv
      | none =>
        rw [hv] at h
        simp only [] at h
        rcases validateDimensionSets_error_form _ _ _ _ h with
          ⟨k, _, _, hk⟩ | ⟨d, hk⟩ | ⟨d, hk⟩ <;> exact Error.noConfusion hk

/-- C31: on every log made from NewMetricLog by a sequence of public mutation
calls (the four methods of MetricLog and the five of the builder), every metric
definition's name is a key of the flat value map, so neither Validate nor
MarshalJSON returns the error "metric '<name>' is defined but no value is
provided"; the log of the test, whose directive is edited directly, does get
that error. -/
theorem metric_names_have_values (ns : String) (timestamp : Int) (ops : List Op) :
    (∃ ml directive, applyOps (NewMetricLog ns timestamp) ops = some ml ∧
      ml.emf.Aws.CloudWatchMetrics = [directive] ∧
      (∀ metric ∈ directive.Metrics, metric.Name ∈ ml.metrics) ∧
      (∀ name, Validate ml ≠ some (some (Error.metricValueMissing name))) ∧
      (∀ name r, MarshalJSON ml ≠ some (r, some (Error.metricValueMissing name)))) ∧
    (directEditLog.bind Validate = some (some (Error.metricValueMissing "Latency")) ∧
      (Error.metricValueMissing "Latency").message
        = "metric 'Latency' is defined but no value is provided") := by
  refine ⟨?_, by decide, by decide⟩
  obtain ⟨ml, hml, _, _⟩ := applyOps_directive ops (NewMetricLog ns timestamp)
    { Namespace := ns, Dimensions := [], Metrics := [] } rfl
  obtain ⟨directive, hd, hnames⟩ := reachable_metric_names ns timestamp ops ml hml
  have hval : ∀ name, Validate ml ≠ some (some (Error.metricValueMissing name)) := by
    intro name hv
    rw [validate_isSome_of_directive ml _ [] hd] at hv
    simp only [Option.some.injEq] at hv
    obtain ⟨m, hm, hn, hnot⟩ := validateDirective_valueMissing _ _ _ hv
    exact hnot (hn ▸ hnames m hm)
  refine ⟨ml, directive, hml, hd, hnames, hval, ?_⟩
  intro name r hm
  unfold MarshalJSON at hm
  cases hv : Validate ml with
  | none => rw [hv] at hm; exact Option.noConfusion hm
  | some res =>
    cases res with
    | some err =>
      rw [hv] at hm
      simp only [Option.some.injEq, Prod.mk.injEq] at hm
      rw [hm.2] at hv
      exact hval name hv
    | none =>
      rw [hv] at hm
      simp only [Option.some.injEq] at hm
      unfold jsonMarshal at hm
      split at hm <;> simp at hm

/-- C32: every mutation call on a log with a first directive succeeds; the
dimension sets before the call are a prefix of those after it, the metric
definitions before are a prefix of those after, the namespace, the timestamp
and the other directives are unchanged, and every key of the flat value map
before is a key after; the same holds for every sequence of calls. -/
theorem mutations_append_only (ml : MetricLog)
    (directive : EmfFormatJsonAwsCloudWatchMetricsElem)
    (rest : List EmfFormatJsonAwsCloudWatchMetricsElem)
    (h : ml.emf.Aws.CloudWatchMetrics = directive :: rest) :
    (∀ op : Op, ∃ ml1 directive1, op.apply ml = some ml1 ∧
      ml1.emf.Aws.CloudWatchMetrics = directive1 :: rest ∧
      directive.Dimensions <+: directive1.Dimensions ∧
      directive.Metrics <+: directive1.Metrics ∧
      directive1.Dimensions.length ≤ directive.Dimensions.length + 1 ∧
      directive1.Metrics.length ≤ directive.Metrics.length + 1 ∧
      directive1.Namespace = directive.Namespace ∧
      ml1.emf.Aws.Timestamp = ml.emf.Aws.Timestamp ∧
      ∀ k, k ∈ ml.metrics → k ∈ ml1.metrics) ∧
    (∀ ops : List Op, ∃ ml1 directive1, applyOps ml ops = some ml1 ∧
      ml1.emf.Aws.CloudWatchMetrics = directive1 :: rest ∧
      directive.Dimensions <+: directive1.Dimensions ∧
      directive.Metrics <+: directive1.Metrics ∧
      directive1.Namespace = directive.Namespace ∧
      ml1.emf.Aws.Timestamp = ml.emf.Aws.Timestamp ∧
      ∀ k, k ∈ ml.metrics → k ∈ ml1.metrics) := by
  constructor
  · intro op
    obtain ⟨ml1, h1, hd1, ht1⟩ := apply_directive_cons ml op directive rest h
    refine ⟨ml1, _, h1, hd1, List.prefix_append _ _, List.prefix_append _ _, ?_, ?_, rfl, ht1, ?_⟩
    · cases op.addedDimensionSet <;> simp
    · cases op.addedMetric <;> simp
    · intro k hk
      have h2 : applyOps ml [op] = some ml1 := by simp [applyOps, h1]
      exact (applyOps_mem_metrics [op] ml ml1 h2 k).2 (Or.inl hk)
  · intro ops
    obtain ⟨ml1, h1, hd1, ht1⟩ := applyOps_directive_cons ops ml directive rest h
    exact ⟨ml1, _, h1, hd1, List.prefix_append _ _, List.prefix_append _ _, rfl, ht1,
      fun k hk => (applyOps_mem_metrics ops ml ml1 h1 k).2 (Or.inl hk)⟩

theorem mutations_append_only_witness :
    minimalLog.emf.Aws.CloudWatchMetrics = minimalDirective :: [] ∧
    (Op.putMetric "Latency" (Value.int 5) "Milliseconds").apply minimalLog
      = some { emf := { Aws := { CloudWatchMetrics := [nanDirective],
                                 Timestamp := 1700000000000 } },
               metrics := minimalLog.metrics.insert "Latency" (Value.int 5) } ∧
    ((∀ op : Op, ∃ ml1 directive1, op.apply minimalLog = some ml1 ∧
      ml1.emf.Aws.CloudWatchMetrics = directive1 :: [] ∧
      minimalDirective.Dimensions <+: directive1.Dimensions ∧
      minimalDirective.Metrics <+: directive1.Metrics ∧
      directive1.Dimensions.length ≤ minimalDirective.Dimensions.length + 1 ∧
      directive1.Metrics.length ≤ minimalDirective.Metrics.length + 1 ∧
      directive1.Namespace = minimalDirective.Namespace ∧
      ml1.emf.Aws.Timestamp = minimalLog.emf.Aws.Timestamp ∧
      ∀ k, k ∈ minimalLog.metrics → k ∈ ml1.metrics) ∧
    (∀ ops : List Op, ∃ ml1 directive1, applyOps minimalLog ops = some ml1 ∧
      ml1.emf.Aws.CloudWatchMetrics = directive1 :: [] ∧
      minimalDirective.Dimensions <+: directive1.Dimensions ∧
      minimalDirective.Metrics <+: directive1.Metrics ∧
      directive1.Namespace = minimalDirective.Namespace ∧
      ml1.emf.Aws.Timestamp = minimalLog.emf.Aws.Timestamp ∧
      ∀ k, k ∈ minimalLog.metrics → k ∈ ml1.metrics)) :=
  ⟨rfl, rfl, mutations_append_only minimalLog minimalDirective [] rfl⟩

/-- A structural violation of the first directive survives every sequence of
mutation calls. -/
theorem structural_violation_persists (ml : MetricLog)
    (directive : EmfFormatJsonAwsCloudWatchMetricsElem)
    (rest : List EmfFormatJsonAwsCloudWatchMetricsElem)
    (h : ml.emf.Aws.CloudWatchMetrics = directive :: rest)
    (hviol : len directive.Namespace < 1 ∨ 1024 < len directive.Namespace ∨
      (∃ dimSet ∈ directive.Dimensions,
        dimSet = [] ∨ 30 < dimSet.length ∨ ∃ dim ∈ dimSet, 250 < len dim) ∨
      (∃ metric ∈ directive.Metrics,
        len metric.Name < 1 ∨ 1024 < len metric.Name ∨
        (∃ u, metric.Unit = some u ∧ u ∉ Units) ∨
        (∃ r, metric.StorageResolution = some r ∧ r ≠ 1 ∧ r ≠ 60)))
    (ops : List Op) :
    ∃ ml1 err, applyOps ml ops = some ml1 ∧ Validate ml1 = some (some err) ∧
      MarshalJSON ml1 = some (none, some err) := by
  obtain ⟨ml1, h1, hd1, _⟩ := applyOps_directive_cons ops ml directive rest h
  have hv := validate_isSome_of_directive ml1 _ rest hd1
  cases hres : validateDirective ml1.metrics
      { Dimensions := directive.Dimensions ++ ops.filterMap Op.addedDimensionSet
        Metrics := directive.Metrics ++ ops.filterMap Op.addedMetric
        Namespace := directive.Namespace } with
  | some err =>
    rw [hres] at hv
    refine ⟨ml1, err, h1, hv, ?_⟩
    unfold MarshalJSON
    rw [hv]
  | none =>
    exfalso
    obtain ⟨hns, _, _, hne, hmets, hdims⟩ := (validateDirective_eq_none_iff _ _).1 hres
    simp only at hns hne hmets hdims
    rcases hviol with hlt | hgt | ⟨dimSet, hmem, hset⟩ | ⟨metric, hmem, hmet⟩
    · omega
    · omega
    · have hmem1 : dimSet ∈ directive.Dimensions ++ ops.filterMap Op.addedDimensionSet :=
        List.mem_append_left _ hmem
      rcases hset with hempty | hlarge | ⟨dim, hdim, hlong⟩
      · exact hne dimSet hmem1 hempty
      · have := (hdims dimSet hmem1).1
        omega
      · have := ((hdims dimSet hmem1).2 dim hdim).1
        omega
    · have hmem1 : metric ∈ directive.Metrics ++ ops.filterMap Op.addedMetric :=
        List.mem_append_left _ hmem
      obtain ⟨⟨hlo, hhi, _⟩, hunit, hresn⟩ :=
        (validateMetric_eq_none_iff _ metric).1 (hmets metric hmem1)
      rcases hmet with hshort | hlong | ⟨u, hu, hnot⟩ | ⟨r, hr, hr1, hr60⟩
      · omega
      · omega
      · exact hnot (hunit u hu)
      · rcases hresn r hr with h1 | h60
        · exact hr1 h1
        · exact hr60 h60

/-- A metric definition that passes against one flat value map passes against
another, or fails there only for the missing value. -/
theorem validateMetric_of_valid_elsewhere (m1 m2 : ValueMap)
    (metric : EmfFormatJsonAwsCloudWatchMetricsElemMetricsElem)
    (h2 : validateMetric m2 metric = none) :
    validateMetric m1 metric = none ∨
      (validateMetric m1 metric = some (Error.metricValueMissing metric.Name) ∧
        metric.Name ∉ m1) := by
  obtain ⟨⟨hlo, hhi, _⟩, hunit, hres⟩ := (validateMetric_eq_none_iff m2 metric).1 h2
  by_cases hmem : metric.Name ∈ m1
  · exact Or.inl ((validateMetric_eq_none_iff m1 metric).2 ⟨⟨hlo, hhi, hmem⟩, hunit, hres⟩)
  · refine Or.inr ⟨?_, hmem⟩
    unfold validateMetric
    have hnone : (m1.lookup metric.Name).isNone = true := (lookup_isNone_iff _ _).2 hmem
    simp only [MinMetricNameLength, MaxMetricNameLength]
    rw [if_neg (by omega), if_neg (by omega), if_pos hnone]

/-- The error of the metric loop is the error of one of its metrics. -/
theorem validateMetrics_error_mem (metrics : ValueMap)
    (ms : List EmfFormatJsonAwsCloudWatchMetricsElemMetricsElem) (err : Error)
    (h : validateMetrics metrics ms = some err) :
    ∃ m ∈ ms, validateMetric metrics m = some err := by
  induction ms with
  | nil => simp [validateMetrics] at h
  | cons m rest ih =>
    simp only [validateMetrics] at h
    cases hm : validateMetric metrics m with
    | none =>
      rw [hm] at h
      obtain ⟨m1, hm1, hn⟩ := ih h
      exact ⟨m1, List.mem_cons_of_mem _ hm1, hn⟩
    | some e =>
      rw [hm] at h
      simp only [Option.some.injEq] at h
      subst h
      exact ⟨m, List.mem_cons_self _ _, hm⟩

/-- If a sequence of mutation calls repairs a log, the error Validate gave
before is one of the four that depend on counts or on the flat value map. -/
theorem repaired_error_form (ml : MetricLog)
    (directive : EmfFormatJsonAwsCloudWatchMetricsElem)
    (rest : List EmfFormatJsonAwsCloudWatchMetricsElem)
    (h : ml.emf.Aws.CloudWatchMetrics = directive :: rest)
    (ops : List Op) (ml1 : MetricLog) (err : Error)
    (hops : applyOps ml ops = some ml1)
    (hbefore : Validate ml = some (some err)) (hafter : Validate ml1 = some none) :
    err = Error.noMetrics ∨ err = Error.noDimensionSets ∨
      (∃ dim, err = Error.dimensionValueMissing dim ∧ dim ∉ ml.metrics) ∨
      (∃ metric ∈ directive.Metrics,
        err = Error.metricValueMissing metric.Name ∧ metric.Name ∉ ml.metrics) := by
  obtain ⟨ml2, h2, hd2, _⟩ := applyOps_directive_cons ops ml directive rest h
  rw [hops] at h2
  simp only [Option.some.injEq] at h2
  subst h2
  rw [validate_isSome_of_directive ml1 _ rest hd2] at hafter
  simp only [Option.some.injEq] at hafter
  obtain ⟨hns, _, _, hne, hmets, hdims⟩ := (validateDirective_eq_none_iff _ _).1 hafter
  simp only at hns hne hmets hdims
  rw [validate_isSome_of_directive ml _ rest h] at hbefore
  simp only [Option.some.injEq] at hbefore
  unfold validateDirective at hbefore
  simp only [MinNamespaceLength, MaxNamespaceLength, MinDimensions] at hbefore
  rw [if_neg (by omega), if_neg (by omega)] at hbefore
  split_ifs at hbefore with h3 h4
  · exact Or.inl (Option.some.inj hbefore).symm
  · exact Or.inr (Or.inl (Option.some.inj hbefore).symm)
  · have hc : checkNoEmptySet 0 directive.Dimensions = none :=
      (checkNoEmptySet_eq_none_iff 0 _).2
        (fun dimSet hmem => hne dimSet (List.mem_append_left _ hmem))
    rw [hc] at hbefore
    simp only at hbefore
    cases hvm : validateMetrics ml.metrics directive.Metrics with
    | some e =>
      rw [hvm] at hbefore
      simp only [Option.some.injEq] at hbefore
      subst hbefore
      obtain ⟨m, hm, hme⟩ := validateMetrics_error_mem _ _ _ hvm
      rcases validateMetric_of_valid_elsewhere ml.metrics ml1.metrics m
          (hmets m (List.mem_append_left _ hm)) with hnone | ⟨hmiss, hnot⟩
      · rw [hnone] at hme
        exact Option.noConfusion hme
      · rw [hmiss] at hme
        exact Or.inr (Or.inr (Or.inr ⟨m, hm, (Option.some.inj hme).symm, hnot⟩))
    | none =>
      rw [hvm] at hbefore
      simp only at hbefore
      rw [validateDimensionSets_eq_find ml.metrics 0 directive.Dimensions
        (fun dimSet hmem => (hdims dimSet (List.mem_append_left _ hmem)).1)
        (fun dimSet hmem dim hdim =>
          ((hdims dimSet (List.mem_append_left _ hmem)).2 dim hdim).1)] at hbefore
      cases hf : directive.Dimensions.flatten.find? (fun dim => decide (dim ∉ ml.metrics)) with
      | none => rw [hf] at hbefore; exact Option.noConfusion hbefore
      | some dim =>
        rw [hf] at hbefore
        have hp := List.find?_some hf
        simp only [decide_eq_true_eq] at hp
        exact Or.inr (Or.inr (Or.inl ⟨dim, (Option.some.inj hbefore).symm, hp⟩))

/-- C33: structural violations are permanent. If the first directive of a log
has a namespace of invalid length, an empty dimension set, a dimension set of
more than 30 entries, a dimension name longer than 250, a metric name of invalid
length, a metric with a unit outside the 27 units or a metric with a storage
resolution other than 1 and 60, then every sequence of public mutation calls
succeeds and leaves a log on which Validate returns an error and MarshalJSON
returns that error and no bytes; so it is after PutMetric with the empty unit.
Conversely, when a sequence of calls turns a failing log into a passing one, the
error before was "no metrics", "no dimension sets" or a missing dimension value;
a missing metric value is the only other possibility and it does not occur on a
log made from NewMetricLog by public calls. Each of the three is repaired by one
call on a concrete log. -/
theorem structural_violations_permanent (ml : MetricLog)
    (directive : EmfFormatJsonAwsCloudWatchMetricsElem)
    (rest : List EmfFormatJsonAwsCloudWatchMetricsElem)
    (h : ml.emf.Aws.CloudWatchMetrics = directive :: rest) :
    ((len directive.Namespace < 1 ∨ 1024 < len directive.Namespace ∨
      (∃ dimSet ∈ directive.Dimensions,
        dimSet = [] ∨ 30 < dimSet.length ∨ ∃ dim ∈ dimSet, 250 < len dim) ∨
      (∃ metric ∈ directive.Metrics,
        len metric.Name < 1 ∨ 1024 < len metric.Name ∨
        (∃ u, metric.Unit = some u ∧ u ∉ Units) ∨
        (∃ r, metric.StorageResolution = some r ∧ r ≠ 1 ∧ r ≠ 60))) →
      ∀ ops : List Op, ∃ ml1 err, applyOps ml ops = some ml1 ∧
        Validate ml1 = some (some err) ∧ MarshalJSON ml1 = some (none, some err)) ∧
    (∀ (name : String) (value : Value) (ops : List Op), ∃ ml1 err,
      applyOps ml (Op.putMetric name value "" :: ops) = some ml1 ∧
      Validate ml1 = some (some err) ∧ MarshalJSON ml1 = some (none, some err)) ∧
    (∀ (ops : List Op) (ml1 : MetricLog) (err : Error), applyOps ml ops = some ml1 →
      Validate ml = some (some err) → Validate ml1 = some none →
      err = Error.noMetrics ∨ err = Error.noDimensionSets ∨
        (∃ dim, err = Error.dimensionValueMissing dim) ∨
        ((∃ name, err = Error.metricValueMissing name) ∧
          ∀ ns timestamp ops0, applyOps (NewMetricLog ns timestamp) ops0 ≠ some ml)) ∧
    (Validate noMetricLog = some (some Error.noMetrics) ∧
      (PutMetric noMetricLog "Count" (Value.int 1) "Count").bind Validate = some none) ∧
    ((PutMetric (NewMetricLog "N" 1700000000000) "Count" (Value.int 1) "Count").bind Validate
        = some (some Error.noDimensionSets) ∧
      ((PutMetric (NewMetricLog "N" 1700000000000) "Count" (Value.int 1) "Count").bind
        (fun ml0 => WithDimensionSet ml0 ["Count"])).bind Validate = some none) ∧
    (Validate missingValueLog = some (some (Error.dimensionValueMissing "Service")) ∧
      Validate (PutDimension missingValueLog "Service" "API") = some none) := by
  refine ⟨fun hviol ops => structural_violation_persists ml directive rest h hviol ops,
    ?_, ?_, ⟨by decide, by decide⟩, ⟨by decide, by decide⟩, ⟨by decide, by decide⟩⟩
  · intro name value ops
    obtain ⟨ml0, h0, hd0, _⟩ := apply_directive_cons ml (Op.putMetric name value "") directive rest h
    obtain ⟨ml1, err, h1, hv, hm⟩ := structural_violation_persists ml0 _ rest hd0
      (Or.inr (Or.inr (Or.inr ⟨{ Name := name, Unit := some "", StorageResolution := none },
        by simp [Op.addedMetric], Or.inr (Or.inr (Or.inl ⟨"", rfl, by decide⟩))⟩))) ops
    exact ⟨ml1, err, by simp [applyOps, h0, h1], hv, hm⟩
  · intro ops ml1 err hops hbefore hafter
    rcases repaired_error_form ml directive rest h ops ml1 err hops hbefore hafter with
      he | he | ⟨dim, he, _⟩ | ⟨metric, hmem, he, hnot⟩
    · exact Or.inl he
    · exact Or.inr (Or.inl he)
    · exact Or.inr (Or.inr (Or.inl ⟨dim, he⟩))
    · refine Or.inr (Or.inr (Or.inr ⟨⟨_, he⟩, ?_⟩))
      intro ns timestamp ops0 hreach
      obtain ⟨d, hd, hnames⟩ := reachable_metric_names ns timestamp ops0 ml hreach
      rw [h] at hd
      simp only [List.cons.injEq] at hd
      obtain ⟨hd, _⟩ := hd
      subst hd
      exact hnot (hnames metric hmem)

theorem structural_violations_permanent_witness :
    invalidUnitLog.emf.Aws.CloudWatchMetrics
      = { Namespace := "N", Dimensions := [["Service"]],
          Metrics := [{ Name := "Count", Unit := some "InvalidUnit",
                        StorageResolution := none }] } :: [] ∧
    "InvalidUnit" ∉ Units ∧
    (applyOps invalidUnitLog
      [Op.putMetric "Count" (Value.int 2) "Count", Op.property "Count" (Value.int 3),
       Op.withDimensionSet ["Service"]]).bind Validate
      = some (some (Error.invalidUnit "InvalidUnit" "Count")) ∧
    ∀ ops : List Op, ∃ ml1 err, applyOps invalidUnitLog ops = some ml1 ∧
      Validate ml1 = some (some err) ∧ MarshalJSON ml1 = some (none, some err) :=
  ⟨rfl, by decide, by decide,
    (structural_violations_permanent invalidUnitLog
      { Namespace := "N", Dimensions := [["Service"]],
        Metrics := [{ Name := "Count", Unit := some "InvalidUnit",
                      StorageResolution := none }] } [] rfl).1
      (Or.inr (Or.inr (Or.inr ⟨{ Name := "Count", Unit := some "InvalidUnit",
                                 StorageResolution := none },
        List.mem_singleton.2 rfl, Or.inr (Or.inr (Or.inl ⟨"InvalidUnit", rfl, by decide⟩))⟩)))⟩

/-- C34: two logs whose first directives have the same namespace, the same
dimension sets and the same metric definitions, and whose flat value maps have
the same keys, get the same result from Validate: both succeed, or both fail
with the same error and so the same message, whatever the timestamps, the
values under the keys and the directives after the first. -/
theorem validate_depends_on_structure_and_keys (ml1 ml2 : MetricLog)
    (d1 d2 : EmfFormatJsonAwsCloudWatchMetricsElem)
    (rest1 rest2 : List EmfFormatJsonAwsCloudWatchMetricsElem)
    (h1 : ml1.emf.Aws.CloudWatchMetrics = d1 :: rest1)
    (h2 : ml2.emf.Aws.CloudWatchMetrics = d2 :: rest2)
    (hns : d1.Namespace = d2.Namespace) (hdims : d1.Dimensions = d2.Dimensions)
    (hmets : d1.Metrics = d2.Metrics)
    (hkeys : ∀ k, k ∈ ml1.metrics ↔ k ∈ ml2.metrics) :
    Validate ml1 = Validate ml2 ∧
    (∃ r, Validate ml1 = some r ∧ Validate ml2 = some r) ∧
    (Validate ml1 = some none ↔ Validate ml2 = some none) ∧
    (∀ e1 e2, Validate ml1 = some (some e1) → Validate ml2 = some (some e2) →
      e1 = e2 ∧ e1.message = e2.message) := by
  have hd : d1 = d2 := by
    cases d1; cases d2
    simp only at hns hdims hmets
    subst hns hdims hmets
    rfl
  subst hd
  have hv1 := validate_isSome_of_directive ml1 d1 rest1 h1
  have hv2 := validate_isSome_of_directive ml2 d1 rest2 h2
  have heq : Validate ml1 = Validate ml2 := by
    rw [hv1, hv2, validateDirective_congr ml1.metrics ml2.metrics
      (isNone_eq_of_mem_iff _ _ hkeys) d1]
  refine ⟨heq, ⟨_, hv1, by rw [← heq, hv1]⟩, by rw [heq], ?_⟩
  intro e1 e2 he1 he2
  rw [heq, he2] at he1
  simp only [Option.some.injEq] at he1
  subst he1
  exact ⟨rfl, rfl⟩

theorem validate_depends_on_structure_and_keys_witness :
    (otherMissingValueLog.emf.Aws.Timestamp ≠ missingValueLog.emf.Aws.Timestamp ∧
      otherMissingValueLog.metrics.lookup "M" ≠ missingValueLog.metrics.lookup "M" ∧
      Validate missingValueLog = some (some (Error.dimensionValueMissing "Service")) ∧
      Validate otherMissingValueLog = some (some (Error.dimensionValueMissing "Service"))) ∧
    (Validate minimalLog = some none ∧ Validate otherValuesLog = some none) ∧
    (Validate missingValueLog = Validate otherMissingValueLog ∧
      (∃ r, Validate missingValueLog = some r ∧ Validate otherMissingValueLog = some r) ∧
      (Validate missingValueLog = some none ↔ Validate otherMissingValueLog = some none) ∧
      (∀ e1 e2, Validate missingValueLog = some (some e1) →
        Validate otherMissingValueLog = some (some e2) → e1 = e2 ∧ e1.message = e2.message)) ∧
    (Validate minimalLog = Validate otherValuesLog ∧
      (∃ r, Validate minimalLog = some r ∧ Validate otherValuesLog = some r) ∧
      (Validate minimalLog = some none ↔ Validate otherValuesLog = some none) ∧
      (∀ e1 e2, Validate minimalLog = some (some e1) →
        Validate otherValuesLog = some (some e2) → e1 = e2 ∧ e1.message = e2.message)) :=
  ⟨⟨by decide, by decide, by decide, by decide⟩, ⟨by decide, by decide⟩,
    validate_depends_on_structure_and_keys missingValueLog otherMissingValueLog
      missingValueDirective missingValueDirective [] _ rfl rfl rfl rfl rfl
      (fun k => by
        simp only [missingValueLog, otherMissingValueLog, AList.mem_insert, AList.not_mem_empty]),
    validate_depends_on_structure_and_keys minimalLog otherValuesLog
      minimalDirective minimalDirective [] [] rfl rfl rfl rfl rfl
      (fun k => by
        simp only [minimalLog, otherValuesLog, AList.mem_insert, AList.not_mem_empty]
        tauto)⟩

/-- C35: the dimension-value check is satisfied by any entry of the flat value
map. For a namespace of 1 to 1024 bytes, a name m of 1 to 250 bytes, any value v
and a unit u among the 27 units, the log made by NewMetricLog(ns),
PutMetric(m, v, u), WithDimensionSet([m]) passes Validate although PutDimension
was never called; a key written by Property with a nil value counts as a
present dimension value; and without such an entry the same set is rejected
with the missing-value error. -/
theorem flat_entry_satisfies_dimension_check (ns m u : String) (v : Value) (timestamp : Int)
    (hns : 1 ≤ len ns ∧ len ns ≤ 1024) (hm : 1 ≤ len m ∧ len m ≤ 250) (hu : u ∈ Units) :
    (∃ ml, applyOps (NewMetricLog ns timestamp)
        [Op.putMetric m v u, Op.withDimensionSet [m]] = some ml ∧
      ml.emf.Aws.CloudWatchMetrics =
        [{ Namespace := ns, Dimensions := [[m]],
           Metrics := [{ Name := m, Unit := some u, StorageResolution := none }] }] ∧
      ml.metrics = (∅ : ValueMap).insert m v ∧
      Validate ml = some none) ∧
    (∀ k : String, len k ≤ 250 →
      ∃ ml, applyOps (NewMetricLog ns timestamp)
          [Op.property k Value.null, Op.withDimensionSet [k], Op.putMetric m v u] = some ml ∧
        ml.metrics.lookup k = some (if k = m then v else Value.null) ∧
        Validate ml = some none) ∧
    (∀ k : String, len k ≤ 250 → k ≠ m →
      (applyOps (NewMetricLog ns timestamp)
        [Op.withDimensionSet [k], Op.putMetric m v u]).bind Validate
        = some (some (Error.dimensionValueMissing k))) := by
  have hmet : ∀ metrics : ValueMap, m ∈ metrics →
      validateMetric metrics { Name := m, Unit := some u, StorageResolution := none } = none := by
    intro metrics hmem
    rw [validateMetric_eq_none_iff]
    refine ⟨⟨hm.1, ?_, hmem⟩, ?_, ?_⟩
    · show len m ≤ 1024
      omega
    · intro unit hunit
      simp only [Option.some.injEq] at hunit
      exact hunit ▸ hu
    · intro r hr
      exact Option.noConfusion hr
  have hvalid : ∀ (k : String) (metrics : ValueMap), len k ≤ 250 → k ∈ metrics → m ∈ metrics →
      validateDirective metrics
        { Namespace := ns, Dimensions := [[k]],
          Metrics := [{ Name := m, Unit := some u, StorageResolution := none }] } = none := by
    intro k metrics hk hkmem hmmem
    rw [validateDirective_eq_none_iff]
    refine ⟨hns, by simp, by simp, by simp, ?_, ?_⟩
    · intro metric hmem
      simp only [List.mem_singleton] at hmem
      subst hmem
      exact hmet _ hmmem
    · intro dimSet hmem
      simp only [List.mem_singleton] at hmem
      subst hmem
      refine ⟨by simp, ?_⟩
      intro dim hdim
      simp only [List.mem_singleton] at hdim
      subst hdim
      exact ⟨hk, hkmem⟩
  refine ⟨⟨{ emf := { Aws := { CloudWatchMetrics :=
                                 [{ Namespace := ns, Dimensions := [[m]],
                                    Metrics := [{ Name := m, Unit := some u,
                                                  StorageResolution := none }] }],
                               Timestamp := timestamp } },
             metrics := (∅ : ValueMap).insert m v }, rfl, rfl, rfl, ?_⟩, ?_, ?_⟩
  · rw [validate_isSome_of_directive _ _ [] rfl,
      hvalid m _ hm.2 ((AList.mem_insert _).2 (Or.inl rfl)) ((AList.mem_insert _).2 (Or.inl rfl))]
  · intro k hk
    refine ⟨{ emf := { Aws := { CloudWatchMetrics :=
                                  [{ Namespace := ns, Dimensions := [[k]],
                                     Metrics := [{ Name := m, Unit := some u,
                                                   StorageResolution := none }] }],
                                Timestamp := timestamp } },
              metrics := ((∅ : ValueMap).insert k Value.null).insert m v }, rfl, ?_, ?_⟩
    · show (((∅ : ValueMap).insert k Value.null).insert m v).lookup k = _
      by_cases hkm : k = m
      · subst hkm
        rw [AList.lookup_insert, if_pos rfl]
      · rw [AList.lookup_insert_ne hkm, AList.lookup_insert, if_neg hkm]
    · rw [validate_isSome_of_directive _ _ [] rfl,
        hvalid k _ hk ((AList.mem_insert _).2 (Or.inr ((AList.mem_insert _).2 (Or.inl rfl))))
          ((AList.mem_insert _).2 (Or.inl rfl))]
  · intro k hk hkm
    have hlog : applyOps (NewMetricLog ns timestamp)
        [Op.withDimensionSet [k], Op.putMetric m v u] =
        some { emf := { Aws := { CloudWatchMetrics :=
                                   [{ Namespace := ns, Dimensions := [[k]],
                                      Metrics := [{ Name := m, Unit := some u,
                                                    StorageResolution := none }] }],
                                 Timestamp := timestamp } },
               metrics := (∅ : ValueMap).insert m v } := rfl
    rw [hlog, Option.some_bind, validate_isSome_of_directive _ _ [] rfl]
    have hnot : k ∉ (∅ : ValueMap).insert m v := by
      simp only [AList.mem_insert, AList.not_mem_empty, or_false]
      exact hkm
    have hfind := validateDimensionSets_eq_find ((∅ : ValueMap).insert m v) 0 [[k]]
      (by simp) (by simp [hk])
    have hms : validateMetrics ((∅ : ValueMap).insert m v)
        [{ Name := m, Unit := some u, StorageResolution := none }] = none := by
      simp only [validateMetrics, hmet _ ((AList.mem_insert _).2 (Or.inl rfl))]
    have hds : validateDimensionSets ((∅ : ValueMap).insert m v) 0 [[k]]
        = some (Error.dimensionValueMissing k) := by
      have hdec : decide (k ∉ (∅ : ValueMap).insert m v) = true := decide_eq_true hnot
      rw [hfind]
      simp only [List.flatten, List.append_nil, List.find?, hdec, Option.map]
    unfold validateDirective
    dsimp only [MinNamespaceLength, MaxNamespaceLength, MinDimensions]
    rw [if_neg (by omega), if_neg (by omega), if_neg (by simp), if_neg (by simp), hms, hds]
    rfl

theorem flat_entry_satisfies_dimension_check_witness :
    (1 ≤ len "N" ∧ len "N" ≤ 1024) ∧ (1 ≤ len "Count" ∧ len "Count" ≤ 250) ∧
    "Count" ∈ Units ∧
    ((∃ ml, applyOps (NewMetricLog "N" 1700000000000)
        [Op.putMetric "Count" (Value.int 1) "Count", Op.withDimensionSet ["Count"]] = some ml ∧
      ml.emf.Aws.CloudWatchMetrics =
        [{ Namespace := "N", Dimensions := [["Count"]],
           Metrics := [{ Name := "Count", Unit := some "Count", StorageResolution := none }] }] ∧
      ml.metrics = (∅ : ValueMap).insert "Count" (Value.int 1) ∧
      Validate ml = some none) ∧
    (∀ k : String, len k ≤ 250 →
      ∃ ml, applyOps (NewMetricLog "N" 1700000000000)
          [Op.property k Value.null, Op.withDimensionSet [k],
           Op.putMetric "Count" (Value.int 1) "Count"] = some ml ∧
        ml.metrics.lookup k = some (if k = "Count" then Value.int 1 else Value.null) ∧
        Validate ml = some none) ∧
    (∀ k : String, len k ≤ 250 → k ≠ "Count" →
      (applyOps (NewMetricLog "N" 1700000000000)
        [Op.withDimensionSet [k], Op.putMetric "Count" (Value.int 1) "Count"]).bind Validate
        = some (some (Error.dimensionValueMissing k)))) :=
  ⟨by decide, by decide, by decide,
    flat_entry_satisfies_dimension_check "N" "Count" "Count" (Value.int 1) 1700000000000
      (by decide) (by decide) (by decide)⟩

/-- What `MarshalJSON` returns: a panic, an error without bytes, or an object
without error. -/
theorem marshalJSON_result_form (ml : MetricLog) :
    MarshalJSON ml = none ∨ (∃ err, MarshalJSON ml = some (none, some err)) ∨
      ∃ members, MarshalJSON ml = some (some (Json.obj members), none) := by
  unfold MarshalJSON
  cases hv : Validate ml with
  | none => exact Or.inl rfl
  | some res =>
    cases res with
    | some err => exact Or.inr (Or.inl ⟨err, rfl⟩)
    | none =>
      simp only
      unfold jsonMarshal
      cases encodeMembers ((combinedMap ml).entries.insertionSort
          (fun a b => keyLE a.1 b.1 = true)) with
      | some members => exact Or.inr (Or.inr ⟨members, rfl⟩)
      | none => exact Or.inr (Or.inl ⟨_, rfl⟩)

/-- The text of an object is a pair of braces around the text of its members. -/
theorem render_obj_data (floatText : Int → Int → String) (stringText : String → String)
    (members : List (String × Json)) :
    (Json.render floatText stringText (Json.obj members)).data
      = "\x7b".data ++ ((renderMembers floatText stringText members).data ++ "\x7d".data) := by
  rw [Json.render]
  simp [String.data_append]

/-- C36: String swallows the error. Whenever Validate returns an error, and
whenever MarshalJSON returns one, String returns the empty string; whenever
MarshalJSON returns bytes, String returns exactly their text, which is an object
in braces and so never empty; hence String returns the empty string if and only
if MarshalJSON returned an error, and on a log with a directive it always
returns. The text of floats and of strings is left to `floatText` and
`stringText`. -/
theorem string_empty_iff_serialization_failed (floatText : Int → Int → String)
    (stringText : String → String) (ml : MetricLog) :
    (∀ (text : Json → String) (err : Error),
      Validate ml = some (some err) → ml.String text = some "") ∧
    (∀ (text : Json → String) (err : Error),
      MarshalJSON ml = some (none, some err) → ml.String text = some "") ∧
    (∀ (text : Json → String) (doc : Json),
      MarshalJSON ml = some (some doc, none) → ml.String text = some (text doc)) ∧
    (∀ doc : Json, MarshalJSON ml = some (some doc, none) →
      Json.render floatText stringText doc ≠ "" ∧
      "\x7b".data <+: (Json.render floatText stringText doc).data ∧
      "\x7d".data <:+ (Json.render floatText stringText doc).data) ∧
    (ml.String (Json.render floatText stringText) = some "" ↔
      ∃ err, MarshalJSON ml = some (none, some err)) ∧
    (∀ directive rest, ml.emf.Aws.CloudWatchMetrics = directive :: rest →
      ∃ s, ml.String (Json.render floatText stringText) = some s) ∧
    minimalLog.String (Json.render floatText (fun s => "\"" ++ s ++ "\""))
      = some "\x7b\"Count\":1,\"Service\":\"API\",\"_aws\":\x7b\"CloudWatchMetrics\":[\x7b\"Dimensions\":[[\"Service\"]],\"Metrics\":[\x7b\"Name\":\"Count\",\"Unit\":\"Count\"\x7d],\"Namespace\":\"N\"\x7d],\"Timestamp\":1700000000000\x7d\x7d" ∧
    nanLog.String (Json.render floatText stringText) = some "" ∧
    missingValueLog.String (Json.render floatText stringText) = some "" := by
  have hne : ∀ members : List (String × Json),
      Json.render floatText stringText (Json.obj members) ≠ "" := by
    intro members hm
    have hd := render_obj_data floatText stringText members
    rw [hm] at hd
    exact List.noConfusion hd
  refine ⟨?_, ?_, ?_, ?_, ?_, ?_, rfl, rfl, rfl⟩
  · intro text err hv
    unfold MetricLog.String MarshalJSON
    rw [hv]
  · intro text err hm
    unfold MetricLog.String
    rw [hm]
  · intro text doc hm
    unfold MetricLog.String
    rw [hm]
  · intro doc hm
    rcases marshalJSON_result_form ml with h0 | ⟨err, h1⟩ | ⟨members, h2⟩
    · rw [h0] at hm; exact Option.noConfusion hm
    · rw [h1] at hm
      simp at hm
    · rw [h2] at hm
      simp only [Option.some.injEq, Prod.mk.injEq, and_true] at hm
      subst hm
      refine ⟨hne members, ?_, ?_⟩
      · rw [render_obj_data]
        exact ⟨_, rfl⟩
      · rw [render_obj_data, ← List.append_assoc]
        exact ⟨_, rfl⟩
  · rcases marshalJSON_result_form ml with h0 | ⟨err, h1⟩ | ⟨members, h2⟩
    · unfold MetricLog.String
      rw [h0]
      simp
    · unfold MetricLog.String
      rw [h1]
      simp
    · unfold MetricLog.String
      rw [h2]
      simp only [Option.some.injEq]
      constructor
      · intro h
        exact absurd h (hne members)
      · rintro ⟨err, h⟩
        simp at h
  · intro directive rest h
    rcases marshalJSON_result_form ml with h0 | ⟨err, h1⟩ | ⟨members, h2⟩
    · exfalso
      unfold MarshalJSON at h0
      rw [validate_isSome_of_directive ml directive rest h] at h0
      revert h0
      cases validateDirective ml.metrics directive <;> simp
    · exact ⟨"", by unfold MetricLog.String; rw [h1]⟩
    · exact ⟨_, by unfold MetricLog.String; rw [h2]⟩

/-! ## Inputs on which claims fail as worded -/

/-- C5 counterexample: the log made by PutDimension("Service","API"),
WithDimensionSet(["Service"]), PutMetric("Count", 1, "Count") and
PutMetric("Latency", NaN, "Milliseconds") passes Validate and has the flat keys
"Service", "Count" and "Latency", but MarshalJSON returns the error of
json.Marshal and no document, so there are no top-level keys at all. -/
theorem top_level_keys_without_document :
    applyOps (NewMetricLog "N" 1700000000000)
      [Op.putDimension "Service" "API", Op.withDimensionSet ["Service"],
       Op.putMetric "Count" (Value.int 1) "Count",
       Op.putMetric "Latency" Value.unsupported "Milliseconds"] = some nanLog ∧
    Validate nanLog = some none ∧
    nanLog.metrics.lookup "Latency" = some Value.unsupported ∧
    "Service" ∈ nanLog.metrics ∧ "Count" ∈ nanLog.metrics ∧
    ¬ Encodable nanLog.metrics ∧
    MarshalJSON nanLog = some (none, some Error.jsonUnsupported) ∧
    ∀ doc, MarshalJSON nanLog ≠ some (some doc, none) := by
  refine ⟨rfl, by decide, by decide, by decide, by decide, by decide, rfl, ?_⟩
  intro doc h
  have h2 : MarshalJSON nanLog = some (none, some Error.jsonUnsupported) := rfl
  rw [h2] at h
  simp at h

/-- C11 counterexample: on the minimal valid log PutMetric("K", 1, "Count")
writes 1 under "K" and the later PutMetric("K", NaN, "Count") writes NaN under
"K"; the flat value map then holds NaN under "K" and Validate succeeds, but
MarshalJSON returns the error of json.Marshal and no document, so the valid log
does not serialize with top-level "K". -/
theorem last_write_not_serialized :
    applyOps (NewMetricLog "N" 1700000000000)
      [Op.putDimension "Service" "API", Op.withDimensionSet ["Service"],
       Op.putMetric "Count" (Value.int 1) "Count",
       Op.putMetric "K" (Value.int 1) "Count",
       Op.putMetric "K" Value.unsupported "Count"] = some nanOverwriteLog ∧
    (Op.putMetric "K" (Value.int 1) "Count").written = some ("K", Value.int 1) ∧
    (Op.putMetric "K" Value.unsupported "Count").written = some ("K", Value.unsupported) ∧
    nanOverwriteLog.metrics.lookup "K" = some Value.unsupported ∧
    Validate nanOverwriteLog = some none ∧
    MarshalJSON nanOverwriteLog = some (none, some Error.jsonUnsupported) ∧
    ∀ doc, MarshalJSON nanOverwriteLog ≠ some (some doc, none) := by
  refine ⟨rfl, rfl, rfl, by decide, by decide, rfl, ?_⟩
  intro doc h
  have h2 : MarshalJSON nanOverwriteLog = some (none, some Error.jsonUnsupported) := rfl
  rw [h2] at h
  simp at h

/-- C29 counterexample: the log made by PutMetric("A", 1, "Bad"),
PutMetricWithResolution("J", 2, "Count", 30) and PutMetric("", 3, "Count") after
a dimension and its set passes checks 1 to 4; its metric "J" fails only its
storage-resolution check and the metric after it fails its name-length check,
yet Validate reports the invalid unit of the earlier metric "A", not the
storage-resolution error of "J". -/
theorem earlier_metric_error_reported :
    applyOps (NewMetricLog "N" 1700000000000)
      [Op.putDimension "Service" "API", Op.withDimensionSet ["Service"],
       Op.putMetric "A" (Value.int 1) "Bad",
       Op.putMetricWithResolution "J" (Value.int 2) "Count" 30,
       Op.putMetric "" (Value.int 3) "Count"] = some earlierFailureLog ∧
    firstError ([namespaceCheck earlierFailureDirective,
      metricsExistCheck earlierFailureDirective,
      dimensionSetsExistCheck earlierFailureDirective]
      ++ emptySetChecks 0 earlierFailureDirective.Dimensions) = none ∧
    earlierFailureDirective.Metrics =
      [{ Name := "A", Unit := some "Bad", StorageResolution := none }] ++
        { Name := "J", Unit := some "Count", StorageResolution := some 30 } ::
        { Name := "", Unit := some "Count", StorageResolution := none } :: [] ∧
    (metricNameCheck { Name := "J", Unit := some "Count", StorageResolution := some 30 } = none ∧
      metricValueCheck earlierFailureLog.metrics
        { Name := "J", Unit := some "Count", StorageResolution := some 30 } = none ∧
      unitCheck { Name := "J", Unit := some "Count", StorageResolution := some 30 } = none ∧
      resolutionCheck { Name := "J", Unit := some "Count", StorageResolution := some 30 }
        = some (Error.invalidStorageResolution "J")) ∧
    metricNameCheck { Name := "", Unit := some "Count", StorageResolution := none }
      = some (Error.metricNameTooShort "") ∧
    Validate earlierFailureLog = some (some (Error.invalidUnit "Bad" "A")) ∧
    Validate earlierFailureLog ≠ some (some (Error.invalidStorageResolution "J")) ∧
    (Error.invalidUnit "Bad" "A").message = "invalid unit 'Bad' for metric 'A'" :=
  ⟨rfl, by decide, rfl, ⟨by decide, by decide, by decide, by decide⟩, by decide, by decide,
    by decide, by decide⟩

/-- C30 counterexample: the log whose dimension sets are 31 names, then
["NoValue"], then 31 names passes checks 1 to 5; its set 1 has one entry, a name
without a value, and the later set 2 has more than 30 entries, yet Validate
reports that set 0 exceeds the maximum size, not the missing value of set 1. -/
theorem earlier_set_error_reported :
    applyOps (NewMetricLog "N" 1700000000000)
      [Op.withDimensionSet (dimensionNames 31), Op.withDimensionSet ["NoValue"],
       Op.withDimensionSet (dimensionNames 31),
       Op.putMetric "Count" (Value.int 1) "Count"] = some oversizedFirstLog ∧
    firstError ([namespaceCheck oversizedFirstDirective,
      metricsExistCheck oversizedFirstDirective,
      dimensionSetsExistCheck oversizedFirstDirective]
      ++ emptySetChecks 0 oversizedFirstDirective.Dimensions
      ++ metricChecks oversizedFirstLog.metrics oversizedFirstDirective.Metrics) = none ∧
    oversizedFirstDirective.Dimensions
      = [dimensionNames 31] ++ ["NoValue"] :: [] ++ dimensionNames 31 :: [] ∧
    ["NoValue"].length ≤ 30 ∧ "NoValue" ∉ oversizedFirstLog.metrics ∧
    30 < (dimensionNames 31).length ∧
    Validate oversizedFirstLog = some (some (Error.dimensionSetTooLarge 0)) ∧
    Validate oversizedFirstLog ≠ some (some (Error.dimensionValueMissing "NoValue")) ∧
    (∀ dim, Validate oversizedFirstLog ≠ some (some (Error.dimensionNameTooLong dim))) ∧
    (Error.dimensionSetTooLarge 0).message = "dimension set 0 exceeds maximum size of 30" := by
  refine ⟨rfl, by decide, rfl, by decide, by decide, by decide, by decide, by decide, ?_,
    by decide⟩
  intro dim h
  have h2 : Validate oversizedFirstLog = some (some (Error.dimensionSetTooLarge 0)) := by decide
  rw [h2] at h
  simp at h

end Emf
